import Mathlib

/-!
A shallow embedding of the memory-pool allocator in `src/mem_pool.c`.

Modelling conventions, applied uniformly:
* C pointers into the node heap (`node_pt`) become arena indices (`Nat`);
  the null pointer becomes `Option.none`.
* `alloc_record.mem` (a pointer into the region) becomes an offset into the
  region, again with `none` for the null pointer; pointer comparisons in
  `_mem_sort_gap_ix` compare these offsets, with null reading as offset 0.
* `unsigned`/`size_t` counters become `Nat`.  C unsigned subtraction wraps
  at zero while `Nat` subtraction truncates; no theorem below depends on
  the value of a decremented zero counter.
* `calloc` produces zero-initialized records (`Node.zero`, `Gap.zero`);
  slots appended by a growth `realloc` are modelled as zero-initialized
  as well (in C their contents are indeterminate).
* The out-of-bounds read `gap_ix[j + 1]` at `j + 1 = capacity` performed by
  the shift loop of `_mem_remove_from_gap_ix` is modelled as reading
  `Gap.zero`; the read indices themselves are computed separately by
  `memRemoveShiftReads` so that the access pattern can be examined.
* `total_nodes` is `node_heap.length` and `gap_ix_capacity` is
  `gap_ix.length`, so the capacity fields are kept implicitly.
-/

inductive AllocStatus where
  | ok
  | fail
  | notFreed
  | calledAgain
  deriving DecidableEq, Repr

inductive AllocPolicy where
  | firstFit
  | bestFit
  deriving DecidableEq, Repr

/-- One record of the node heap (`node_t`): an `alloc_record` (size and
region offset), the `used`/`allocated` flags and the doubly-linked-list
neighbor indices. -/
structure Node where
  size : Nat
  mem : Option Nat
  used : Bool
  allocated : Bool
  next : Option Nat
  prev : Option Nat
  deriving DecidableEq, Repr

/-- A zero-initialized node record, as produced by `calloc`. -/
def Node.zero : Node :=
  { size := 0, mem := none, used := false, allocated := false,
    next := none, prev := none }

/-- One entry of the gap index (`gap_t`): a size and a reference to a heap
record. -/
structure Gap where
  size : Nat
  node : Option Nat
  deriving DecidableEq, Repr

/-- A zero-initialized gap-index entry, as produced by `calloc`. -/
def Gap.zero : Gap :=
  { size := 0, node := none }

/-- The pool manager (`pool_mgr_t` together with its embedded `pool_t`):
policy, counters, the node heap and the gap index. -/
structure PoolMgr where
  policy : AllocPolicy
  total_size : Nat
  alloc_size : Nat
  num_allocs : Nat
  num_gaps : Nat
  used_nodes : Nat
  node_heap : List Node
  gap_ix : List Gap
  deriving DecidableEq, Repr

/-- Dereference a heap index; reading a slot out of range yields the
zero record (such a read does not occur on the paths covered by the
theorems below unless stated). -/
def nodeAt (hp : List Node) (i : Nat) : Node :=
  hp.getD i Node.zero

/-- Dereference a gap-index slot. -/
def gapAt (ix : List Gap) (k : Nat) : Gap :=
  ix.getD k Gap.zero

/-- Overwrite one heap record, leaving every other pool field alone; the
model of an assignment through a `node_pt`. -/
def heapSet (m : PoolMgr) (i : Nat) (nd : Node) : PoolMgr :=
  { m with node_heap := m.node_heap.set i nd }

/-- A used, unallocated record: a gap segment. -/
def Node.isGap (nd : Node) : Bool :=
  nd.used && !nd.allocated

/-- The region offset referenced by the node of a gap-index entry, with the null
pointer reading as 0, mirroring the C pointer comparison in
`_mem_sort_gap_ix`. -/
def gapNodeMem (hp : List Node) (g : Gap) : Nat :=
  match g.node with
  | none => 0
  | some a => (nodeAt hp a).mem.getD 0

/-- `_mem_resize_node_heap`: the C computes
`used_nodes / total_nodes` with integer division before converting to
`float`, so the `> 0.75` comparison holds exactly when the integer
quotient is at least 1; in that case the heap is reallocated to twice
its capacity (new slots zero-modelled). -/
def memResizeNodeHeap (m : PoolMgr) : PoolMgr :=
  if 1 ≤ m.used_nodes / m.node_heap.length then
    { m with node_heap := m.node_heap ++ List.replicate m.node_heap.length Node.zero }
  else m

/-- `_mem_resize_gap_ix`: same integer-quotient threshold and doubling,
on `num_gaps / gap_ix_capacity`. -/
def memResizeGapIx (m : PoolMgr) : PoolMgr :=
  if 1 ≤ m.num_gaps / m.gap_ix.length then
    { m with gap_ix := m.gap_ix ++ List.replicate m.gap_ix.length Gap.zero }
  else m

/-- One iteration of the `_mem_sort_gap_ix` loop at index `i`: swap the
entries at `i` and `i - 1` when the one at `i` has strictly smaller size,
or equal size and a node at a strictly lower region offset. -/
def memSortGapStep (hp : List Node) (ix : List Gap) (i : Nat) : List Gap :=
  let a := gapAt ix i
  let b := gapAt ix (i - 1)
  if a.size < b.size then
    (ix.set i b).set (i - 1) a
  else if a.size = b.size then
    if gapNodeMem hp a < gapNodeMem hp b then
      (ix.set i b).set (i - 1) a
    else ix
  else ix

/-- The `_mem_sort_gap_ix` loop, running indices `i, i - 1, ..., 1`. -/
def memSortGapAux (hp : List Node) (ix : List Gap) : Nat → List Gap
  | 0 => ix
  | i + 1 => memSortGapAux hp (memSortGapStep hp ix (i + 1)) i

/-- `_mem_sort_gap_ix`: bubble the entry appended at position
`num_gaps - 1` up into place; always reports `ALLOC_OK`. -/
def memSortGapIx (m : PoolMgr) : AllocStatus × PoolMgr :=
  (AllocStatus.ok, { m with gap_ix := memSortGapAux m.node_heap m.gap_ix (m.num_gaps - 1) })

/-- `_mem_add_to_gap_ix`: resize if necessary, write the new entry at
position `num_gaps`, bump `num_gaps` and sort. -/
def memAddToGapIx (m : PoolMgr) (size : Nat) (node : Nat) : AllocStatus × PoolMgr :=
  let m1 := memResizeGapIx m
  let m2 := { m1 with gap_ix := m1.gap_ix.set m1.num_gaps { size := size, node := some node } }
  let m3 := { m2 with num_gaps := m2.num_gaps + 1 }
  let s := memSortGapIx m3
  if s.1 = AllocStatus.ok then (AllocStatus.ok, s.2) else (AllocStatus.fail, s.2)

/-- The linear search of `_mem_remove_from_gap_ix` for the entry whose
node pointer equals the target. -/
def gapFindPos (ix : List Gap) (node : Nat) : Option Nat :=
  ix.findIdx? (fun g => g.node == some node)

/-- The shift loop of `_mem_remove_from_gap_ix`: for every
`j ∈ [pos, capacity)` copy entry `j + 1` into entry `j`.  The final
iteration reads entry `capacity`, one past the end of the array; that
out-of-bounds read is modelled as `Gap.zero`. -/
def memRemoveShift (ix : List Gap) (pos : Nat) : List Gap :=
  (List.range ix.length).map (fun j =>
    if j < pos then gapAt ix j else gapAt ix (j + 1))

/-- The list of source indices read by the shift loop of
`_mem_remove_from_gap_ix` on an array of capacity `cap` with the target
found at position `pos`: the loop body reads `gap_ix[j + 1]` for each
`j ∈ [pos, cap)`. -/
def memRemoveShiftReads (cap pos : Nat) : List Nat :=
  (List.range cap).filterMap (fun j => if pos ≤ j then some (j + 1) else none)

/-- `_mem_remove_from_gap_ix`: find the entry for `node`, shift the tail
down one position, decrement `num_gaps` and clear the trailing slot.
The `size` argument is unused, as in the C. -/
def memRemoveFromGapIx (m : PoolMgr) (_size : Nat) (node : Nat) : AllocStatus × PoolMgr :=
  match gapFindPos m.gap_ix node with
  | none => (AllocStatus.fail, m)
  | some pos =>
    let ix1 := memRemoveShift m.gap_ix pos
    let ng := m.num_gaps - 1
    let ix2 := ix1.set ng Gap.zero
    (AllocStatus.ok, { m with gap_ix := ix2, num_gaps := ng })

/-- The FIRST_FIT selection loop of `mem_new_alloc`: scan the node heap
in slot-index order, breaking at the first used, unallocated record of
sufficient size.  The loop variable `a_node` is written on every
iteration, so when nothing breaks the loop it ends at the last slot; the
trailing check nulls it only when the size of that last record is below the
request. -/
def ffSelect (hp : List Node) (size : Nat) : Option Nat :=
  match hp.findIdx? (fun nd => nd.used && !nd.allocated && decide (size ≤ nd.size)) with
  | some i => some i
  | none =>
    match hp.length with
    | 0 => none
    | n + 1 => if (nodeAt hp n).size < size then none else some n

/-- The BEST_FIT selection loop of `mem_new_alloc`: scan the gap index
from position 0 over the whole capacity, breaking at the first entry of
sufficient size, and take the node pointer of that entry. -/
def bfSelect (ix : List Gap) (size : Nat) : Option Nat :=
  match ix.findIdx? (fun g => decide (size ≤ g.size)) with
  | none => none
  | some j => (gapAt ix j).node

/-- The policy dispatch of `mem_new_alloc`: FIRST_FIT scans the node
heap, BEST_FIT scans the gap index. -/
def policySelect (m1 : PoolMgr) (size : Nat) : Option Nat :=
  match m1.policy with
  | AllocPolicy.firstFit => ffSelect m1.node_heap size
  | AllocPolicy.bestFit => bfSelect m1.gap_ix size

/-- The body of `mem_new_alloc` after a candidate record `a` has been
selected: bump the counters, remove the candidate from the gap index,
convert it to an allocation of the requested size and, when a residual
gap remains, acquire an unused arena record for it, link it in after `a`
and insert it into the gap index.  When no unused record is found the
function returns the null handle with the mutations above already
applied, exactly as the C does. -/
def memNewAllocCommit (m1 : PoolMgr) (size : Nat) (a : Nat) : Option Nat × PoolMgr :=
  let aNode := nodeAt m1.node_heap a
  let m2 := { m1 with num_allocs := m1.num_allocs + 1, alloc_size := m1.alloc_size + size }
  let remaining := aNode.size - size
  let m3 := (memRemoveFromGapIx m2 size a).2
  let m4 := heapSet m3 a { aNode with allocated := true, size := size }
  if remaining = 0 then (some a, m4) else
  match m4.node_heap.findIdx? (fun nd => !nd.used) with
  | none => (none, m4)
  | some r =>
    let rNode : Node :=
      { size := remaining, mem := aNode.mem.map (fun x => x + size),
        used := true, allocated := false, prev := some a, next := aNode.next }
    let m5 := { heapSet m4 r rNode with used_nodes := m4.used_nodes + 1 }
    let m6 :=
      match aNode.next with
      | some nx => heapSet m5 nx { nodeAt m5.node_heap nx with prev := some r }
      | none => m5
    let m7 := heapSet m6 a { nodeAt m6.node_heap a with next := some r }
    let m8 := (memAddToGapIx m7 remaining r).2
    (some a, m8)

/-- `mem_new_alloc`.  Returns the index of the allocated record (the
handle cast to `alloc_pt` in the C) together with the new pool state;
`none` stands for the C null result. -/
def memNewAlloc (m : PoolMgr) (size : Nat) : Option Nat × PoolMgr :=
  if m.num_gaps = 0 then (none, m) else
  let m1 := memResizeNodeHeap m
  match policySelect m1 size with
  | none => (none, m1)
  | some a => memNewAllocCommit m1 size a

/-- The forward-coalesce block of `mem_del_alloc`: the next node `j` is a
gap; remove it from the gap index, grow node `i` by its size, retire `j`
and splice it out of the list. -/
def forwardMerge (m : PoolMgr) (i j : Nat) : PoolMgr :=
  let jn := nodeAt m.node_heap j
  let m1 := (memRemoveFromGapIx m jn.size j).2
  let m2 := heapSet m1 i { nodeAt m1.node_heap i with size := (nodeAt m1.node_heap i).size + jn.size }
  let m3 := heapSet m2 j { nodeAt m2.node_heap j with used := false, size := 0, mem := none }
  let m4 := { m3 with used_nodes := m3.used_nodes - 1 }
  match jn.next with
  | some k =>
    let m5 := heapSet m4 k { nodeAt m4.node_heap k with prev := some i }
    heapSet m5 i { nodeAt m5.node_heap i with next := some k }
  | none =>
    let m5 := heapSet m4 j { nodeAt m4.node_heap j with prev := none }
    heapSet m5 i { nodeAt m5.node_heap i with next := none }

/-- The backward-coalesce block of `mem_del_alloc` after the gap-index
removal of `p` has succeeded: grow `p` by the current size of node `i`, retire
`i` and splice it out of the list. -/
def backwardMerge (m : PoolMgr) (i p : Nat) : PoolMgr :=
  let m1 := heapSet m p { nodeAt m.node_heap p with size := (nodeAt m.node_heap p).size + (nodeAt m.node_heap i).size }
  let m2 := heapSet m1 i { nodeAt m1.node_heap i with used := false, size := 0, mem := none }
  let m3 := { m2 with used_nodes := m2.used_nodes - 1 }
  let m4 :=
    match (nodeAt m3.node_heap i).next with
    | some k =>
      let ma := heapSet m3 p { nodeAt m3.node_heap p with next := some k }
      heapSet ma k { nodeAt ma.node_heap k with prev := some p }
    | none => heapSet m3 p { nodeAt m3.node_heap p with next := none }
  heapSet m4 i { nodeAt m4.node_heap i with next := none, prev := none }

/-- The opening lines of `mem_del_alloc`: flip `allocated` on the target
record and update the counters, with no validation of the handle, just
as the C does. -/
def delMark (m : PoolMgr) (i : Nat) : PoolMgr :=
  let nd0 := nodeAt m.node_heap i
  { m with node_heap := m.node_heap.set i { nd0 with allocated := false },
           num_allocs := m.num_allocs - 1,
           alloc_size := m.alloc_size - nd0.size }

/-- The forward-coalesce phase of `mem_del_alloc`: merge with the next
node when it exists and is not allocated. -/
def delFwd (m1 : PoolMgr) (i : Nat) : PoolMgr :=
  match (nodeAt m1.node_heap i).next with
  | some j =>
    if (nodeAt m1.node_heap j).allocated = false then forwardMerge m1 i j else m1
  | none => m1

/-- The backward-coalesce phase and final gap-index insertion of
`mem_del_alloc`; a failed gap-index removal of the predecessor returns
`ALLOC_FAIL` early with the state partially mutated, as in the C. -/
def delBwd (m2 : PoolMgr) (i : Nat) : AllocStatus × PoolMgr :=
  match (nodeAt m2.node_heap i).prev with
  | some p =>
    if (nodeAt m2.node_heap p).allocated = false then
      let rm := memRemoveFromGapIx m2 (nodeAt m2.node_heap p).size p
      if rm.1 = AllocStatus.fail then (AllocStatus.fail, rm.2)
      else
        let m3 := backwardMerge rm.2 i p
        memAddToGapIx m3 (nodeAt m3.node_heap p).size p
    else
      memAddToGapIx m2 (nodeAt m2.node_heap i).size i
  | none => memAddToGapIx m2 (nodeAt m2.node_heap i).size i

/-- `mem_del_alloc` on the record at heap index `i` (the handle passed by
the caller).  Note the C performs no validation of the handle: it
unconditionally flips `allocated`, updates the counters, coalesces with
gap neighbors and re-inserts the result into the gap index. -/
def memDelAlloc (m : PoolMgr) (i : Nat) : AllocStatus × PoolMgr :=
  delBwd (delFwd (delMark m i) i) i

/-- `mem_pool_open` for a non-null pool store with room: heap and gap
index of initial capacity 40, slot 0 holding the single gap that covers
the whole region. -/
def memPoolOpen (size : Nat) (policy : AllocPolicy) : PoolMgr :=
  { policy := policy, total_size := size, alloc_size := 0,
    num_allocs := 0, num_gaps := 1, used_nodes := 1,
    node_heap := (List.replicate 40 Node.zero).set 0
      { size := size, mem := some 0, used := true, allocated := false,
        next := none, prev := none },
    gap_ix := (List.replicate 40 Gap.zero).set 0 { size := size, node := some 0 } }

/-- `mem_pool_close`: refuse with `ALLOC_NOT_FREED` unless exactly one
gap and zero allocations remain; on success every internal structure is
freed, modelled by returning `none` for the destroyed pool. -/
def memPoolClose (m : PoolMgr) : AllocStatus × Option PoolMgr :=
  if m.num_gaps ≠ 1 then (AllocStatus.notFreed, some m)
  else if m.num_allocs ≠ 0 then (AllocStatus.notFreed, some m)
  else (AllocStatus.ok, none)

/-- The segment walk of `mem_inspect_pool`: follow `next` pointers
collecting `(size, allocated)` pairs; the fuel bounds the walk the way
the `used_nodes`-sized output array bounds the defined behavior of the C loop. -/
def memInspectWalk (hp : List Node) : Option Nat → Nat → List (Nat × Bool)
  | _, 0 => []
  | none, _ => []
  | some i, fuel + 1 =>
    (nodeAt hp i |>.size, nodeAt hp i |>.allocated) :: memInspectWalk hp (nodeAt hp i).next fuel

/-- `mem_inspect_pool`: the walk starts unconditionally at
`node_heap[0]` and reports `used_nodes` segments. -/
def memInspectPool (m : PoolMgr) : List (Nat × Bool) :=
  memInspectWalk m.node_heap (some 0) m.used_nodes

/-- The first-fit selection as the specification words it: walk the
doubly-linked segment list in address order starting from the head and
return the first gap whose size is at least the request.  This is the
spec-side definition used to compare against the selection the code
actually performs (`ffSelect`). -/
def specFirstFitWalk (hp : List Node) (size : Nat) : Option Nat → Nat → Option Nat
  | _, 0 => none
  | none, _ => none
  | some i, fuel + 1 =>
    if (nodeAt hp i).isGap && decide (size ≤ (nodeAt hp i).size) then some i
    else specFirstFitWalk hp size (nodeAt hp i).next fuel

/-- Spec-side first-fit over a pool state: the walk starts at the list
head, which the implementation keeps in heap slot 0. -/
def specFirstFit (m : PoolMgr) (size : Nat) : Option Nat :=
  specFirstFitWalk m.node_heap size (some 0) m.node_heap.length

/-- The successor reference of record `i` is in range, used, and points
back at `i`. -/
def nextOkB (hp : List Node) (i : Nat) : Bool :=
  match (nodeAt hp i).next with
  | none => true
  | some j => decide (j < hp.length) && (nodeAt hp j).used && ((nodeAt hp j).prev == some i)

/-- The predecessor reference of record `i` is in range, used, and points
back at `i`. -/
def prevOkB (hp : List Node) (i : Nat) : Bool :=
  match (nodeAt hp i).prev with
  | none => true
  | some p => decide (p < hp.length) && (nodeAt hp p).used && ((nodeAt hp p).next == some i)

/-- List-structure invariant: every used record has coherent neighbor
references. -/
def LinksOk (hp : List Node) : Prop :=
  ∀ i < hp.length, (nodeAt hp i).used = true → nextOkB hp i = true ∧ prevOkB hp i = true

/-- Record `i` has positive size, a region offset, and its successor
starts exactly where it ends (spec invariant 2, segments tile the
region). -/
def tileOkB (hp : List Node) (i : Nat) : Bool :=
  decide (0 < (nodeAt hp i).size) && (nodeAt hp i).mem.isSome &&
    (match (nodeAt hp i).next with
     | none => true
     | some j => ((nodeAt hp j).mem.getD 0) == ((nodeAt hp i).mem.getD 0) + (nodeAt hp i).size)

/-- Tiling invariant over all used records. -/
def TileOk (hp : List Node) : Prop :=
  ∀ i < hp.length, (nodeAt hp i).used = true → tileOkB hp i = true

/-- Record `i`, if it is a gap, has an allocated successor (or none). -/
def gapNextOkB (hp : List Node) (i : Nat) : Bool :=
  !(nodeAt hp i).isGap ||
    (match (nodeAt hp i).next with
     | none => true
     | some j => (nodeAt hp j).allocated)

/-- No two adjacent segments are both gaps (spec invariant 3): in the
linked list, the successor of every gap is allocated. -/
def NoAdjGaps (hp : List Node) : Prop :=
  ∀ i < hp.length, gapNextOkB hp i = true

/-- Every unused arena slot carries a zero size, as left by `calloc` or
by the retirement code of `mem_del_alloc`. -/
def ZeroUnused (hp : List Node) : Prop :=
  ∀ i < hp.length, (nodeAt hp i).used = false → (nodeAt hp i).size = 0

/-- Gap-index entry `k` references an in-range gap record and carries its
size. -/
def gapEntryOkB (m : PoolMgr) (k : Nat) : Bool :=
  match (gapAt m.gap_ix k).node with
  | none => false
  | some a => decide (a < m.node_heap.length) && (nodeAt m.node_heap a).isGap &&
      ((gapAt m.gap_ix k).size == (nodeAt m.node_heap a).size)

/-- The first `num_gaps` entries of the gap index are valid and the rest
of the capacity is zeroed. -/
def GapIxValid (m : PoolMgr) : Prop :=
  m.num_gaps ≤ m.gap_ix.length ∧
  (∀ k < m.num_gaps, gapEntryOkB m k = true) ∧
  (∀ k < m.gap_ix.length, m.num_gaps ≤ k → gapAt m.gap_ix k = Gap.zero)

/-- Every gap record of the heap appears among the first `num_gaps`
entries of the gap index. -/
def GapIxComplete (m : PoolMgr) : Prop :=
  ∀ a < m.node_heap.length, (nodeAt m.node_heap a).isGap = true →
    ((List.range m.num_gaps).any (fun k => (gapAt m.gap_ix k).node == some a)) = true

/-- No heap record is referenced twice by the live gap-index entries. -/
def GapIxNodup (m : PoolMgr) : Prop :=
  ∀ k < m.num_gaps, ∀ l < m.num_gaps, k ≠ l →
    (gapAt m.gap_ix k).node ≠ (gapAt m.gap_ix l).node

/-- The live gap-index entries are sorted by size, with ties in
non-decreasing order of the region offset of the referenced record
(spec invariant 4). -/
def GapIxSorted (m : PoolMgr) : Prop :=
  ∀ k < m.num_gaps - 1,
    (gapAt m.gap_ix k).size < (gapAt m.gap_ix (k + 1)).size ∨
    ((gapAt m.gap_ix k).size = (gapAt m.gap_ix (k + 1)).size ∧
      gapNodeMem m.node_heap (gapAt m.gap_ix k) ≤ gapNodeMem m.node_heap (gapAt m.gap_ix (k + 1)))

/-- Total size of the allocated segments. -/
def allocSizeSum (hp : List Node) : Nat :=
  (((List.range hp.length).filter
      (fun i => (nodeAt hp i).used && (nodeAt hp i).allocated)).map
    (fun i => (nodeAt hp i).size)).sum

/-- Total size of the gap segments. -/
def gapSizeSum (hp : List Node) : Nat :=
  (((List.range hp.length).filter
      (fun i => (nodeAt hp i).isGap)).map
    (fun i => (nodeAt hp i).size)).sum

/-- The counters agree with a fresh scan of the heap (spec invariants 5
and 6). -/
def CountersOk (m : PoolMgr) : Prop :=
  m.num_gaps = ((List.range m.node_heap.length).filter
      (fun i => (nodeAt m.node_heap i).isGap)).length ∧
  m.num_allocs = ((List.range m.node_heap.length).filter
      (fun i => (nodeAt m.node_heap i).used && (nodeAt m.node_heap i).allocated)).length ∧
  m.used_nodes = ((List.range m.node_heap.length).filter
      (fun i => (nodeAt m.node_heap i).used)).length ∧
  m.alloc_size = allocSizeSum m.node_heap ∧
  m.alloc_size + gapSizeSum m.node_heap = m.total_size

/-- The at-rest invariant bundle of spec section 3. -/
def AtRest (m : PoolMgr) : Prop :=
  LinksOk m.node_heap ∧ TileOk m.node_heap ∧ NoAdjGaps m.node_heap ∧
  ZeroUnused m.node_heap ∧ GapIxValid m ∧ GapIxComplete m ∧
  GapIxNodup m ∧ GapIxSorted m ∧ CountersOk m

instance (hp : List Node) : Decidable (LinksOk hp) := by
  unfold LinksOk; infer_instance

instance (hp : List Node) : Decidable (TileOk hp) := by
  unfold TileOk; infer_instance

instance (hp : List Node) : Decidable (NoAdjGaps hp) := by
  unfold NoAdjGaps; infer_instance

instance (hp : List Node) : Decidable (ZeroUnused hp) := by
  unfold ZeroUnused; infer_instance

instance (m : PoolMgr) : Decidable (GapIxValid m) := by
  unfold GapIxValid; infer_instance

instance (m : PoolMgr) : Decidable (GapIxComplete m) := by
  unfold GapIxComplete; infer_instance

instance (m : PoolMgr) : Decidable (GapIxNodup m) := by
  unfold GapIxNodup; infer_instance

instance (m : PoolMgr) : Decidable (GapIxSorted m) := by
  unfold GapIxSorted; infer_instance

instance (m : PoolMgr) : Decidable (CountersOk m) := by
  unfold CountersOk; infer_instance

instance (m : PoolMgr) : Decidable (AtRest m) := by
  unfold AtRest; infer_instance

/-- The property that heap slot `i` holds a gap able to satisfy a request
of the given size. -/
def fitsGap (hp : List Node) (size i : Nat) : Prop :=
  (nodeAt hp i).isGap = true ∧ size ≤ (nodeAt hp i).size

instance (hp : List Node) (size i : Nat) : Decidable (fitsGap hp size i) := by
  unfold fitsGap; infer_instance

/-- A witness state for the close characterization and several gap-index
facts: the pool just opened, one gap covering the region. -/
def freshPool : PoolMgr := memPoolOpen 100 AllocPolicy.firstFit

/-- A pool state whose node arena is at 31/40 = 77.5 percent utilization
and whose gap index is at the same fill level; the 0.75 fill factor is
exceeded, so the growth rule of the claim requires doubling. -/
def c7pool : PoolMgr :=
  { policy := AllocPolicy.firstFit, total_size := 0, alloc_size := 0,
    num_allocs := 0, num_gaps := 31, used_nodes := 31,
    node_heap := List.replicate 40 Node.zero,
    gap_ix := List.replicate 40 Gap.zero }

/-- A pool with one allocation (slot 0) and one gap (slot 1).  Slot 1 is
a valid heap record but not a currently allocated one, so releasing it is
exactly the invalid-handle case of the claim. -/
def c5pool : PoolMgr :=
  { policy := AllocPolicy.firstFit, total_size := 100, alloc_size := 50,
    num_allocs := 1, num_gaps := 1, used_nodes := 2,
    node_heap := ((List.replicate 40 Node.zero).set 0
        { size := 50, mem := some 0, used := true, allocated := true, next := some 1, prev := none }).set 1
        { size := 50, mem := some 50, used := true, allocated := false, next := none, prev := some 0 },
    gap_ix := (List.replicate 40 Gap.zero).set 0 { size := 50, node := some 1 } }


/-- A reachable, at-rest pool in which heap-slot order disagrees with
address order: segments in address order are slot 0 (alloc, offset 0),
slot 3 (gap of 5 at offset 5), slot 1 (alloc at offset 10), slot 2 (gap
of 30 at offset 20).  Such states arise once a retired slot is reused. -/
def c1pool : PoolMgr :=
  { policy := AllocPolicy.firstFit, total_size := 50, alloc_size := 15,
    num_allocs := 2, num_gaps := 2, used_nodes := 4,
    node_heap := ((((List.replicate 40 Node.zero).set 0
        { size := 5, mem := some 0, used := true, allocated := true, next := some 3, prev := none }).set 3
        { size := 5, mem := some 5, used := true, allocated := false, next := some 1, prev := some 0 }).set 1
        { size := 10, mem := some 10, used := true, allocated := true, next := some 2, prev := some 3 }).set 2
        { size := 30, mem := some 20, used := true, allocated := false, next := none, prev := some 1 },
    gap_ix := ((List.replicate 40 Gap.zero).set 0 { size := 5, node := some 3 }).set 1 { size := 30, node := some 2 } }

/-- A pool state on which the residual path of `mem_new_alloc` finds no
unused arena record: every heap slot is used while the recorded
`used_nodes` stays below capacity (in the C this situation arises because
a growth `realloc` leaves the new slots with indeterminate contents, so
the `used == 0` scan can fail even though the counter suggests room). -/
def c9pool : PoolMgr :=
  { policy := AllocPolicy.firstFit, total_size := 15, alloc_size := 5,
    num_allocs := 1, num_gaps := 1, used_nodes := 1,
    node_heap := [{ size := 10, mem := some 0, used := true, allocated := false, next := some 1, prev := none },
                  { size := 5, mem := some 10, used := true, allocated := true, next := none, prev := some 0 }],
    gap_ix := (List.replicate 40 Gap.zero).set 0 { size := 10, node := some 0 } }

/-- The head invariant of the segment list: arena slot 0 is used, has no
predecessor, and no record points at it as a successor — so the record
created by `mem_pool_open` in slot 0 stays the head of the list. -/
def HeadInv (m : PoolMgr) : Prop :=
  (nodeAt m.node_heap 0).used = true ∧
  (nodeAt m.node_heap 0).prev = none ∧
  ∀ i < m.node_heap.length, (nodeAt m.node_heap i).next ≠ some 0

instance (m : PoolMgr) : Decidable (HeadInv m) := by
  unfold HeadInv; infer_instance

/-- A freshly opened best-fit pool used as a witness state. -/
def c2pool : PoolMgr := memPoolOpen 1000 AllocPolicy.bestFit

/-- The observable segment structure as the round-trip law words it: walk
the linked list from a starting record collecting `(base, size, allocated)`
per segment, bounded by a fuel.  Spec-side observable, used to state the
claims whose conclusion speaks of the segment structure. -/
def segListWalk (hp : List Node) : Option Nat → Nat → List (Nat × Nat × Bool)
  | _, 0 => []
  | none, _ => []
  | some i, fuel + 1 =>
    ((nodeAt hp i).mem.getD 0, (nodeAt hp i).size, (nodeAt hp i).allocated) ::
      segListWalk hp (nodeAt hp i).next fuel

/-- The segment structure of a pool: the walk from heap slot 0 bounded by
the record count, the list `mem_inspect_pool` reports (extended with the
segment base offsets). -/
def segList (m : PoolMgr) : List (Nat × Nat × Bool) :=
  segListWalk m.node_heap (some 0) m.used_nodes

/-- An at-rest first-fit pool on which no gap fits a request of 4 while
the final heap slot holds an allocation of size 4: the brittle trailing
check of the FIRST_FIT loop then returns that allocated record, and the
exact-fit path re-allocates it.  Slot 39 is in use because the arena had
been full before its neighbors were released and coalesced. -/
def anompool : PoolMgr :=
  { policy := AllocPolicy.firstFit, total_size := 17, alloc_size := 14,
    num_allocs := 2, num_gaps := 1, used_nodes := 3,
    node_heap := (((List.replicate 40 Node.zero).set 0
        { size := 10, mem := some 0, used := true, allocated := true, next := some 1, prev := none }).set 1
        { size := 3, mem := some 10, used := true, allocated := false, next := some 39, prev := some 0 }).set 39
        { size := 4, mem := some 13, used := true, allocated := true, next := none, prev := some 1 },
    gap_ix := (List.replicate 40 Gap.zero).set 0 { size := 3, node := some 1 } }

/-- An at-rest first-fit pool on which no gap fits a request of 4 while
the final heap slot holds an allocation of size 10: the trailing check
returns that allocated record and the residual path then carves a new gap
out of it, placing the gap right before the existing gap in slot 1. -/
def anom3pool : PoolMgr :=
  { policy := AllocPolicy.firstFit, total_size := 17, alloc_size := 15,
    num_allocs := 2, num_gaps := 1, used_nodes := 3,
    node_heap := (((List.replicate 40 Node.zero).set 0
        { size := 5, mem := some 0, used := true, allocated := true, next := some 39, prev := none }).set 39
        { size := 10, mem := some 5, used := true, allocated := true, next := some 1, prev := some 0 }).set 1
        { size := 2, mem := some 15, used := true, allocated := false, next := none, prev := some 39 },
    gap_ix := (List.replicate 40 Gap.zero).set 0 { size := 2, node := some 1 } }

theorem nodeAt_set_self {hp : List Node} {i : Nat} (h : i < hp.length) (nd : Node) :
    nodeAt (hp.set i nd) i = nd := by
  simp [nodeAt, List.getD_eq_getElem?_getD, List.getElem?_set_self h]

theorem nodeAt_set_of_ne {hp : List Node} {i j : Nat} (h : i ≠ j) (nd : Node) :
    nodeAt (hp.set i nd) j = nodeAt hp j := by
  simp [nodeAt, List.getD_eq_getElem?_getD, List.getElem?_set_ne h]

theorem nodeAt_append_left {hp tl : List Node} {i : Nat} (h : i < hp.length) :
    nodeAt (hp ++ tl) i = nodeAt hp i := by
  simp [nodeAt, List.getD_eq_getElem?_getD, List.getElem?_append, h]

theorem nodeAt_of_le {hp : List Node} {i : Nat} (h : hp.length ≤ i) :
    nodeAt hp i = Node.zero := by
  simp [nodeAt, List.getD_eq_getElem?_getD, List.getElem?_eq_none h]

theorem gapAt_set_self {ix : List Gap} {k : Nat} (h : k < ix.length) (g : Gap) :
    gapAt (ix.set k g) k = g := by
  simp [gapAt, List.getD_eq_getElem?_getD, List.getElem?_set_self h]

theorem gapAt_set_of_ne {ix : List Gap} {k l : Nat} (h : k ≠ l) (g : Gap) :
    gapAt (ix.set k g) l = gapAt ix l := by
  simp [gapAt, List.getD_eq_getElem?_getD, List.getElem?_set_ne h]

theorem nodeAt_eq_getElem {hp : List Node} {i : Nat} (h : i < hp.length) :
    nodeAt hp i = hp[i] := by
  unfold nodeAt
  exact List.getD_eq_getElem hp Node.zero h

/-- Unpack a successful `findIdx?`: the found index is in range, its
element satisfies the predicate, and no earlier element does. -/
theorem findIdx?_found {α : Type} {p : α → Bool} {xs : List α} {i : Nat} (d : α)
    (h : xs.findIdx? p = some i) :
    i < xs.length ∧ p (xs.getD i d) = true ∧ ∀ j < i, p (xs.getD j d) = false := by
  rw [List.findIdx?_eq_some_iff_findIdx_eq] at h
  obtain ⟨hlen, hidx⟩ := h
  refine ⟨hlen, ?_, ?_⟩
  · rw [List.getD_eq_getElem xs d hlen]
    have := @List.findIdx_getElem _ p xs (hidx ▸ hlen)
    simpa [hidx] using this
  · intro j hj
    have hjl : j < xs.length := lt_trans hj hlen
    rw [List.getD_eq_getElem xs d hjl]
    exact List.not_of_lt_findIdx (hidx ▸ hj)

/-- A `findIdx?` that returns `none` rejects every element. -/
theorem findIdx?_none {α : Type} {p : α → Bool} {xs : List α} (d : α)
    (h : xs.findIdx? p = none) :
    ∀ j < xs.length, p (xs.getD j d) = false := by
  rw [List.findIdx?_eq_none_iff] at h
  intro j hj
  rw [List.getD_eq_getElem xs d hj]
  exact h _ (xs.getElem_mem hj)

/-- `findIdx?` succeeds when some element satisfies the predicate. -/
theorem findIdx?_isSome {α : Type} {p : α → Bool} {xs : List α} {j : Nat} (d : α)
    (hj : j < xs.length) (hp : p (xs.getD j d) = true) :
    ∃ i, xs.findIdx? p = some i := by
  cases h : xs.findIdx? p with
  | some i => exact ⟨i, rfl⟩
  | none =>
    have := findIdx?_none d h j hj
    rw [this] at hp
    exact absurd hp (by simp)


/-- C6: `mem_pool_close` succeeds exactly when `num_allocs = 0` and
`num_gaps = 1`; in every other state it returns `ALLOC_NOT_FREED` and
leaves the pool untouched; on success the pool and its internal
structures are released (modelled by `none`). -/
theorem mem_pool_close_characterization (m : PoolMgr) :
    ((memPoolClose m).1 = AllocStatus.ok ↔ m.num_allocs = 0 ∧ m.num_gaps = 1) ∧
    (¬(m.num_allocs = 0 ∧ m.num_gaps = 1) →
      (memPoolClose m).1 = AllocStatus.notFreed ∧ (memPoolClose m).2 = some m) ∧
    (m.num_allocs = 0 ∧ m.num_gaps = 1 → (memPoolClose m).2 = none) := by
  unfold memPoolClose
  by_cases h1 : m.num_gaps = 1 <;> by_cases h2 : m.num_allocs = 0 <;>
    simp [h1, h2]

/-- C6 witness: the characterization applied to a freshly opened pool,
which closes successfully. -/
theorem mem_pool_close_characterization_witness :
    (memPoolClose freshPool).1 = AllocStatus.ok ∧ (memPoolClose freshPool).2 = none := by
  have h := mem_pool_close_characterization freshPool
  have hc : freshPool.num_allocs = 0 ∧ freshPool.num_gaps = 1 := by decide
  exact ⟨h.1.mpr hc, h.2.2 hc⟩


/-- C7: the growth checks are defeated by integer truncation.  At
`used_nodes = 31`, capacity 40 we have `31 * 4 > 40 * 3` (utilization
exceeds 0.75), yet `_mem_resize_node_heap` computes the C integer
quotient `31 / 40 = 0`, compares `0.0 > 0.75` and does not grow; the
gap-index check fails the same way, and the growth check at the start of
`mem_new_alloc` leaves the arena at capacity 40. -/
theorem resize_growth_defeated_by_truncation :
    31 * 4 > 40 * 3 ∧
    memResizeNodeHeap c7pool = c7pool ∧
    memResizeGapIx c7pool = c7pool ∧
    (memNewAlloc c7pool 1).2.node_heap.length = 40 := by
  refine ⟨by norm_num, by decide, by decide, by decide⟩

/-- C8: on a gap index of capacity 40 with the target entry found at
position 0 (as when removing the single gap of a fresh pool), the shift
loop of `_mem_remove_from_gap_ix` reads source index 40 — equal to the
capacity, one element past the array bound — so its accesses are not
bounded by the indices `0 .. capacity - 1` that the claim asserts. -/
theorem remove_shift_reads_one_past_capacity :
    freshPool.gap_ix.length = 40 ∧
    gapFindPos freshPool.gap_ix 0 = some 0 ∧
    40 ∈ memRemoveShiftReads 40 0 ∧
    ¬(∀ r ∈ memRemoveShiftReads 40 0, r < 40) := by
  refine ⟨by decide, by decide, by decide, ?_⟩
  intro h
  exact absurd (h 40 (by decide)) (by decide)


/-- C5: `mem_del_alloc` performs no handle validation.  Releasing the
handle of slot 1 of `c5pool` — a segment that is not currently allocated
— is accepted with `ALLOC_OK` and mutates the pool (the counters move
and a duplicate gap-index entry appears), instead of failing with an
invalid-handle error and leaving the pool unchanged. -/
theorem mem_del_alloc_accepts_invalid_handle :
    AtRest c5pool ∧
    (nodeAt c5pool.node_heap 1).allocated = false ∧
    (memDelAlloc c5pool 1).1 = AllocStatus.ok ∧
    (memDelAlloc c5pool 1).2.num_allocs = 0 ∧
    (memDelAlloc c5pool 1).2.num_gaps = 2 ∧
    (memDelAlloc c5pool 1).2 ≠ c5pool := by
  refine ⟨by decide, by decide, by decide, by decide, by decide, by decide⟩

@[simp] theorem heapSet_node_heap (m : PoolMgr) (i : Nat) (nd : Node) :
    (heapSet m i nd).node_heap = m.node_heap.set i nd := rfl

@[simp] theorem heapSet_policy (m : PoolMgr) (i : Nat) (nd : Node) :
    (heapSet m i nd).policy = m.policy := rfl

@[simp] theorem heapSet_num_gaps (m : PoolMgr) (i : Nat) (nd : Node) :
    (heapSet m i nd).num_gaps = m.num_gaps := rfl

@[simp] theorem heapSet_num_allocs (m : PoolMgr) (i : Nat) (nd : Node) :
    (heapSet m i nd).num_allocs = m.num_allocs := rfl

@[simp] theorem heapSet_alloc_size (m : PoolMgr) (i : Nat) (nd : Node) :
    (heapSet m i nd).alloc_size = m.alloc_size := rfl

@[simp] theorem heapSet_used_nodes (m : PoolMgr) (i : Nat) (nd : Node) :
    (heapSet m i nd).used_nodes = m.used_nodes := rfl

@[simp] theorem heapSet_total_size (m : PoolMgr) (i : Nat) (nd : Node) :
    (heapSet m i nd).total_size = m.total_size := rfl

@[simp] theorem heapSet_gap_ix (m : PoolMgr) (i : Nat) (nd : Node) :
    (heapSet m i nd).gap_ix = m.gap_ix := rfl

@[simp] theorem memResizeNodeHeap_policy (m : PoolMgr) :
    (memResizeNodeHeap m).policy = m.policy := by
  unfold memResizeNodeHeap; split <;> rfl

@[simp] theorem memResizeNodeHeap_gap_ix (m : PoolMgr) :
    (memResizeNodeHeap m).gap_ix = m.gap_ix := by
  unfold memResizeNodeHeap; split <;> rfl

@[simp] theorem memResizeNodeHeap_num_gaps (m : PoolMgr) :
    (memResizeNodeHeap m).num_gaps = m.num_gaps := by
  unfold memResizeNodeHeap; split <;> rfl

@[simp] theorem memResizeNodeHeap_num_allocs (m : PoolMgr) :
    (memResizeNodeHeap m).num_allocs = m.num_allocs := by
  unfold memResizeNodeHeap; split <;> rfl

@[simp] theorem memResizeNodeHeap_alloc_size (m : PoolMgr) :
    (memResizeNodeHeap m).alloc_size = m.alloc_size := by
  unfold memResizeNodeHeap; split <;> rfl

@[simp] theorem memResizeNodeHeap_used_nodes (m : PoolMgr) :
    (memResizeNodeHeap m).used_nodes = m.used_nodes := by
  unfold memResizeNodeHeap; split <;> rfl

@[simp] theorem memResizeNodeHeap_total_size (m : PoolMgr) :
    (memResizeNodeHeap m).total_size = m.total_size := by
  unfold memResizeNodeHeap; split <;> rfl

theorem memResizeNodeHeap_len_le (m : PoolMgr) :
    m.node_heap.length ≤ (memResizeNodeHeap m).node_heap.length := by
  unfold memResizeNodeHeap; split <;> simp

theorem nodeAt_resize (m : PoolMgr) {i : Nat} (h : i < m.node_heap.length) :
    nodeAt (memResizeNodeHeap m).node_heap i = nodeAt m.node_heap i := by
  unfold memResizeNodeHeap
  split
  · simp [nodeAt_append_left h]
  · rfl

@[simp] theorem memResizeGapIx_node_heap (m : PoolMgr) :
    (memResizeGapIx m).node_heap = m.node_heap := by
  unfold memResizeGapIx; split <;> rfl

@[simp] theorem memResizeGapIx_policy (m : PoolMgr) :
    (memResizeGapIx m).policy = m.policy := by
  unfold memResizeGapIx; split <;> rfl

@[simp] theorem memResizeGapIx_num_gaps (m : PoolMgr) :
    (memResizeGapIx m).num_gaps = m.num_gaps := by
  unfold memResizeGapIx; split <;> rfl

@[simp] theorem memResizeGapIx_num_allocs (m : PoolMgr) :
    (memResizeGapIx m).num_allocs = m.num_allocs := by
  unfold memResizeGapIx; split <;> rfl

@[simp] theorem memResizeGapIx_alloc_size (m : PoolMgr) :
    (memResizeGapIx m).alloc_size = m.alloc_size := by
  unfold memResizeGapIx; split <;> rfl

@[simp] theorem memResizeGapIx_used_nodes (m : PoolMgr) :
    (memResizeGapIx m).used_nodes = m.used_nodes := by
  unfold memResizeGapIx; split <;> rfl

@[simp] theorem memResizeGapIx_total_size (m : PoolMgr) :
    (memResizeGapIx m).total_size = m.total_size := by
  unfold memResizeGapIx; split <;> rfl

@[simp] theorem memSortGapIx_status (m : PoolMgr) :
    (memSortGapIx m).1 = AllocStatus.ok := rfl

@[simp] theorem memSortGapIx_node_heap (m : PoolMgr) :
    (memSortGapIx m).2.node_heap = m.node_heap := rfl

@[simp] theorem memSortGapIx_num_gaps (m : PoolMgr) :
    (memSortGapIx m).2.num_gaps = m.num_gaps := rfl

@[simp] theorem memSortGapIx_num_allocs (m : PoolMgr) :
    (memSortGapIx m).2.num_allocs = m.num_allocs := rfl

@[simp] theorem memSortGapIx_alloc_size (m : PoolMgr) :
    (memSortGapIx m).2.alloc_size = m.alloc_size := rfl

@[simp] theorem memSortGapIx_used_nodes (m : PoolMgr) :
    (memSortGapIx m).2.used_nodes = m.used_nodes := rfl

@[simp] theorem memSortGapIx_policy (m : PoolMgr) :
    (memSortGapIx m).2.policy = m.policy := rfl

@[simp] theorem memSortGapIx_total_size (m : PoolMgr) :
    (memSortGapIx m).2.total_size = m.total_size := rfl

@[simp] theorem memAddToGapIx_status (m : PoolMgr) (s n : Nat) :
    (memAddToGapIx m s n).1 = AllocStatus.ok := by
  unfold memAddToGapIx; simp

@[simp] theorem memAddToGapIx_node_heap (m : PoolMgr) (s n : Nat) :
    (memAddToGapIx m s n).2.node_heap = m.node_heap := by
  unfold memAddToGapIx; simp

@[simp] theorem memAddToGapIx_num_gaps (m : PoolMgr) (s n : Nat) :
    (memAddToGapIx m s n).2.num_gaps = m.num_gaps + 1 := by
  unfold memAddToGapIx; simp

@[simp] theorem memAddToGapIx_num_allocs (m : PoolMgr) (s n : Nat) :
    (memAddToGapIx m s n).2.num_allocs = m.num_allocs := by
  unfold memAddToGapIx; simp

@[simp] theorem memAddToGapIx_alloc_size (m : PoolMgr) (s n : Nat) :
    (memAddToGapIx m s n).2.alloc_size = m.alloc_size := by
  unfold memAddToGapIx; simp

@[simp] theorem memAddToGapIx_used_nodes (m : PoolMgr) (s n : Nat) :
    (memAddToGapIx m s n).2.used_nodes = m.used_nodes := by
  unfold memAddToGapIx; simp

@[simp] theorem memAddToGapIx_policy (m : PoolMgr) (s n : Nat) :
    (memAddToGapIx m s n).2.policy = m.policy := by
  unfold memAddToGapIx; simp

@[simp] theorem memAddToGapIx_total_size (m : PoolMgr) (s n : Nat) :
    (memAddToGapIx m s n).2.total_size = m.total_size := by
  unfold memAddToGapIx; simp

@[simp] theorem memRemoveFromGapIx_node_heap (m : PoolMgr) (s n : Nat) :
    (memRemoveFromGapIx m s n).2.node_heap = m.node_heap := by
  unfold memRemoveFromGapIx
  cases h : gapFindPos m.gap_ix n <;> simp [h]

@[simp] theorem memRemoveFromGapIx_num_allocs (m : PoolMgr) (s n : Nat) :
    (memRemoveFromGapIx m s n).2.num_allocs = m.num_allocs := by
  unfold memRemoveFromGapIx
  cases h : gapFindPos m.gap_ix n <;> simp [h]

@[simp] theorem memRemoveFromGapIx_alloc_size (m : PoolMgr) (s n : Nat) :
    (memRemoveFromGapIx m s n).2.alloc_size = m.alloc_size := by
  unfold memRemoveFromGapIx
  cases h : gapFindPos m.gap_ix n <;> simp [h]

@[simp] theorem memRemoveFromGapIx_used_nodes (m : PoolMgr) (s n : Nat) :
    (memRemoveFromGapIx m s n).2.used_nodes = m.used_nodes := by
  unfold memRemoveFromGapIx
  cases h : gapFindPos m.gap_ix n <;> simp [h]

@[simp] theorem memRemoveFromGapIx_policy (m : PoolMgr) (s n : Nat) :
    (memRemoveFromGapIx m s n).2.policy = m.policy := by
  unfold memRemoveFromGapIx
  cases h : gapFindPos m.gap_ix n <;> simp [h]

@[simp] theorem memRemoveFromGapIx_total_size (m : PoolMgr) (s n : Nat) :
    (memRemoveFromGapIx m s n).2.total_size = m.total_size := by
  unfold memRemoveFromGapIx
  cases h : gapFindPos m.gap_ix n <;> simp [h]

theorem memRemoveFromGapIx_found (m : PoolMgr) (s n pos : Nat)
    (h : gapFindPos m.gap_ix n = some pos) :
    (memRemoveFromGapIx m s n).1 = AllocStatus.ok ∧
    (memRemoveFromGapIx m s n).2.num_gaps = m.num_gaps - 1 := by
  unfold memRemoveFromGapIx
  simp [h]

theorem memRemoveFromGapIx_missing (m : PoolMgr) (s n : Nat)
    (h : gapFindPos m.gap_ix n = none) :
    memRemoveFromGapIx m s n = (AllocStatus.fail, m) := by
  unfold memRemoveFromGapIx
  simp [h]

/-- Reading through a `set`, with the out-of-range no-op of `List.set`
accounted for. -/
theorem nodeAt_set (hp : List Node) (i j : Nat) (nd : Node) :
    nodeAt (hp.set i nd) j = if i = j ∧ i < hp.length then nd else nodeAt hp j := by
  by_cases h1 : i = j
  · subst h1
    by_cases h2 : i < hp.length
    · simp [nodeAt_set_self h2, h2]
    · rw [if_neg (fun hc => h2 hc.2), List.set_eq_of_length_le (Nat.le_of_not_lt h2)]
  · rw [if_neg (fun hc => h1 hc.1), nodeAt_set_of_ne h1]

/-- The FIRST_FIT scan predicate accepts exactly the fitting gap slots. -/
theorem ffPred_eq_fits (hp : List Node) (size j : Nat) :
    ((fun nd => nd.used && !nd.allocated && decide (size ≤ nd.size)) (hp.getD j Node.zero) = true)
      ↔ fitsGap hp size j := by
  simp [fitsGap, Node.isGap, nodeAt, Bool.and_eq_true, decide_eq_true_eq, and_assoc]

theorem memNewAlloc_of_none (m : PoolMgr) (size : Nat) (hg : ¬ m.num_gaps = 0)
    (h : policySelect (memResizeNodeHeap m) size = none) :
    memNewAlloc m size = (none, memResizeNodeHeap m) := by
  simp only [memNewAlloc, if_neg hg, h]

theorem memNewAlloc_of_some (m : PoolMgr) (size : Nat) (hg : ¬ m.num_gaps = 0) {a : Nat}
    (h : policySelect (memResizeNodeHeap m) size = some a) :
    memNewAlloc m size = memNewAllocCommit (memResizeNodeHeap m) size a := by
  simp only [memNewAlloc, if_neg hg, h]

/-- If some fitting gap exists, the FIRST_FIT scan returns the fitting
gap slot of least heap index. -/
theorem ffSelect_least (hp : List Node) (size : Nat) {i : Nat} (hi : i < hp.length)
    (hfit : fitsGap hp size i) :
    ∃ a, ffSelect hp size = some a ∧ a < hp.length ∧ fitsGap hp size a ∧
      ∀ j < a, ¬ fitsGap hp size j := by
  have hpred := (ffPred_eq_fits hp size i).mpr hfit
  obtain ⟨idx, hfind⟩ :=
    @findIdx?_isSome Node (fun nd => nd.used && !nd.allocated && decide (size ≤ nd.size))
      hp i Node.zero hi hpred
  obtain ⟨hlen, hpredidx, hbefore⟩ := findIdx?_found Node.zero hfind
  refine ⟨idx, ?_, hlen, (ffPred_eq_fits hp size idx).mp hpredidx, ?_⟩
  · unfold ffSelect
    rw [hfind]
  · intro j hj hfitj
    have htrue := (ffPred_eq_fits hp size j).mpr hfitj
    simp only [hbefore j hj] at htrue
    exact Bool.false_ne_true htrue

/-- If no gap fits and the final heap slot carries a size below the
request, the FIRST_FIT scan fails cleanly. -/
theorem ffSelect_no_fit (hp : List Node) (size : Nat)
    (hno : ∀ i < hp.length, ¬ fitsGap hp size i)
    (hlast : (nodeAt hp (hp.length - 1)).size < size) :
    ffSelect hp size = none := by
  have hfind : hp.findIdx? (fun nd => nd.used && !nd.allocated && decide (size ≤ nd.size)) = none := by
    rw [List.findIdx?_eq_none_iff]
    intro x hx
    obtain ⟨j, hj, hget⟩ := List.mem_iff_getElem.mp hx
    have hfit := hno j hj
    rw [← ffPred_eq_fits hp size j, List.getD_eq_getElem hp Node.zero hj, hget] at hfit
    simpa using hfit
  unfold ffSelect
  simp only [hfind]
  cases hl : hp.length with
  | zero => rfl
  | succ n =>
    have hn : hp.length - 1 = n := by omega
    rw [hn] at hlast
    simp only [hl, if_pos hlast]

/-- After `memNewAllocCommit` on a used record `a`, slot `a` is marked
allocated and carries the requested size, on every path of the commit
(including the path that fails to find a record for the residual). -/
theorem memNewAllocCommit_marks (m1 : PoolMgr) (size a : Nat)
    (ha : a < m1.node_heap.length) (hused : (nodeAt m1.node_heap a).used = true) :
    (nodeAt (memNewAllocCommit m1 size a).2.node_heap a).allocated = true ∧
    (nodeAt (memNewAllocCommit m1 size a).2.node_heap a).size = size := by
  unfold memNewAllocCommit
  set aNode := nodeAt m1.node_heap a with hA
  have hm3 : ((memRemoveFromGapIx { m1 with num_allocs := m1.num_allocs + 1, alloc_size := m1.alloc_size + size } size a).2).node_heap = m1.node_heap := by
    simp
  by_cases hrem : aNode.size - size = 0
  · rw [if_pos hrem]
    simp only [heapSet_node_heap, hm3, nodeAt_set, List.length_set, ha, and_true, if_pos rfl]
    exact ⟨rfl, rfl⟩
  · rw [if_neg hrem]
    simp only [heapSet_node_heap, hm3]
    cases hf : (m1.node_heap.set a { aNode with allocated := true, size := size }).findIdx? (fun nd => !nd.used) with
    | none =>
      simp only [hf, heapSet_node_heap, hm3, nodeAt_set, List.length_set, ha, and_true, if_pos rfl]
      exact ⟨rfl, rfl⟩
    | some r =>
      obtain ⟨hrlen, hrpred, _⟩ := findIdx?_found Node.zero hf
      have hra : ¬ r = a := by
        intro hcontr
        rw [hcontr] at hrpred
        have hval : (m1.node_heap.set a { aNode with allocated := true, size := size }).getD a Node.zero
            = { aNode with allocated := true, size := size } := nodeAt_set_self ha _
        rw [hval] at hrpred
        simp [hused] at hrpred
      cases hnx : aNode.next with
      | none =>
        simp only [hf, hnx, memAddToGapIx_node_heap, heapSet_node_heap, hm3, nodeAt_set,
          List.length_set, ha, and_true, hra, if_pos rfl, if_neg, false_and, if_false]
        exact ⟨rfl, rfl⟩
      | some nx =>
        by_cases hnxa : nx = a
        · simp only [hf, hnx, hnxa, memAddToGapIx_node_heap, heapSet_node_heap, hm3, nodeAt_set,
            List.length_set, ha, and_true, hra, if_pos rfl, false_and, if_false]
          exact ⟨rfl, rfl⟩
        · simp only [hf, hnx, memAddToGapIx_node_heap, heapSet_node_heap, hm3, nodeAt_set,
            List.length_set, ha, and_true, hra, hnxa, if_pos rfl, false_and, if_false]
          exact ⟨rfl, rfl⟩

/-- C1 counterexample: on the at-rest first-fit pool `c1pool`, the
address-order walk finds its first fitting gap at slot 3 (offset 5), but
`mem_new_alloc` scans the node heap in slot-index order and selects slot
2 (the gap at offset 20), so the claim that first-fit picks the first
fitting gap in address order fails. -/
theorem first_fit_does_not_scan_in_address_order :
    AtRest c1pool ∧ c1pool.policy = AllocPolicy.firstFit ∧
    fitsGap c1pool.node_heap 5 3 ∧ fitsGap c1pool.node_heap 5 2 ∧
    specFirstFit c1pool 5 = some 3 ∧
    (memNewAlloc c1pool 5).1 = some 2 := by
  refine ⟨by decide, by decide, by decide, by decide, by decide, by decide⟩

/-- C1 (amended): under FIRST_FIT, `mem_new_alloc` scans the node heap
in slot-index order: whenever a fitting gap exists it selects the
fitting gap slot of least heap index (not least address) and marks that
record allocated with the requested size; when no gap fits, the result
is a clean null — with the pool state changed only by the growth check —
provided the record in the final heap slot has size below the request
(the trailing size check of the original code). -/
theorem first_fit_selection_characterization (m : PoolMgr) (size : Nat)
    (hpol : m.policy = AllocPolicy.firstFit) (hg : ¬ m.num_gaps = 0) :
    (∀ i < (memResizeNodeHeap m).node_heap.length,
       fitsGap (memResizeNodeHeap m).node_heap size i →
       ∃ a, policySelect (memResizeNodeHeap m) size = some a ∧
         a < (memResizeNodeHeap m).node_heap.length ∧
         fitsGap (memResizeNodeHeap m).node_heap size a ∧
         (∀ j < a, ¬ fitsGap (memResizeNodeHeap m).node_heap size j) ∧
         (nodeAt (memNewAlloc m size).2.node_heap a).allocated = true ∧
         (nodeAt (memNewAlloc m size).2.node_heap a).size = size) ∧
    ((∀ i < (memResizeNodeHeap m).node_heap.length,
        ¬ fitsGap (memResizeNodeHeap m).node_heap size i) →
      (nodeAt (memResizeNodeHeap m).node_heap ((memResizeNodeHeap m).node_heap.length - 1)).size < size →
      memNewAlloc m size = (none, memResizeNodeHeap m)) := by
  have hpol1 : (memResizeNodeHeap m).policy = AllocPolicy.firstFit := by
    rw [memResizeNodeHeap_policy, hpol]
  constructor
  · intro i hi hfit
    obtain ⟨a, hsel, halen, hafit, hmin⟩ := ffSelect_least _ size hi hfit
    have hps : policySelect (memResizeNodeHeap m) size = some a := by
      unfold policySelect
      rw [hpol1]
      exact hsel
    have hrun := memNewAlloc_of_some m size hg hps
    have hused : (nodeAt (memResizeNodeHeap m).node_heap a).used = true := by
      have hg2 := hafit.1
      simp only [Node.isGap, Bool.and_eq_true] at hg2
      exact hg2.1
    have hmark := memNewAllocCommit_marks (memResizeNodeHeap m) size a halen hused
    refine ⟨a, hps, halen, hafit, hmin, ?_, ?_⟩
    · rw [hrun]; exact hmark.1
    · rw [hrun]; exact hmark.2
  · intro hno hlast
    apply memNewAlloc_of_none m size hg
    unfold policySelect
    rw [hpol1]
    exact ffSelect_no_fit _ size hno hlast

/-- C1 witness: the characterization applied to `c1pool` with request 5,
where the least fitting-gap slot index is 2. -/
theorem first_fit_selection_characterization_witness :
    ∃ a, policySelect (memResizeNodeHeap c1pool) 5 = some a ∧
      a < (memResizeNodeHeap c1pool).node_heap.length ∧
      fitsGap (memResizeNodeHeap c1pool).node_heap 5 a ∧
      (∀ j < a, ¬ fitsGap (memResizeNodeHeap c1pool).node_heap 5 j) ∧
      (nodeAt (memNewAlloc c1pool 5).2.node_heap a).allocated = true ∧
      (nodeAt (memNewAlloc c1pool 5).2.node_heap a).size = 5 := by
  have h := first_fit_selection_characterization c1pool 5 (by decide) (by decide)
  exact h.1 2 (by decide) (by decide)

@[simp] theorem memRemoveShift_length (ix : List Gap) (pos : Nat) :
    (memRemoveShift ix pos).length = ix.length := by
  unfold memRemoveShift
  simp

/-- Contents of the shift result: entries below the removal position are
kept, entries from it on are pulled down by one. -/
theorem gapAt_memRemoveShift (ix : List Gap) (pos j : Nat) (hj : j < ix.length) :
    gapAt (memRemoveShift ix pos) j = if j < pos then gapAt ix j else gapAt ix (j + 1) := by
  unfold memRemoveShift gapAt
  rw [List.getD_eq_getElem?_getD, List.getElem?_map, List.getElem?_range hj]
  rfl

/-- After a successful removal of the unique entry referencing node `a`,
no gap-index entry references `a` any more. -/
theorem memRemoveFromGapIx_removes (m : PoolMgr) (s a pos : Nat)
    (h : gapFindPos m.gap_ix a = some pos)
    (huniq : ∀ k < m.gap_ix.length, ¬ k = pos → (gapAt m.gap_ix k).node ≠ some a) :
    gapFindPos (memRemoveFromGapIx m s a).2.gap_ix a = none := by
  obtain ⟨hposlen, hposhit, _⟩ := findIdx?_found Gap.zero h
  unfold memRemoveFromGapIx
  rw [h]
  unfold gapFindPos
  rw [List.findIdx?_eq_none_iff]
  intro x hx
  obtain ⟨j, hj, hget⟩ := List.mem_iff_getElem.mp hx
  simp only [List.length_set, memRemoveShift_length] at hj
  have hx2 : x = gapAt ((memRemoveShift m.gap_ix pos).set (m.num_gaps - 1) Gap.zero) j := by
    rw [← hget, gapAt, List.getD_eq_getElem]
  have hxz : x.node ≠ some a := by
    rw [hx2]
    by_cases hjng : m.num_gaps - 1 = j
    · subst hjng
      rw [gapAt_set_self (by simpa using hj)]
      simp [Gap.zero]
    · rw [gapAt_set_of_ne hjng, gapAt_memRemoveShift m.gap_ix pos j hj]
      by_cases hjp : j < pos
      · rw [if_pos hjp]
        exact huniq j hj (fun he => absurd (he ▸ hjp) (lt_irrefl pos))
      · rw [if_neg hjp]
        by_cases hj1 : j + 1 < m.gap_ix.length
        · exact huniq (j + 1) hj1 (by omega)
        · have : gapAt m.gap_ix (j + 1) = Gap.zero := by
            unfold gapAt
            rw [List.getD_eq_getElem?_getD, List.getElem?_eq_none (by omega)]
            rfl
          rw [this]
          simp [Gap.zero]
  simp [hxz]

/-- C9: when the selected candidate gap is strictly larger than the
request but the search for an unused arena record fails, `mem_new_alloc`
returns the null handle with the pool state already mutated:
`num_allocs` incremented, `alloc_size` grown by the request, the
candidate removed from the gap index and its record marked allocated
with the requested size.  The failure path is not atomic. -/
theorem alloc_residual_failure_is_not_atomic (m : PoolMgr) (size a pos : Nat)
    (hg : ¬ m.num_gaps = 0)
    (hsel : policySelect (memResizeNodeHeap m) size = some a)
    (ha : a < (memResizeNodeHeap m).node_heap.length)
    (hbig : size < (nodeAt (memResizeNodeHeap m).node_heap a).size)
    (hall : ∀ i < (memResizeNodeHeap m).node_heap.length,
      (nodeAt (memResizeNodeHeap m).node_heap i).used = true)
    (hpos : gapFindPos m.gap_ix a = some pos)
    (huniq : ∀ k < m.gap_ix.length, ¬ k = pos → (gapAt m.gap_ix k).node ≠ some a) :
    (memNewAlloc m size).1 = none ∧
    (memNewAlloc m size).2.num_allocs = m.num_allocs + 1 ∧
    (memNewAlloc m size).2.alloc_size = m.alloc_size + size ∧
    (memNewAlloc m size).2.num_gaps = m.num_gaps - 1 ∧
    gapFindPos (memNewAlloc m size).2.gap_ix a = none ∧
    (nodeAt (memNewAlloc m size).2.node_heap a).allocated = true ∧
    (nodeAt (memNewAlloc m size).2.node_heap a).size = size := by
  rw [memNewAlloc_of_some m size hg hsel]
  set m1 := memResizeNodeHeap m with hm1
  have hf : (m1.node_heap.set a { nodeAt m1.node_heap a with allocated := true, size := size }).findIdx?
      (fun nd => !nd.used) = none := by
    rw [List.findIdx?_eq_none_iff]
    intro x hx
    obtain ⟨j, hj, hget⟩ := List.mem_iff_getElem.mp hx
    simp only [List.length_set] at hj
    have hxn : x = nodeAt (m1.node_heap.set a { nodeAt m1.node_heap a with allocated := true, size := size }) j := by
      rw [nodeAt_eq_getElem (by simpa using hj), hget]
    have hxu : x.used = true := by
      rw [hxn, nodeAt_set]
      split
      · exact hall a ha
      · exact hall j hj
    simp [hxu]
  have hcommit : memNewAllocCommit m1 size a =
      (none, heapSet (memRemoveFromGapIx
          { m1 with num_allocs := m1.num_allocs + 1, alloc_size := m1.alloc_size + size } size a).2 a
        { nodeAt m1.node_heap a with allocated := true, size := size }) := by
    unfold memNewAllocCommit
    rw [if_neg (Nat.sub_ne_zero_of_lt hbig)]
    simp only [heapSet_node_heap, memRemoveFromGapIx_node_heap, hf]
  rw [hcommit]
  have hgap1 : ({ m1 with num_allocs := m1.num_allocs + 1, alloc_size := m1.alloc_size + size } : PoolMgr).gap_ix = m.gap_ix := by
    rw [hm1]
    simp
  have hpos1 : gapFindPos ({ m1 with num_allocs := m1.num_allocs + 1, alloc_size := m1.alloc_size + size } : PoolMgr).gap_ix a = some pos := by
    rw [hgap1]
    exact hpos
  refine ⟨rfl, ?_, ?_, ?_, ?_, ?_, ?_⟩
  · simp [hm1]
  · simp [hm1]
  · have := (memRemoveFromGapIx_found _ size a pos hpos1).2
    simpa [hm1] using this
  · have hrem := memRemoveFromGapIx_removes
      { m1 with num_allocs := m1.num_allocs + 1, alloc_size := m1.alloc_size + size } size a pos hpos1
      (by rw [hgap1]; exact huniq)
    simpa using hrem
  · simp only [heapSet_node_heap, memRemoveFromGapIx_node_heap]
    rw [nodeAt_set]
    simp [ha]
  · simp only [heapSet_node_heap, memRemoveFromGapIx_node_heap]
    rw [nodeAt_set]
    simp [ha]

/-- C9 witness: on `c9pool` (both heap slots used, candidate gap of 10 at
slot 0, request 3) the allocation fails with the state mutated. -/
theorem alloc_residual_failure_is_not_atomic_witness :
    (memNewAlloc c9pool 3).1 = none ∧
    (memNewAlloc c9pool 3).2.num_allocs = c9pool.num_allocs + 1 ∧
    (memNewAlloc c9pool 3).2.alloc_size = c9pool.alloc_size + 3 ∧
    (memNewAlloc c9pool 3).2.num_gaps = c9pool.num_gaps - 1 ∧
    gapFindPos (memNewAlloc c9pool 3).2.gap_ix 0 = none ∧
    (nodeAt (memNewAlloc c9pool 3).2.node_heap 0).allocated = true ∧
    (nodeAt (memNewAlloc c9pool 3).2.node_heap 0).size = 3 :=
  alloc_residual_failure_is_not_atomic c9pool 3 0 0 (by decide) (by decide) (by decide)
    (by decide) (by decide) (by decide) (by decide)

/-- In a state satisfying the head invariant no record (in range or not)
has successor 0. -/
theorem HeadInv_next_ne {m : PoolMgr} (h : HeadInv m) (i : Nat) :
    (nodeAt m.node_heap i).next ≠ some 0 := by
  by_cases hi : i < m.node_heap.length
  · exact h.2.2 i hi
  · rw [nodeAt_of_le (Nat.le_of_not_lt hi)]
    simp [Node.zero]

/-- The head invariant only depends on the node heap. -/
theorem HeadInv_of_heap_eq {m m2 : PoolMgr} (h : HeadInv m)
    (he : m2.node_heap = m.node_heap) : HeadInv m2 := by
  unfold HeadInv
  rw [he]
  exact h

/-- Writing one record preserves the head invariant provided the written
record does not point at slot 0 and, when slot 0 itself is written, it
stays used with no predecessor. -/
theorem HeadInv_heapSet {m : PoolMgr} (h : HeadInv m) (k : Nat) (nd : Node)
    (h0 : k = 0 → nd.used = true ∧ nd.prev = none)
    (hn : nd.next ≠ some 0) : HeadInv (heapSet m k nd) := by
  obtain ⟨hu, hp, hne⟩ := h
  refine ⟨?_, ?_, ?_⟩
  · simp only [heapSet_node_heap, nodeAt_set]
    split
    · exact (h0 (by omega)).1
    · exact hu
  · simp only [heapSet_node_heap, nodeAt_set]
    split
    · exact (h0 (by omega)).2
    · exact hp
  · intro i hi
    simp only [heapSet_node_heap, List.length_set] at hi ⊢
    rw [nodeAt_set]
    split
    · exact hn
    · exact hne i hi

/-- Growth of the node heap preserves the head invariant. -/
theorem HeadInv_resize {m : PoolMgr} (h : HeadInv m) :
    HeadInv (memResizeNodeHeap m) := by
  obtain ⟨hu, hp, hne⟩ := h
  unfold memResizeNodeHeap
  split
  · have hlen : 0 < m.node_heap.length := by
      by_contra hl
      rw [nodeAt_of_le (by omega)] at hu
      exact absurd hu (by simp [Node.zero])
    refine ⟨?_, ?_, ?_⟩
    · rw [nodeAt_append_left hlen]
      exact hu
    · rw [nodeAt_append_left hlen]
      exact hp
    · intro i hi
      by_cases hil : i < m.node_heap.length
      · rw [nodeAt_append_left hil]
        exact hne i hil
      · have : nodeAt (m.node_heap ++ List.replicate m.node_heap.length Node.zero) i = Node.zero := by
          unfold nodeAt
          rw [List.getD_eq_getElem?_getD, List.getElem?_append]
          rw [if_neg hil]
          rw [List.getElem?_replicate]
          split <;> rfl
        rw [this]
        simp [Node.zero]
  · exact ⟨hu, hp, hne⟩

/-- Gap-index removal does not touch the heap, hence keeps the head
invariant. -/
theorem HeadInv_remove {m : PoolMgr} (h : HeadInv m) (s n : Nat) :
    HeadInv (memRemoveFromGapIx m s n).2 :=
  HeadInv_of_heap_eq h (by simp)

/-- Gap-index insertion does not touch the heap, hence keeps the head
invariant. -/
theorem HeadInv_add {m : PoolMgr} (h : HeadInv m) (s n : Nat) :
    HeadInv (memAddToGapIx m s n).2 :=
  HeadInv_of_heap_eq h (by simp)

/-- Changing the `used_nodes` counter keeps the head invariant. -/
theorem HeadInv_used_nodes {m : PoolMgr} (h : HeadInv m) (n : Nat) :
    HeadInv { m with used_nodes := n } :=
  HeadInv_of_heap_eq h rfl

/-- A write that keeps the `used`, `prev` and `next` fields of the slot
keeps the head invariant. -/
theorem HeadInv_heapSet_keep {m : PoolMgr} (h : HeadInv m) (k : Nat) (nd : Node)
    (hu : nd.used = (nodeAt m.node_heap k).used)
    (hp2 : nd.prev = (nodeAt m.node_heap k).prev)
    (hn : nd.next = (nodeAt m.node_heap k).next) : HeadInv (heapSet m k nd) := by
  refine HeadInv_heapSet h k nd ?_ ?_
  · intro hk
    subst hk
    exact ⟨hu.trans h.1, hp2.trans h.2.1⟩
  · rw [hn]
    exact HeadInv_next_ne h k

/-- A write to a slot other than 0 whose record does not point at slot 0
keeps the head invariant. -/
theorem HeadInv_heapSet_ne {m : PoolMgr} (h : HeadInv m) {k : Nat} (hk : ¬ k = 0)
    (nd : Node) (hn : nd.next ≠ some 0) : HeadInv (heapSet m k nd) :=
  HeadInv_heapSet h k nd (fun h0 => absurd h0 hk) hn

/-- Redirecting the successor of a slot to a nonzero index keeps the
head invariant. -/
theorem HeadInv_heapSet_relink {m : PoolMgr} (h : HeadInv m) (k : Nat) {r : Nat}
    (hr : ¬ r = 0) :
    HeadInv (heapSet m k { nodeAt m.node_heap k with next := some r }) := by
  refine HeadInv_heapSet h k _ ?_ ?_
  · intro hk
    subst hk
    exact ⟨h.1, h.2.1⟩
  · intro hc
    rw [Option.some_inj] at hc
    exact hr hc

/-- Redirecting the predecessor of a nonzero slot keeps the head
invariant. -/
theorem HeadInv_heapSet_reprev {m : PoolMgr} (h : HeadInv m) {k : Nat} (hk : ¬ k = 0)
    (r : Nat) :
    HeadInv (heapSet m k { nodeAt m.node_heap k with prev := some r }) := by
  refine HeadInv_heapSet h k _ (fun h0 => absurd h0 hk) ?_
  exact HeadInv_next_ne h k

/-- `memNewAllocCommit` preserves the head invariant. -/
theorem HeadInv_commit {m1 : PoolMgr} (h : HeadInv m1) (size a : Nat) :
    HeadInv (memNewAllocCommit m1 size a).2 := by
  unfold memNewAllocCommit
  set aNode := nodeAt m1.node_heap a with hA
  have hcnt : HeadInv { m1 with num_allocs := m1.num_allocs + 1, alloc_size := m1.alloc_size + size } :=
    HeadInv_of_heap_eq h rfl
  have h4 : HeadInv (heapSet (memRemoveFromGapIx
      { m1 with num_allocs := m1.num_allocs + 1, alloc_size := m1.alloc_size + size } size a).2 a
      { aNode with allocated := true, size := size }) := by
    refine HeadInv_heapSet_keep (HeadInv_remove hcnt size a) a _ ?_ ?_ ?_ <;> simp [hA]
  by_cases hrem : aNode.size - size = 0
  · rw [if_pos hrem]
    exact h4
  · rw [if_neg hrem]
    cases hf : ((heapSet (memRemoveFromGapIx
        { m1 with num_allocs := m1.num_allocs + 1, alloc_size := m1.alloc_size + size } size a).2 a
        { aNode with allocated := true, size := size }).node_heap).findIdx? (fun nd => !nd.used) with
    | none => exact h4
    | some r =>
      obtain ⟨hrlen, hrpred, _⟩ := findIdx?_found Node.zero hf
      have hb : (!(nodeAt ((heapSet (memRemoveFromGapIx
          { m1 with num_allocs := m1.num_allocs + 1, alloc_size := m1.alloc_size + size } size a).2 a
          { aNode with allocated := true, size := size }).node_heap) r).used) = true := hrpred
      have hr0 : ¬ r = 0 := by
        intro hr
        rw [hr, h4.1] at hb
        exact absurd hb (by simp)
      have hanext : aNode.next ≠ some 0 := by
        rw [hA]
        exact HeadInv_next_ne h a
      have h5 : HeadInv { heapSet (heapSet (memRemoveFromGapIx
          { m1 with num_allocs := m1.num_allocs + 1, alloc_size := m1.alloc_size + size } size a).2 a
          { aNode with allocated := true, size := size }) r
          { size := aNode.size - size, mem := aNode.mem.map (fun x => x + size),
            used := true, allocated := false, prev := some a, next := aNode.next } with
          used_nodes := (heapSet (memRemoveFromGapIx
            { m1 with num_allocs := m1.num_allocs + 1, alloc_size := m1.alloc_size + size } size a).2 a
            { aNode with allocated := true, size := size }).used_nodes + 1 } := by
        refine HeadInv_used_nodes ?_ _
        exact HeadInv_heapSet_ne h4 hr0 _ hanext
      cases hnx : aNode.next with
      | none =>
        rw [hnx] at h5
        refine HeadInv_add ?_ _ _
        refine HeadInv_heapSet_relink ?_ a hr0
        exact h5
      | some nx =>
        have hnx0 : ¬ nx = 0 := by
          intro hc
          rw [hnx, hc] at hanext
          exact hanext rfl
        rw [hnx] at h5
        refine HeadInv_add ?_ _ _
        refine HeadInv_heapSet_relink ?_ a hr0
        exact HeadInv_heapSet_reprev h5 hnx0 r

/-- Rewriting only the size of a slot keeps the head invariant. -/
theorem HeadInv_heapSet_resize {m : PoolMgr} (h : HeadInv m) (k s : Nat) :
    HeadInv (heapSet m k { nodeAt m.node_heap k with size := s }) :=
  HeadInv_heapSet_keep h k _ rfl rfl rfl

/-- Retiring a nonzero slot keeps the head invariant. -/
theorem HeadInv_heapSet_retire {m : PoolMgr} (h : HeadInv m) {k : Nat} (hk : ¬ k = 0) :
    HeadInv (heapSet m k { nodeAt m.node_heap k with used := false, size := 0, mem := none }) :=
  HeadInv_heapSet_ne h hk _ (HeadInv_next_ne h k)

/-- Clearing the predecessor of a slot keeps the head invariant. -/
theorem HeadInv_heapSet_clearprev {m : PoolMgr} (h : HeadInv m) (k : Nat) :
    HeadInv (heapSet m k { nodeAt m.node_heap k with prev := none }) := by
  refine HeadInv_heapSet h k _ ?_ (HeadInv_next_ne h k)
  intro h0
  subst h0
  exact ⟨h.1, rfl⟩

/-- Clearing both links of a slot keeps the head invariant. -/
theorem HeadInv_heapSet_clearlinks {m : PoolMgr} (h : HeadInv m) (k : Nat) :
    HeadInv (heapSet m k { nodeAt m.node_heap k with next := none, prev := none }) := by
  refine HeadInv_heapSet h k _ ?_ (by simp)
  intro h0
  subst h0
  exact ⟨h.1, rfl⟩

/-- Clearing the successor of a slot keeps the head invariant. -/
theorem HeadInv_heapSet_clearnext {m : PoolMgr} (h : HeadInv m) (k : Nat) :
    HeadInv (heapSet m k { nodeAt m.node_heap k with next := none }) := by
  refine HeadInv_heapSet h k _ ?_ (by simp)
  intro h0
  subst h0
  exact ⟨h.1, h.2.1⟩

/-- The forward-coalesce block preserves the head invariant when the
spliced-out node `j` is not slot 0 (which holds whenever `j` is reached
as a successor). -/
theorem HeadInv_forwardMerge {m : PoolMgr} (h : HeadInv m) (i j : Nat) (hj0 : ¬ j = 0) :
    HeadInv (forwardMerge m i j) := by
  unfold forwardMerge
  dsimp only
  have h1 : HeadInv (memRemoveFromGapIx m (nodeAt m.node_heap j).size j).2 :=
    HeadInv_remove h _ _
  set m1 := (memRemoveFromGapIx m (nodeAt m.node_heap j).size j).2 with hm1
  have h2 : HeadInv (heapSet m1 i { nodeAt m1.node_heap i with
      size := (nodeAt m1.node_heap i).size + (nodeAt m.node_heap j).size }) :=
    HeadInv_heapSet_resize h1 i _
  set m2 := heapSet m1 i { nodeAt m1.node_heap i with
      size := (nodeAt m1.node_heap i).size + (nodeAt m.node_heap j).size } with hm2
  have h3 : HeadInv (heapSet m2 j { nodeAt m2.node_heap j with used := false, size := 0, mem := none }) :=
    HeadInv_heapSet_retire h2 hj0
  set m3 := heapSet m2 j { nodeAt m2.node_heap j with used := false, size := 0, mem := none } with hm3
  have h4 : HeadInv { m3 with used_nodes := m3.used_nodes - 1 } :=
    HeadInv_used_nodes h3 _
  cases hjn : (nodeAt m.node_heap j).next with
  | some k =>
    have hk0 : ¬ k = 0 := by
      have hne := HeadInv_next_ne h j
      rw [hjn] at hne
      intro hc
      rw [hc] at hne
      exact hne rfl
    refine HeadInv_heapSet_relink ?_ i hk0
    exact HeadInv_heapSet_reprev h4 hk0 i
  | none =>
    refine HeadInv_heapSet_clearnext ?_ i
    exact HeadInv_heapSet_clearprev h4 j

/-- The backward-coalesce block preserves the head invariant when the
spliced-out node `i` is not slot 0 (which holds whenever `i` has a
predecessor). -/
theorem HeadInv_backwardMerge {m : PoolMgr} (h : HeadInv m) (i p : Nat) (hi0 : ¬ i = 0) :
    HeadInv (backwardMerge m i p) := by
  unfold backwardMerge
  dsimp only
  have h1 : HeadInv (heapSet m p { nodeAt m.node_heap p with
      size := (nodeAt m.node_heap p).size + (nodeAt m.node_heap i).size }) :=
    HeadInv_heapSet_resize h p _
  set m1 := heapSet m p { nodeAt m.node_heap p with
      size := (nodeAt m.node_heap p).size + (nodeAt m.node_heap i).size } with hm1
  have h2 : HeadInv (heapSet m1 i { nodeAt m1.node_heap i with used := false, size := 0, mem := none }) :=
    HeadInv_heapSet_retire h1 hi0
  set m2 := heapSet m1 i { nodeAt m1.node_heap i with used := false, size := 0, mem := none } with hm2
  have h3 : HeadInv { m2 with used_nodes := m2.used_nodes - 1 } :=
    HeadInv_used_nodes h2 _
  set m3 := { m2 with used_nodes := m2.used_nodes - 1 } with hm3
  cases hin : (nodeAt m3.node_heap i).next with
  | some k =>
    have hk0 : ¬ k = 0 := by
      have hne := HeadInv_next_ne h3 i
      rw [hin] at hne
      intro hc
      rw [hc] at hne
      exact hne rfl
    refine HeadInv_heapSet_clearlinks ?_ i
    refine HeadInv_heapSet_reprev ?_ hk0 p
    exact HeadInv_heapSet_relink h3 p hk0
  | none =>
    refine HeadInv_heapSet_clearlinks ?_ i
    exact HeadInv_heapSet_clearnext h3 p

/-- `mem_new_alloc` preserves the head invariant. -/
theorem HeadInv_memNewAlloc {m : PoolMgr} (h : HeadInv m) (size : Nat) :
    HeadInv (memNewAlloc m size).2 := by
  by_cases hg : m.num_gaps = 0
  · simp only [memNewAlloc, if_pos hg]
    exact h
  · simp only [memNewAlloc, if_neg hg]
    cases hsel : policySelect (memResizeNodeHeap m) size with
    | none =>
      simp only [hsel]
      exact HeadInv_resize h
    | some a =>
      simp only [hsel]
      exact HeadInv_commit (HeadInv_resize h) size a

/-- The delete-marking stage preserves the head invariant. -/
theorem HeadInv_delMark {m : PoolMgr} (h : HeadInv m) (i : Nat) :
    HeadInv (delMark m i) := by
  unfold delMark
  dsimp only
  exact HeadInv_of_heap_eq
    (HeadInv_heapSet_keep h i { nodeAt m.node_heap i with allocated := false } rfl rfl rfl) rfl

/-- The forward-coalesce phase preserves the head invariant. -/
theorem HeadInv_delFwd {m1 : PoolMgr} (h1 : HeadInv m1) (i : Nat) :
    HeadInv (delFwd m1 i) := by
  unfold delFwd
  cases hjn : (nodeAt m1.node_heap i).next with
  | some j =>
    dsimp only
    have hj0 : ¬ j = 0 := by
      have hne := HeadInv_next_ne h1 i
      rw [hjn] at hne
      intro hc
      rw [hc] at hne
      exact hne rfl
    by_cases hja : (nodeAt m1.node_heap j).allocated = false
    · rw [if_pos hja]
      exact HeadInv_forwardMerge h1 i j hj0
    · rw [if_neg hja]
      exact h1
  | none =>
    exact h1

/-- The backward-coalesce phase preserves the head invariant. -/
theorem HeadInv_delBwd {m2 : PoolMgr} (h2 : HeadInv m2) (i : Nat) :
    HeadInv (delBwd m2 i).2 := by
  unfold delBwd
  cases hip : (nodeAt m2.node_heap i).prev with
  | some p =>
    dsimp only
    by_cases hpa : (nodeAt m2.node_heap p).allocated = false
    · rw [if_pos hpa]
      have hi0 : ¬ i = 0 := by
        intro hc
        rw [hc, h2.2.1] at hip
        exact Option.noConfusion hip
      by_cases hrm : (memRemoveFromGapIx m2 (nodeAt m2.node_heap p).size p).1 = AllocStatus.fail
      · rw [if_pos hrm]
        exact HeadInv_remove h2 _ _
      · rw [if_neg hrm]
        exact HeadInv_add (HeadInv_backwardMerge (HeadInv_remove h2 _ _) i p hi0) _ _
    · rw [if_neg hpa]
      exact HeadInv_add h2 _ _
  | none =>
    exact HeadInv_add h2 _ _

/-- `mem_del_alloc` preserves the head invariant, for any handle. -/
theorem HeadInv_memDelAlloc {m : PoolMgr} (h : HeadInv m) (i : Nat) :
    HeadInv (memDelAlloc m i).2 :=
  HeadInv_delBwd (HeadInv_delFwd (HeadInv_delMark h i) i) i

/-- C10: arena slot 0 holds the head of the segment list for the entire
pool lifetime.  `mem_pool_open` establishes the head invariant (slot 0
used, no predecessor, no record pointing at slot 0 as successor); both
`mem_new_alloc` and `mem_del_alloc` preserve it — forward coalescing
retires only a successor node and backward coalescing retires only a
node with a predecessor, so slot 0 is never spliced out — and
`mem_inspect_pool` relies on it by starting its walk at `node_heap[0]`,
whose record is the first segment reported. -/
theorem node_zero_remains_list_head :
    (∀ size policy, HeadInv (memPoolOpen size policy)) ∧
    (∀ m size, HeadInv m → HeadInv (memNewAlloc m size).2) ∧
    (∀ m i, HeadInv m → HeadInv (memDelAlloc m i).2) ∧
    (∀ m, HeadInv m → 1 ≤ m.used_nodes →
      (memInspectPool m).head? =
        some ((nodeAt m.node_heap 0).size, (nodeAt m.node_heap 0).allocated)) := by
  refine ⟨?_, ?_, ?_, ?_⟩
  · intro size policy
    refine ⟨?_, ?_, ?_⟩
    · simp only [memPoolOpen, nodeAt_set]
      rw [if_pos ⟨trivial, by simp⟩]
    · simp only [memPoolOpen, nodeAt_set]
      rw [if_pos ⟨trivial, by simp⟩]
    · intro i hi
      simp only [memPoolOpen, nodeAt_set]
      by_cases h0 : (0 : Nat) = i
      · rw [if_pos ⟨h0, by simp⟩]
        simp
      · rw [if_neg (fun hc => h0 hc.1)]
        unfold nodeAt
        rw [List.getD_eq_getElem?_getD, List.getElem?_replicate]
        split <;> simp [Node.zero]
  · intro m size hm
    exact HeadInv_memNewAlloc hm size
  · intro m i hm
    exact HeadInv_memDelAlloc hm i
  · intro m hm hu
    unfold memInspectPool
    obtain ⟨n, hn⟩ : ∃ n, m.used_nodes = n + 1 := ⟨m.used_nodes - 1, by omega⟩
    rw [hn]
    rfl

/-- C10 witness: the head invariant holds for a fresh pool and survives
an allocation followed by the release of the returned handle. -/
theorem node_zero_remains_list_head_witness :
    HeadInv (memPoolOpen 100 AllocPolicy.firstFit) ∧
    HeadInv (memDelAlloc (memNewAlloc (memPoolOpen 100 AllocPolicy.firstFit) 30).2
      ((memNewAlloc (memPoolOpen 100 AllocPolicy.firstFit) 30).1.getD 0)).2 := by
  have h := node_zero_remains_list_head
  exact ⟨h.1 100 AllocPolicy.firstFit,
    h.2.2.1 _ _ (h.2.1 _ 30 (h.1 100 AllocPolicy.firstFit))⟩

/-- Sizes are non-decreasing along the live gap-index entries. -/
theorem gapIx_size_mono (m : PoolMgr) (hsort : GapIxSorted m) :
    ∀ l, l < m.num_gaps → ∀ k, k ≤ l →
      (gapAt m.gap_ix k).size ≤ (gapAt m.gap_ix l).size := by
  intro l
  induction l with
  | zero =>
    intro _ k hk
    rw [Nat.le_zero.mp hk]
  | succ n ih =>
    intro hl k hk
    by_cases hkn : k = n + 1
    · rw [hkn]
    · have h1 := ih (by omega) k (by omega)
      have h2 := hsort n (by omega)
      rcases h2 with h | h
      · omega
      · omega

/-- Region offsets are non-decreasing along an equal-size run of the
live gap-index entries. -/
theorem gapIx_mem_mono (m : PoolMgr) (hsort : GapIxSorted m) :
    ∀ l, l < m.num_gaps → ∀ k, k ≤ l →
      (gapAt m.gap_ix k).size = (gapAt m.gap_ix l).size →
      gapNodeMem m.node_heap (gapAt m.gap_ix k) ≤ gapNodeMem m.node_heap (gapAt m.gap_ix l) := by
  intro l
  induction l with
  | zero =>
    intro _ k hk _
    rw [Nat.le_zero.mp hk]
  | succ n ih =>
    intro hl k hk heq
    by_cases hkn : k = n + 1
    · rw [hkn]
    · have hsz1 := gapIx_size_mono m hsort n (by omega) k (by omega)
      have hsortn := hsort n (by omega)
      rcases hsortn with h | h
      · have hsz2 := gapIx_size_mono m hsort (n + 1) hl k hk
        omega
      · have he1 : (gapAt m.gap_ix k).size = (gapAt m.gap_ix n).size := by omega
        exact le_trans (ih (by omega) k (by omega) he1) h.2

/-- Unpack the validity of one live gap-index entry. -/
theorem gapEntryOk_elim {m : PoolMgr} {k : Nat} (h : gapEntryOkB m k = true) :
    ∃ a, (gapAt m.gap_ix k).node = some a ∧ a < m.node_heap.length ∧
      (nodeAt m.node_heap a).isGap = true ∧
      (gapAt m.gap_ix k).size = (nodeAt m.node_heap a).size := by
  unfold gapEntryOkB at h
  cases hn : (gapAt m.gap_ix k).node with
  | none =>
    rw [hn] at h
    exact absurd h (by simp)
  | some a =>
    rw [hn] at h
    simp only [Bool.and_eq_true, decide_eq_true_eq, beq_iff_eq] at h
    exact ⟨a, rfl, h.1.1, h.1.2, h.2⟩

/-- The region offset a gap-index entry reads through an explicit node
reference. -/
theorem gapNodeMem_some {hp : List Node} {g : Gap} {a : Nat} (h : g.node = some a) :
    gapNodeMem hp g = (nodeAt hp a).mem.getD 0 := by
  unfold gapNodeMem
  rw [h]

/-- C2: under BEST_FIT with a gap index satisfying the at-rest sort,
validity and completeness invariants, `mem_new_alloc` selects the node
of the first gap-index entry with sufficient size; that node is a gap of
minimal size among all fitting gaps, ties resolved toward the lowest
region offset, and it is the record marked allocated by the call.  When
no live entry fits, the call fails cleanly with the state changed only
by the growth check. -/
theorem best_fit_selects_smallest_fitting_gap (m : PoolMgr) (size : Nat)
    (hpol : m.policy = AllocPolicy.bestFit) (hg : ¬ m.num_gaps = 0)
    (hvalid : GapIxValid m) (hcomp : GapIxComplete m) (hsort : GapIxSorted m) :
    (∀ k < m.num_gaps, size ≤ (gapAt m.gap_ix k).size →
      ∃ j a, policySelect (memResizeNodeHeap m) size = some a ∧
        j < m.num_gaps ∧ (gapAt m.gap_ix j).node = some a ∧
        size ≤ (gapAt m.gap_ix j).size ∧
        (∀ l < j, ¬ size ≤ (gapAt m.gap_ix l).size) ∧
        a < m.node_heap.length ∧ (nodeAt m.node_heap a).isGap = true ∧
        size ≤ (nodeAt m.node_heap a).size ∧
        (nodeAt (memNewAlloc m size).2.node_heap a).allocated = true ∧
        (nodeAt (memNewAlloc m size).2.node_heap a).size = size ∧
        (∀ b < m.node_heap.length, (nodeAt m.node_heap b).isGap = true →
          size ≤ (nodeAt m.node_heap b).size →
          (nodeAt m.node_heap a).size ≤ (nodeAt m.node_heap b).size ∧
          ((nodeAt m.node_heap a).size = (nodeAt m.node_heap b).size →
            (nodeAt m.node_heap a).mem.getD 0 ≤ (nodeAt m.node_heap b).mem.getD 0))) ∧
    ((∀ k < m.num_gaps, ¬ size ≤ (gapAt m.gap_ix k).size) →
      memNewAlloc m size = (none, memResizeNodeHeap m)) := by
  have hpol1 : (memResizeNodeHeap m).policy = AllocPolicy.bestFit := by
    rw [memResizeNodeHeap_policy, hpol]
  constructor
  · intro k hk hkfit
    have hklen : k < m.gap_ix.length := lt_of_lt_of_le hk hvalid.1
    have hpred : (fun g => decide (size ≤ g.size)) (m.gap_ix.getD k Gap.zero) = true := by
      simp only [decide_eq_true_eq]
      exact hkfit
    obtain ⟨j, hfind⟩ :=
      @findIdx?_isSome Gap (fun g => decide (size ≤ g.size)) m.gap_ix k Gap.zero hklen hpred
    obtain ⟨hjlen, hjfitb, hjminb⟩ := findIdx?_found Gap.zero hfind
    have hjfit : size ≤ (gapAt m.gap_ix j).size := by
      have hb := hjfitb
      simp only [decide_eq_true_eq] at hb
      exact hb
    have hjmin : ∀ l < j, ¬ size ≤ (gapAt m.gap_ix l).size := by
      intro l hl hc
      have hb := hjminb l hl
      simp only [decide_eq_false_iff_not] at hb
      exact absurd hc hb
    have hjk : j ≤ k := by
      by_contra hcon
      exact hjmin k (by omega) hkfit
    have hjnum : j < m.num_gaps := lt_of_le_of_lt hjk hk
    obtain ⟨a, hnode, halen, hagap, hasize⟩ := gapEntryOk_elim (hvalid.2.1 j hjnum)
    have hps : policySelect (memResizeNodeHeap m) size = some a := by
      unfold policySelect
      rw [hpol1]
      unfold bfSelect
      rw [memResizeNodeHeap_gap_ix, hfind]
      exact hnode
    have hused : (nodeAt (memResizeNodeHeap m).node_heap a).used = true := by
      rw [nodeAt_resize m halen]
      have := hagap
      simp only [Node.isGap, Bool.and_eq_true] at this
      exact this.1
    have hmark := memNewAllocCommit_marks (memResizeNodeHeap m) size a
      (lt_of_lt_of_le halen (memResizeNodeHeap_len_le m)) hused
    have hrun := memNewAlloc_of_some m size hg hps
    refine ⟨j, a, hps, hjnum, hnode, hjfit, hjmin, halen, hagap, ?_, ?_, ?_, ?_⟩
    · rw [← hasize]
      exact hjfit
    · rw [hrun]
      exact hmark.1
    · rw [hrun]
      exact hmark.2
    · intro b hblen hbgap hbfit
      have hbany := hcomp b hblen hbgap
      simp only [List.any_eq_true, List.mem_range, beq_iff_eq] at hbany
      obtain ⟨l, hlnum, hlnode⟩ := hbany
      obtain ⟨b2, hnode2, _, _, hsize2⟩ := gapEntryOk_elim (hvalid.2.1 l hlnum)
      have hb2 : b2 = b := by
        rw [hlnode] at hnode2
        exact (Option.some_inj.mp hnode2).symm
      subst hb2
      have hlfit : size ≤ (gapAt m.gap_ix l).size := by
        rw [hsize2]
        exact hbfit
      have hjl : j ≤ l := by
        by_contra hcon
        exact hjmin l (by omega) hlfit
      have hszmono := gapIx_size_mono m hsort l hlnum j hjl
      constructor
      · rw [← hasize, ← hsize2]
        exact hszmono
      · intro heqsz
        have hszeq : (gapAt m.gap_ix j).size = (gapAt m.gap_ix l).size := by
          rw [hasize, hsize2]
          exact heqsz
        have hmem := gapIx_mem_mono m hsort l hlnum j hjl hszeq
        rw [gapNodeMem_some hnode, gapNodeMem_some hnode2] at hmem
        exact hmem
  · intro hno
    have hsz1 : 1 ≤ size := by
      by_contra hcon
      have h0 : size = 0 := by omega
      exact hno 0 (by omega) (by rw [h0]; exact Nat.zero_le _)
    apply memNewAlloc_of_none m size hg
    unfold policySelect
    rw [hpol1]
    unfold bfSelect
    rw [memResizeNodeHeap_gap_ix]
    have hfind : m.gap_ix.findIdx? (fun g => decide (size ≤ g.size)) = none := by
      rw [List.findIdx?_eq_none_iff]
      intro x hx
      obtain ⟨l, hl, hget⟩ := List.mem_iff_getElem.mp hx
      have hxg : x = gapAt m.gap_ix l := by
        rw [← hget, gapAt, List.getD_eq_getElem]
      simp only [decide_eq_false_iff_not]
      rw [hxg]
      by_cases hln : l < m.num_gaps
      · exact hno l hln
      · rw [hvalid.2.2 l hl (by omega)]
        intro hc
        have : size = 0 := by
          simpa [Gap.zero] using hc
        omega
    rw [hfind]

/-- C2 witness: the best-fit characterization applied to a fresh
best-fit pool with request 100, fitting entry at position 0. -/
theorem best_fit_selects_smallest_fitting_gap_witness :
    ∃ j a, policySelect (memResizeNodeHeap c2pool) 100 = some a ∧
      j < c2pool.num_gaps ∧ (gapAt c2pool.gap_ix j).node = some a ∧
      100 ≤ (gapAt c2pool.gap_ix j).size ∧
      (∀ l < j, ¬ 100 ≤ (gapAt c2pool.gap_ix l).size) ∧
      a < c2pool.node_heap.length ∧ (nodeAt c2pool.node_heap a).isGap = true ∧
      100 ≤ (nodeAt c2pool.node_heap a).size ∧
      (nodeAt (memNewAlloc c2pool 100).2.node_heap a).allocated = true ∧
      (nodeAt (memNewAlloc c2pool 100).2.node_heap a).size = 100 ∧
      (∀ b < c2pool.node_heap.length, (nodeAt c2pool.node_heap b).isGap = true →
        100 ≤ (nodeAt c2pool.node_heap b).size →
        (nodeAt c2pool.node_heap a).size ≤ (nodeAt c2pool.node_heap b).size ∧
        ((nodeAt c2pool.node_heap a).size = (nodeAt c2pool.node_heap b).size →
          (nodeAt c2pool.node_heap a).mem.getD 0 ≤ (nodeAt c2pool.node_heap b).mem.getD 0)) := by
  have h := best_fit_selects_smallest_fitting_gap c2pool 100
    (by decide) (by decide) (by decide) (by decide) (by decide)
  exact h.1 0 (by decide) (by decide)

/-- Unpack the forward half of the link invariant. -/
theorem linksOk_next {hp : List Node} (h : LinksOk hp) {i j : Nat}
    (hi : i < hp.length) (hu : (nodeAt hp i).used = true)
    (hj : (nodeAt hp i).next = some j) :
    j < hp.length ∧ (nodeAt hp j).used = true ∧ (nodeAt hp j).prev = some i := by
  have hn := (h i hi hu).1
  unfold nextOkB at hn
  rw [hj] at hn
  simp only [Bool.and_eq_true, decide_eq_true_eq, beq_iff_eq] at hn
  exact ⟨hn.1.1, hn.1.2, hn.2⟩

/-- Unpack the backward half of the link invariant. -/
theorem linksOk_prev {hp : List Node} (h : LinksOk hp) {i p : Nat}
    (hi : i < hp.length) (hu : (nodeAt hp i).used = true)
    (hp2 : (nodeAt hp i).prev = some p) :
    p < hp.length ∧ (nodeAt hp p).used = true ∧ (nodeAt hp p).next = some i := by
  have hn := (h i hi hu).2
  unfold prevOkB at hn
  rw [hp2] at hn
  simp only [Bool.and_eq_true, decide_eq_true_eq, beq_iff_eq] at hn
  exact ⟨hn.1.1, hn.1.2, hn.2⟩

/-- Unpack the tiling invariant at one used record. -/
theorem tileOk_elim {hp : List Node} (h : TileOk hp) {i : Nat}
    (hi : i < hp.length) (hu : (nodeAt hp i).used = true) :
    0 < (nodeAt hp i).size ∧
    (∀ j, (nodeAt hp i).next = some j →
      (nodeAt hp j).mem.getD 0 = (nodeAt hp i).mem.getD 0 + (nodeAt hp i).size) := by
  have hn := h i hi hu
  unfold tileOkB at hn
  simp only [Bool.and_eq_true, decide_eq_true_eq] at hn
  refine ⟨hn.1.1, ?_⟩
  intro j hj
  have := hn.2
  rw [hj] at this
  simpa using this

/-- A gap has an allocated successor. -/
theorem noAdjGaps_elim {hp : List Node} (h : NoAdjGaps hp) {i j : Nat}
    (hi : i < hp.length) (hgap : (nodeAt hp i).isGap = true)
    (hj : (nodeAt hp i).next = some j) :
    (nodeAt hp j).allocated = true := by
  have hn := h i hi
  unfold gapNextOkB at hn
  rw [hgap, hj] at hn
  simpa using hn

/-- Successors sit at strictly larger offsets, so a record is never its
own successor. -/
theorem next_mem_lt {hp : List Node} (hT : TileOk hp) {i j : Nat}
    (hi : i < hp.length) (hu : (nodeAt hp i).used = true)
    (hj : (nodeAt hp i).next = some j) :
    (nodeAt hp i).mem.getD 0 < (nodeAt hp j).mem.getD 0 := by
  obtain ⟨hpos, htile⟩ := tileOk_elim hT hi hu
  rw [htile j hj]
  omega

/-- A used record is distinct from its successor. -/
theorem next_ne_self {hp : List Node} (hT : TileOk hp) {i j : Nat}
    (hi : i < hp.length) (hu : (nodeAt hp i).used = true)
    (hj : (nodeAt hp i).next = some j) : ¬ j = i := by
  intro he
  have := next_mem_lt hT hi hu hj
  rw [he] at this
  omega

@[simp] theorem delMark_num_allocs (m : PoolMgr) (i : Nat) :
    (delMark m i).num_allocs = m.num_allocs - 1 := rfl

@[simp] theorem delMark_alloc_size (m : PoolMgr) (i : Nat) :
    (delMark m i).alloc_size = m.alloc_size - (nodeAt m.node_heap i).size := rfl

@[simp] theorem delMark_num_gaps (m : PoolMgr) (i : Nat) :
    (delMark m i).num_gaps = m.num_gaps := rfl

@[simp] theorem delMark_used_nodes (m : PoolMgr) (i : Nat) :
    (delMark m i).used_nodes = m.used_nodes := rfl

@[simp] theorem delMark_gap_ix (m : PoolMgr) (i : Nat) :
    (delMark m i).gap_ix = m.gap_ix := rfl

@[simp] theorem delMark_policy (m : PoolMgr) (i : Nat) :
    (delMark m i).policy = m.policy := rfl

@[simp] theorem delMark_total_size (m : PoolMgr) (i : Nat) :
    (delMark m i).total_size = m.total_size := rfl

@[simp] theorem delMark_node_heap_length (m : PoolMgr) (i : Nat) :
    (delMark m i).node_heap.length = m.node_heap.length := by
  unfold delMark
  simp

theorem delMark_read_self (m : PoolMgr) {i : Nat} (hi : i < m.node_heap.length) :
    nodeAt (delMark m i).node_heap i = { nodeAt m.node_heap i with allocated := false } := by
  unfold delMark
  dsimp only
  rw [nodeAt_set, if_pos ⟨rfl, hi⟩]

theorem delMark_read_other (m : PoolMgr) {i x : Nat} (hx : ¬ i = x) :
    nodeAt (delMark m i).node_heap x = nodeAt m.node_heap x := by
  unfold delMark
  dsimp only
  rw [nodeAt_set, if_neg (fun hc => hx hc.1)]

@[simp] theorem forwardMerge_num_allocs (m1 : PoolMgr) (i j : Nat) :
    (forwardMerge m1 i j).num_allocs = m1.num_allocs := by
  unfold forwardMerge
  dsimp only
  cases hjn : (nodeAt m1.node_heap j).next <;> simp [hjn]

@[simp] theorem forwardMerge_alloc_size (m1 : PoolMgr) (i j : Nat) :
    (forwardMerge m1 i j).alloc_size = m1.alloc_size := by
  unfold forwardMerge
  dsimp only
  cases hjn : (nodeAt m1.node_heap j).next <;> simp [hjn]

@[simp] theorem forwardMerge_used_nodes (m1 : PoolMgr) (i j : Nat) :
    (forwardMerge m1 i j).used_nodes = m1.used_nodes - 1 := by
  unfold forwardMerge
  dsimp only
  cases hjn : (nodeAt m1.node_heap j).next <;> simp [hjn]

@[simp] theorem forwardMerge_policy (m1 : PoolMgr) (i j : Nat) :
    (forwardMerge m1 i j).policy = m1.policy := by
  unfold forwardMerge
  dsimp only
  cases hjn : (nodeAt m1.node_heap j).next <;> simp [hjn]

@[simp] theorem forwardMerge_total_size (m1 : PoolMgr) (i j : Nat) :
    (forwardMerge m1 i j).total_size = m1.total_size := by
  unfold forwardMerge
  dsimp only
  cases hjn : (nodeAt m1.node_heap j).next <;> simp [hjn]

@[simp] theorem forwardMerge_node_heap_length (m1 : PoolMgr) (i j : Nat) :
    (forwardMerge m1 i j).node_heap.length = m1.node_heap.length := by
  unfold forwardMerge
  dsimp only
  cases hjn : (nodeAt m1.node_heap j).next <;> simp [hjn]

theorem forwardMerge_num_gaps (m1 : PoolMgr) (i j pos : Nat)
    (hfound : gapFindPos m1.gap_ix j = some pos) :
    (forwardMerge m1 i j).num_gaps = m1.num_gaps - 1 := by
  unfold forwardMerge
  dsimp only
  cases hjn : (nodeAt m1.node_heap j).next <;>
    simp [hjn, (memRemoveFromGapIx_found m1 (nodeAt m1.node_heap j).size j pos hfound).2]

/-- Per-slot reads of the forward merge when the absorbed node has a
successor `k`. -/
theorem forwardMerge_read_mid (m1 : PoolMgr) (i j k : Nat)
    (hi : i < m1.node_heap.length) (hj : j < m1.node_heap.length)
    (hji : ¬ j = i) (hk : (nodeAt m1.node_heap j).next = some k)
    (hki : ¬ k = i) (hkj : ¬ k = j) (hklen : k < m1.node_heap.length) :
    nodeAt (forwardMerge m1 i j).node_heap i =
      { nodeAt m1.node_heap i with
        size := (nodeAt m1.node_heap i).size + (nodeAt m1.node_heap j).size,
        next := some k } ∧
    nodeAt (forwardMerge m1 i j).node_heap j =
      { nodeAt m1.node_heap j with used := false, size := 0, mem := none } ∧
    nodeAt (forwardMerge m1 i j).node_heap k =
      { nodeAt m1.node_heap k with prev := some i } ∧
    (∀ x, ¬ x = i → ¬ x = j → ¬ x = k →
      nodeAt (forwardMerge m1 i j).node_heap x = nodeAt m1.node_heap x) := by
  unfold forwardMerge
  dsimp only
  rw [hk]
  have hij : ¬ i = j := fun hc => hji hc.symm
  have hik : ¬ i = k := fun hc => hki hc.symm
  have hjk : ¬ j = k := fun hc => hkj hc.symm
  refine ⟨?_, ?_, ?_, ?_⟩
  · simp only [heapSet_node_heap, memRemoveFromGapIx_node_heap, nodeAt_set, List.length_set]
    rw [if_pos ⟨trivial, hi⟩, if_neg (fun hc => hki hc.1), if_neg (fun hc => hji hc.1),
      if_pos ⟨trivial, hi⟩]
  · simp only [heapSet_node_heap, memRemoveFromGapIx_node_heap, nodeAt_set, List.length_set]
    rw [if_neg (fun hc => hij hc.1), if_neg (fun hc => hkj hc.1), if_pos ⟨trivial, hj⟩,
      if_neg (fun hc => hij hc.1)]
    rw [hk]
  · simp only [heapSet_node_heap, memRemoveFromGapIx_node_heap, nodeAt_set, List.length_set]
    rw [if_neg (fun hc => hik hc.1), if_pos ⟨trivial, hklen⟩, if_neg (fun hc => hjk hc.1),
      if_neg (fun hc => hik hc.1)]
  · intro x hxi hxj hxk
    simp only [heapSet_node_heap, memRemoveFromGapIx_node_heap, nodeAt_set, List.length_set]
    rw [if_neg (fun hc => hxi hc.1.symm), if_neg (fun hc => hxk hc.1.symm),
      if_neg (fun hc => hxj hc.1.symm), if_neg (fun hc => hxi hc.1.symm)]

/-- Per-slot reads of the forward merge when the absorbed node is the
last of the list. -/
theorem forwardMerge_read_last (m1 : PoolMgr) (i j : Nat)
    (hi : i < m1.node_heap.length) (hj : j < m1.node_heap.length)
    (hji : ¬ j = i) (hk : (nodeAt m1.node_heap j).next = none) :
    nodeAt (forwardMerge m1 i j).node_heap i =
      { nodeAt m1.node_heap i with
        size := (nodeAt m1.node_heap i).size + (nodeAt m1.node_heap j).size,
        next := none } ∧
    nodeAt (forwardMerge m1 i j).node_heap j =
      { nodeAt m1.node_heap j with used := false, size := 0, mem := none, prev := none } ∧
    (∀ x, ¬ x = i → ¬ x = j →
      nodeAt (forwardMerge m1 i j).node_heap x = nodeAt m1.node_heap x) := by
  unfold forwardMerge
  dsimp only
  rw [hk]
  have hij : ¬ i = j := fun hc => hji hc.symm
  refine ⟨?_, ?_, ?_⟩
  · simp only [heapSet_node_heap, memRemoveFromGapIx_node_heap, nodeAt_set, List.length_set]
    rw [if_pos ⟨trivial, hi⟩, if_neg (fun hc => hji hc.1), if_neg (fun hc => hji hc.1),
      if_pos ⟨trivial, hi⟩]
  · simp only [heapSet_node_heap, memRemoveFromGapIx_node_heap, nodeAt_set, List.length_set]
    rw [if_neg (fun hc => hij hc.1), if_pos ⟨trivial, hj⟩, if_pos ⟨trivial, hj⟩,
      if_neg (fun hc => hij hc.1)]
    rw [hk]
  · intro x hxi hxj
    simp only [heapSet_node_heap, memRemoveFromGapIx_node_heap, nodeAt_set, List.length_set]
    rw [if_neg (fun hc => hxi hc.1.symm), if_neg (fun hc => hxj hc.1.symm),
      if_neg (fun hc => hxj hc.1.symm), if_neg (fun hc => hxi hc.1.symm)]


@[simp] theorem backwardMerge_num_allocs (m : PoolMgr) (i p : Nat) :
    (backwardMerge m i p).num_allocs = m.num_allocs := by
  unfold backwardMerge
  dsimp only
  split <;> simp

@[simp] theorem backwardMerge_alloc_size (m : PoolMgr) (i p : Nat) :
    (backwardMerge m i p).alloc_size = m.alloc_size := by
  unfold backwardMerge
  dsimp only
  split <;> simp

@[simp] theorem backwardMerge_num_gaps (m : PoolMgr) (i p : Nat) :
    (backwardMerge m i p).num_gaps = m.num_gaps := by
  unfold backwardMerge
  dsimp only
  split <;> simp

@[simp] theorem backwardMerge_used_nodes (m : PoolMgr) (i p : Nat) :
    (backwardMerge m i p).used_nodes = m.used_nodes - 1 := by
  unfold backwardMerge
  dsimp only
  split <;> simp

@[simp] theorem backwardMerge_gap_ix (m : PoolMgr) (i p : Nat) :
    (backwardMerge m i p).gap_ix = m.gap_ix := by
  unfold backwardMerge
  dsimp only
  split <;> simp

@[simp] theorem backwardMerge_policy (m : PoolMgr) (i p : Nat) :
    (backwardMerge m i p).policy = m.policy := by
  unfold backwardMerge
  dsimp only
  split <;> simp

@[simp] theorem backwardMerge_total_size (m : PoolMgr) (i p : Nat) :
    (backwardMerge m i p).total_size = m.total_size := by
  unfold backwardMerge
  dsimp only
  split <;> simp

@[simp] theorem backwardMerge_node_heap_length (m : PoolMgr) (i p : Nat) :
    (backwardMerge m i p).node_heap.length = m.node_heap.length := by
  unfold backwardMerge
  dsimp only
  split <;> simp

@[simp] theorem forwardMerge_gap_ix_eq (m1 : PoolMgr) (i j : Nat) :
    (forwardMerge m1 i j).gap_ix = (memRemoveFromGapIx m1 (nodeAt m1.node_heap j).size j).2.gap_ix := by
  unfold forwardMerge
  dsimp only
  cases hjn : (nodeAt m1.node_heap j).next <;> simp [hjn]

/-- Per-slot reads of the backward merge when the spliced-out node has a
successor `k`. -/
theorem backwardMerge_read_mid (m : PoolMgr) (i p k : Nat)
    (hi : i < m.node_heap.length) (hplen : p < m.node_heap.length)
    (hpi : ¬ p = i) (hn : (nodeAt m.node_heap i).next = some k)
    (hki : ¬ k = i) (hkp : ¬ k = p) (hklen : k < m.node_heap.length) :
    nodeAt (backwardMerge m i p).node_heap p =
      { nodeAt m.node_heap p with size := (nodeAt m.node_heap p).size + (nodeAt m.node_heap i).size, next := some k } ∧
    nodeAt (backwardMerge m i p).node_heap i =
      { nodeAt m.node_heap i with used := false, size := 0, mem := none, next := none, prev := none } ∧
    nodeAt (backwardMerge m i p).node_heap k =
      { nodeAt m.node_heap k with prev := some p } ∧
    (∀ x, ¬ x = i → ¬ x = p → ¬ x = k →
      nodeAt (backwardMerge m i p).node_heap x = nodeAt m.node_heap x) := by
  have hip : ¬ i = p := fun hc => hpi hc.symm
  have hik : ¬ i = k := fun hc => hki hc.symm
  have hpk : ¬ p = k := fun hc => hkp hc.symm
  unfold backwardMerge
  dsimp only
  split
  · rename_i k2 heq
    simp only [heapSet_node_heap, nodeAt_set, List.length_set, hi, hpi, and_true, true_and,
      false_and, if_true, if_false] at heq
    rw [hn] at heq
    have hk2 : k2 = k := (Option.some_inj.mp heq).symm
    subst hk2
    refine ⟨?_, ?_, ?_, ?_⟩
    · simp only [heapSet_node_heap, nodeAt_set, List.length_set]
      rw [if_neg (fun hc => hip hc.1), if_neg (fun hc => hkp hc.1), if_pos ⟨trivial, hplen⟩,
        if_neg (fun hc => hip hc.1), if_pos ⟨trivial, hplen⟩]
    · simp only [heapSet_node_heap, nodeAt_set, List.length_set]
      rw [if_pos ⟨trivial, hi⟩, if_neg (fun hc => hki hc.1), if_neg (fun hc => hpi hc.1),
        if_pos ⟨trivial, hi⟩, if_neg (fun hc => hpi hc.1)]
    · simp only [heapSet_node_heap, nodeAt_set, List.length_set]
      rw [if_neg (fun hc => hik hc.1), if_pos ⟨trivial, hklen⟩, if_neg (fun hc => hpk hc.1),
        if_neg (fun hc => hik hc.1), if_neg (fun hc => hpk hc.1)]
    · intro x hxi hxp hxk
      simp only [heapSet_node_heap, nodeAt_set, List.length_set]
      rw [if_neg (fun hc => hxi hc.1.symm), if_neg (fun hc => hxk hc.1.symm),
        if_neg (fun hc => hxp hc.1.symm), if_neg (fun hc => hxi hc.1.symm),
        if_neg (fun hc => hxp hc.1.symm)]
  · rename_i heq
    simp only [heapSet_node_heap, nodeAt_set, List.length_set, hi, hpi, and_true, true_and,
      false_and, if_true, if_false] at heq
    rw [hn] at heq
    exact Option.noConfusion heq

/-- Per-slot reads of the backward merge when the spliced-out node is the
last of the list. -/
theorem backwardMerge_read_last (m : PoolMgr) (i p : Nat)
    (hi : i < m.node_heap.length) (hplen : p < m.node_heap.length)
    (hpi : ¬ p = i) (hn : (nodeAt m.node_heap i).next = none) :
    nodeAt (backwardMerge m i p).node_heap p =
      { nodeAt m.node_heap p with size := (nodeAt m.node_heap p).size + (nodeAt m.node_heap i).size, next := none } ∧
    nodeAt (backwardMerge m i p).node_heap i =
      { nodeAt m.node_heap i with used := false, size := 0, mem := none, next := none, prev := none } ∧
    (∀ x, ¬ x = i → ¬ x = p →
      nodeAt (backwardMerge m i p).node_heap x = nodeAt m.node_heap x) := by
  have hip : ¬ i = p := fun hc => hpi hc.symm
  unfold backwardMerge
  dsimp only
  split
  · rename_i k2 heq
    simp only [heapSet_node_heap, nodeAt_set, List.length_set, hi, hpi, and_true, true_and,
      false_and, if_true, if_false] at heq
    rw [hn] at heq
    exact Option.noConfusion heq
  · rename_i heq
    refine ⟨?_, ?_, ?_⟩
    · simp only [heapSet_node_heap, nodeAt_set, List.length_set]
      rw [if_neg (fun hc => hip hc.1), if_pos ⟨trivial, hplen⟩, if_neg (fun hc => hip hc.1),
        if_pos ⟨trivial, hplen⟩]
    · simp only [heapSet_node_heap, nodeAt_set, List.length_set]
      rw [if_pos ⟨trivial, hi⟩, if_neg (fun hc => hpi hc.1), if_pos ⟨trivial, hi⟩,
        if_neg (fun hc => hpi hc.1)]
    · intro x hxi hxp
      simp only [heapSet_node_heap, nodeAt_set, List.length_set]
      rw [if_neg (fun hc => hxi hc.1.symm), if_neg (fun hc => hxp hc.1.symm),
        if_neg (fun hc => hxi hc.1.symm), if_neg (fun hc => hxp hc.1.symm)]

/-- When the arena is not full, the integer-quotient growth test fails
and `_mem_resize_node_heap` is the identity. -/
theorem memResizeNodeHeap_id (m : PoolMgr) (h : m.used_nodes < m.node_heap.length) :
    memResizeNodeHeap m = m := by
  unfold memResizeNodeHeap
  rw [Nat.div_eq_of_lt h]
  rfl

/-- When the gap index is not full, `_mem_resize_gap_ix` is the identity. -/
theorem memResizeGapIx_id (m : PoolMgr) (h : m.num_gaps < m.gap_ix.length) :
    memResizeGapIx m = m := by
  unfold memResizeGapIx
  rw [Nat.div_eq_of_lt h]
  rfl

/-- The forward-coalesce phase is a no-op when the released record has no
successor. -/
theorem delFwd_none (m1 : PoolMgr) (i : Nat)
    (h : (nodeAt m1.node_heap i).next = none) : delFwd m1 i = m1 := by
  unfold delFwd
  rw [h]

/-- The forward-coalesce phase is a no-op when the successor is
allocated. -/
theorem delFwd_alloc (m1 : PoolMgr) (i j : Nat)
    (h : (nodeAt m1.node_heap i).next = some j)
    (ha : (nodeAt m1.node_heap j).allocated = true) : delFwd m1 i = m1 := by
  unfold delFwd
  rw [h]
  dsimp only
  rw [if_neg (by rw [ha]; exact fun hc => Bool.noConfusion hc)]

/-- The forward-coalesce phase merges with an unallocated successor. -/
theorem delFwd_gap (m1 : PoolMgr) (i j : Nat)
    (h : (nodeAt m1.node_heap i).next = some j)
    (hg : (nodeAt m1.node_heap j).allocated = false) :
    delFwd m1 i = forwardMerge m1 i j := by
  unfold delFwd
  rw [h]
  dsimp only
  rw [if_pos hg]

/-- The backward-coalesce phase just inserts the record into the gap
index when it has no predecessor. -/
theorem delBwd_none (m2 : PoolMgr) (i : Nat)
    (h : (nodeAt m2.node_heap i).prev = none) :
    delBwd m2 i = memAddToGapIx m2 (nodeAt m2.node_heap i).size i := by
  unfold delBwd
  rw [h]

/-- The backward-coalesce phase just inserts the record into the gap
index when the predecessor is allocated. -/
theorem delBwd_alloc (m2 : PoolMgr) (i p : Nat)
    (h : (nodeAt m2.node_heap i).prev = some p)
    (ha : (nodeAt m2.node_heap p).allocated = true) :
    delBwd m2 i = memAddToGapIx m2 (nodeAt m2.node_heap i).size i := by
  unfold delBwd
  rw [h]
  dsimp only
  rw [if_neg (by rw [ha]; exact fun hc => Bool.noConfusion hc)]

/-- The backward-coalesce phase with an unallocated predecessor whose
gap-index entry is found: remove it, merge backward and insert the merged
gap. -/
theorem delBwd_gap (m2 : PoolMgr) (i p pos : Nat)
    (h : (nodeAt m2.node_heap i).prev = some p)
    (hg : (nodeAt m2.node_heap p).allocated = false)
    (hfound : gapFindPos m2.gap_ix p = some pos) :
    delBwd m2 i =
      memAddToGapIx (backwardMerge (memRemoveFromGapIx m2 (nodeAt m2.node_heap p).size p).2 i p)
        (nodeAt (backwardMerge (memRemoveFromGapIx m2 (nodeAt m2.node_heap p).size p).2 i p).node_heap p).size p := by
  unfold delBwd
  rw [h]
  dsimp only
  rw [if_pos hg]
  have hok := (memRemoveFromGapIx_found m2 (nodeAt m2.node_heap p).size p pos hfound).1
  rw [if_neg (by rw [hok]; exact fun hc => AllocStatus.noConfusion hc)]

/-- The result handle of the commit phase is the selected record or the
null handle. -/
theorem memNewAllocCommit_fst (m1 : PoolMgr) (size a : Nat) :
    (memNewAllocCommit m1 size a).1 = some a ∨ (memNewAllocCommit m1 size a).1 = none := by
  unfold memNewAllocCommit
  dsimp only
  split
  · exact Or.inl rfl
  · split
    · exact Or.inr rfl
    · exact Or.inl rfl

/-- Unpack a successful `mem_new_alloc` run on a pool whose arena the
growth check leaves alone: there was a gap to try, the policy selected
the returned record, and the result is that of the commit phase. -/
theorem memNewAlloc_success_elim (m : PoolMgr) (size a : Nat)
    (hng : memResizeNodeHeap m = m)
    (hsel : (memNewAlloc m size).1 = some a) :
    ¬ m.num_gaps = 0 ∧ policySelect m size = some a ∧
    memNewAlloc m size = memNewAllocCommit m size a := by
  unfold memNewAlloc at hsel ⊢
  by_cases hg : m.num_gaps = 0
  · rw [if_pos hg] at hsel
    exact absurd hsel (by simp)
  · rw [if_neg hg] at hsel ⊢
    rw [hng] at hsel ⊢
    dsimp only at hsel ⊢
    refine ⟨hg, ?_⟩
    cases hps : policySelect m size with
    | none =>
      rw [hps] at hsel
      exact absurd hsel (by simp)
    | some a2 =>
      rw [hps] at hsel
      dsimp only at hsel ⊢
      rcases memNewAllocCommit_fst m size a2 with hc | hc
      · rw [hc] at hsel
        have : a2 = a := Option.some_inj.mp hsel
        subst this
        exact ⟨rfl, rfl⟩
      · rw [hc] at hsel
        exact absurd hsel (by simp)

/-- Run of the commit phase when the candidate fits exactly: mark it
allocated, bump the counters and drop it from the gap index. -/
theorem memNewAllocCommit_exact (m1 : PoolMgr) (size a : Nat)
    (hsz : (nodeAt m1.node_heap a).size = size) :
    memNewAllocCommit m1 size a =
      (some a, heapSet (memRemoveFromGapIx { m1 with num_allocs := m1.num_allocs + 1, alloc_size := m1.alloc_size + size } size a).2 a { nodeAt m1.node_heap a with allocated := true, size := size }) := by
  unfold memNewAllocCommit
  dsimp only
  rw [if_pos (by rw [hsz]; exact Nat.sub_self size)]

/-- Run of the commit phase when a residual gap is carved, the unused-slot
search finds `r`, and the candidate has a successor `nx`: the state passed
to the final gap-index insertion is characterized slot by slot. -/
theorem memNewAllocCommit_residual_mid (m1 : PoolMgr) (size a r nx pos : Nat)
    (ha : a < m1.node_heap.length)
    (hbig : size < (nodeAt m1.node_heap a).size)
    (hfind : (m1.node_heap.set a { nodeAt m1.node_heap a with allocated := true, size := size }).findIdx? (fun nd => !nd.used) = some r)
    (hnx : (nodeAt m1.node_heap a).next = some nx)
    (hpos : gapFindPos m1.gap_ix a = some pos)
    (hra : ¬ r = a) (hrlen : r < m1.node_heap.length)
    (hnxa : ¬ nx = a) (hnxr : ¬ nx = r) (hnxlen : nx < m1.node_heap.length) :
    ∃ m7 : PoolMgr,
      memNewAllocCommit m1 size a = (some a, (memAddToGapIx m7 ((nodeAt m1.node_heap a).size - size) r).2) ∧
      nodeAt m7.node_heap a = { nodeAt m1.node_heap a with allocated := true, size := size, next := some r } ∧
      nodeAt m7.node_heap r = { size := (nodeAt m1.node_heap a).size - size, mem := (nodeAt m1.node_heap a).mem.map (fun x => x + size), used := true, allocated := false, next := some nx, prev := some a } ∧
      nodeAt m7.node_heap nx = { nodeAt m1.node_heap nx with prev := some r } ∧
      (∀ x, ¬ x = a → ¬ x = r → ¬ x = nx → nodeAt m7.node_heap x = nodeAt m1.node_heap x) ∧
      m7.node_heap.length = m1.node_heap.length ∧
      m7.num_allocs = m1.num_allocs + 1 ∧
      m7.alloc_size = m1.alloc_size + size ∧
      m7.used_nodes = m1.used_nodes + 1 ∧
      m7.num_gaps = m1.num_gaps - 1 ∧
      m7.gap_ix = (memRemoveShift m1.gap_ix pos).set (m1.num_gaps - 1) Gap.zero ∧
      m7.policy = m1.policy ∧ m7.total_size = m1.total_size := by
  have hpos2 : gapFindPos ({ m1 with num_allocs := m1.num_allocs + 1, alloc_size := m1.alloc_size + size } : PoolMgr).gap_ix a = some pos := hpos
  unfold memNewAllocCommit
  dsimp only
  rw [if_neg (Nat.sub_ne_zero_of_lt hbig)]
  simp only [heapSet_node_heap, memRemoveFromGapIx_node_heap]
  rw [hfind]
  dsimp only
  rw [hnx]
  dsimp only
  refine ⟨_, rfl, ?_, ?_, ?_, ?_, ?_, ?_, ?_, ?_, ?_, ?_, ?_, ?_⟩
  · simp only [heapSet_node_heap, memRemoveFromGapIx_node_heap, nodeAt_set, List.length_set]
    rw [if_pos ⟨trivial, ha⟩, if_neg (fun hc => hnxa hc.1), if_neg (fun hc => hra hc.1),
      if_pos ⟨trivial, ha⟩]
  · simp only [heapSet_node_heap, memRemoveFromGapIx_node_heap, nodeAt_set, List.length_set]
    rw [if_neg (fun hc => hra hc.1.symm), if_neg (fun hc => hnxr hc.1), if_pos ⟨trivial, hrlen⟩]
  · simp only [heapSet_node_heap, memRemoveFromGapIx_node_heap, nodeAt_set, List.length_set]
    rw [if_neg (fun hc => hnxa hc.1.symm), if_pos ⟨trivial, hnxlen⟩,
      if_neg (fun hc => hnxr hc.1.symm), if_neg (fun hc => hnxa hc.1.symm)]
  · intro x hxa hxr hxnx
    simp only [heapSet_node_heap, memRemoveFromGapIx_node_heap, nodeAt_set, List.length_set]
    rw [if_neg (fun hc => hxa hc.1.symm), if_neg (fun hc => hxnx hc.1.symm),
      if_neg (fun hc => hxr hc.1.symm), if_neg (fun hc => hxa hc.1.symm)]
  · simp
  · simp
  · simp
  · simp
  · simp [(memRemoveFromGapIx_found _ size a pos hpos2).2]
  · simp [memRemoveFromGapIx, gapFindPos] at hpos2 ⊢
    simp [hpos2]
  · simp
  · simp

/-- Run of the commit phase when a residual gap is carved, the unused-slot
search finds `r`, and the candidate is the last record of the list. -/
theorem memNewAllocCommit_residual_last (m1 : PoolMgr) (size a r pos : Nat)
    (ha : a < m1.node_heap.length)
    (hbig : size < (nodeAt m1.node_heap a).size)
    (hfind : (m1.node_heap.set a { nodeAt m1.node_heap a with allocated := true, size := size }).findIdx? (fun nd => !nd.used) = some r)
    (hnx : (nodeAt m1.node_heap a).next = none)
    (hpos : gapFindPos m1.gap_ix a = some pos)
    (hra : ¬ r = a) (hrlen : r < m1.node_heap.length) :
    ∃ m7 : PoolMgr,
      memNewAllocCommit m1 size a = (some a, (memAddToGapIx m7 ((nodeAt m1.node_heap a).size - size) r).2) ∧
      nodeAt m7.node_heap a = { nodeAt m1.node_heap a with allocated := true, size := size, next := some r } ∧
      nodeAt m7.node_heap r = { size := (nodeAt m1.node_heap a).size - size, mem := (nodeAt m1.node_heap a).mem.map (fun x => x + size), used := true, allocated := false, next := none, prev := some a } ∧
      (∀ x, ¬ x = a → ¬ x = r → nodeAt m7.node_heap x = nodeAt m1.node_heap x) ∧
      m7.node_heap.length = m1.node_heap.length ∧
      m7.num_allocs = m1.num_allocs + 1 ∧
      m7.alloc_size = m1.alloc_size + size ∧
      m7.used_nodes = m1.used_nodes + 1 ∧
      m7.num_gaps = m1.num_gaps - 1 ∧
      m7.gap_ix = (memRemoveShift m1.gap_ix pos).set (m1.num_gaps - 1) Gap.zero ∧
      m7.policy = m1.policy ∧ m7.total_size = m1.total_size := by
  have hpos2 : gapFindPos ({ m1 with num_allocs := m1.num_allocs + 1, alloc_size := m1.alloc_size + size } : PoolMgr).gap_ix a = some pos := hpos
  unfold memNewAllocCommit
  dsimp only
  rw [if_neg (Nat.sub_ne_zero_of_lt hbig)]
  simp only [heapSet_node_heap, memRemoveFromGapIx_node_heap]
  rw [hfind]
  dsimp only
  rw [hnx]
  dsimp only
  refine ⟨_, rfl, ?_, ?_, ?_, ?_, ?_, ?_, ?_, ?_, ?_, ?_, ?_⟩
  · simp only [heapSet_node_heap, memRemoveFromGapIx_node_heap, nodeAt_set, List.length_set]
    rw [if_pos ⟨trivial, ha⟩, if_neg (fun hc => hra hc.1), if_pos ⟨trivial, ha⟩]
  · simp only [heapSet_node_heap, memRemoveFromGapIx_node_heap, nodeAt_set, List.length_set]
    rw [if_neg (fun hc => hra hc.1.symm), if_pos ⟨trivial, hrlen⟩]
  · intro x hxa hxr
    simp only [heapSet_node_heap, memRemoveFromGapIx_node_heap, nodeAt_set, List.length_set]
    rw [if_neg (fun hc => hxa hc.1.symm), if_neg (fun hc => hxr hc.1.symm),
      if_neg (fun hc => hxa hc.1.symm)]
  · simp
  · simp
  · simp
  · simp
  · simp [(memRemoveFromGapIx_found _ size a pos hpos2).2]
  · simp [memRemoveFromGapIx, gapFindPos] at hpos2 ⊢
    simp [hpos2]
  · simp
  · simp

@[simp] theorem memSortGapStep_length (hp : List Node) (ix : List Gap) (i : Nat) :
    (memSortGapStep hp ix i).length = ix.length := by
  unfold memSortGapStep
  dsimp only
  split
  · simp
  · split
    · split
      · simp
      · rfl
    · rfl

/-- A sort step never drops a referenced node: an entry for `n` survives
one bubble iteration at an in-range index. -/
theorem memSortGapStep_contains (hp : List Node) (ix : List Gap) (i n : Nat)
    (hi : i < ix.length)
    (h : ∃ k, k < ix.length ∧ (gapAt ix k).node = some n) :
    ∃ k, k < (memSortGapStep hp ix i).length ∧ (gapAt (memSortGapStep hp ix i) k).node = some n := by
  obtain ⟨k, hk, hkn⟩ := h
  have hi1 : i - 1 < ix.length := lt_of_le_of_lt (Nat.sub_le i 1) hi
  have hswap : ∀ l, l = (ix.set i (gapAt ix (i - 1))).set (i - 1) (gapAt ix i) →
      ∃ k2, k2 < l.length ∧ (gapAt l k2).node = some n := by
    intro l hl
    subst hl
    by_cases hki : k = i
    · subst hki
      refine ⟨k - 1, by simp [hi1], ?_⟩
      rw [gapAt_set_self (by simp [hi1])]
      exact hkn
    · by_cases hk1 : k = i - 1
      · subst hk1
        by_cases h0 : i - 1 = i
        · exact absurd h0 hki
        · refine ⟨i, by simp [hi], ?_⟩
          rw [gapAt_set_of_ne h0, gapAt_set_self hi]
          exact hkn
      · refine ⟨k, by simp [hk], ?_⟩
        rw [gapAt_set_of_ne (fun hc => hk1 hc.symm), gapAt_set_of_ne (fun hc => hki hc.symm)]
        exact hkn
  unfold memSortGapStep
  dsimp only
  split
  · exact hswap _ rfl
  · split
    · split
      · exact hswap _ rfl
      · exact ⟨k, hk, hkn⟩
    · exact ⟨k, hk, hkn⟩

@[simp] theorem memSortGapAux_length (hp : List Node) :
    ∀ (j : Nat) (ix : List Gap), (memSortGapAux hp ix j).length = ix.length := by
  intro j
  induction j with
  | zero => intro ix; rfl
  | succ j ih =>
    intro ix
    unfold memSortGapAux
    rw [ih]
    simp

/-- The bubble pass never drops a referenced node, provided its starting
index is in range. -/
theorem memSortGapAux_contains (hp : List Node) (n : Nat) :
    ∀ (j : Nat) (ix : List Gap), j < ix.length →
      (∃ k, k < ix.length ∧ (gapAt ix k).node = some n) →
      ∃ k, k < (memSortGapAux hp ix j).length ∧ (gapAt (memSortGapAux hp ix j) k).node = some n := by
  intro j
  induction j with
  | zero => intro ix hj h; exact h
  | succ j ih =>
    intro ix hj h
    have hstep := memSortGapStep_contains hp ix (j + 1) n hj h
    unfold memSortGapAux
    refine ih (memSortGapStep hp ix (j + 1)) ?_ ?_
    · rw [memSortGapStep_length]
      exact Nat.lt_of_succ_lt hj
    · rw [memSortGapStep_length]
      rw [memSortGapStep_length] at hstep
      exact hstep

/-- Unpack a successful gap-index search. -/
theorem gapFindPos_found (ix : List Gap) (n pos : Nat) (h : gapFindPos ix n = some pos) :
    pos < ix.length ∧ (gapAt ix pos).node = some n := by
  unfold gapFindPos at h
  have hf := findIdx?_found Gap.zero h
  refine ⟨hf.1, ?_⟩
  have := hf.2.1
  simpa [gapAt] using this

/-- An entry in range satisfying the search predicate makes the gap-index
search succeed. -/
theorem gapFindPos_isSome (ix : List Gap) (n k : Nat)
    (hk : k < ix.length) (hkn : (gapAt ix k).node = some n) :
    ∃ pos, gapFindPos ix n = some pos := by
  unfold gapFindPos
  exact findIdx?_isSome Gap.zero hk (by simpa [gapAt] using hkn)

/-- When the slots at and beyond `ng` are zeroed, a found position is
below `ng`. -/
theorem gapFindPos_lt_num_gaps (ix : List Gap) (ng n pos : Nat)
    (hzero : ∀ k < ix.length, ng ≤ k → gapAt ix k = Gap.zero)
    (h : gapFindPos ix n = some pos) :
    pos < ng := by
  obtain ⟨hlen, hnode⟩ := gapFindPos_found ix n pos h
  by_contra hge
  push_neg at hge
  have hz := hzero pos hlen hge
  rw [hz] at hnode
  exact Option.noConfusion hnode

/-- Every gap record of an at-rest pool is found by the gap-index
search. -/
theorem gapFindPos_of_complete (m : PoolMgr) (a : Nat)
    (hGC : GapIxComplete m) (hGV : GapIxValid m)
    (ha : a < m.node_heap.length) (hgap : (nodeAt m.node_heap a).isGap = true) :
    ∃ pos, gapFindPos m.gap_ix a = some pos := by
  have h := hGC a ha hgap
  rw [List.any_eq_true] at h
  obtain ⟨k, hkmem, hk⟩ := h
  rw [List.mem_range] at hkmem
  have hklen : k < m.gap_ix.length := lt_of_lt_of_le hkmem hGV.1
  exact gapFindPos_isSome m.gap_ix a k hklen (by simpa using hk)

/-- Removing the entry of one node keeps every other node findable. -/
theorem gapFindPos_after_remove (m : PoolMgr) (s n n2 q : Nat)
    (hle : m.num_gaps ≤ m.gap_ix.length)
    (hzero : ∀ k < m.gap_ix.length, m.num_gaps ≤ k → gapAt m.gap_ix k = Gap.zero)
    (hne : ¬ n2 = n)
    (hq : q < m.num_gaps) (hqn : (gapAt m.gap_ix q).node = some n2) :
    ∃ q2, gapFindPos (memRemoveFromGapIx m s n).2.gap_ix n2 = some q2 := by
  have hqlen : q < m.gap_ix.length := lt_of_lt_of_le hq hle
  cases hpos : gapFindPos m.gap_ix n with
  | none =>
    rw [memRemoveFromGapIx_missing m s n hpos]
    exact gapFindPos_isSome m.gap_ix n2 q hqlen hqn
  | some pos =>
    have hposlt := gapFindPos_lt_num_gaps m.gap_ix m.num_gaps n pos hzero hpos
    have hposn := (gapFindPos_found m.gap_ix n pos hpos).2
    have hqpos : ¬ q = pos := by
      intro hc
      rw [hc, hposn] at hqn
      exact hne (Option.some_inj.mp hqn).symm
    unfold memRemoveFromGapIx
    rw [hpos]
    dsimp only
    rcases Nat.lt_or_ge q pos with hlt | hge
    · refine gapFindPos_isSome _ n2 q (by simp [hqlen]) ?_
      rw [gapAt_set_of_ne (fun hc => ?_), gapAt_memRemoveShift m.gap_ix pos q hqlen,
        if_pos hlt]
      · exact hqn
      · have : q < m.num_gaps - 1 := by omega
        omega
    · have hgt : pos < q := lt_of_le_of_ne hge (fun hc => hqpos hc.symm)
      have hq1len : q - 1 < m.gap_ix.length := lt_of_le_of_lt (Nat.sub_le q 1) hqlen
      refine gapFindPos_isSome _ n2 (q - 1) (by simp [hq1len]) ?_
      rw [gapAt_set_of_ne (fun hc => ?_), gapAt_memRemoveShift m.gap_ix pos (q - 1) hq1len,
        if_neg (by omega)]
      · have : q - 1 + 1 = q := by omega
        rw [this]
        exact hqn
      · omega

/-- After the final insertion of `_mem_add_to_gap_ix`, the inserted node
is findable, provided the index had room. -/
theorem memAddToGapIx_contains (m : PoolMgr) (s n : Nat)
    (hcap : m.num_gaps < m.gap_ix.length) :
    ∃ pos2, gapFindPos (memAddToGapIx m s n).2.gap_ix n = some pos2 := by
  unfold memAddToGapIx
  dsimp only
  rw [memResizeGapIx_id m hcap]
  rw [if_pos (memSortGapIx_status _)]
  dsimp only
  unfold memSortGapIx
  dsimp only
  have hbase : ∃ k, k < (m.gap_ix.set m.num_gaps { size := s, node := some n }).length ∧
      (gapAt (m.gap_ix.set m.num_gaps { size := s, node := some n }) k).node = some n := by
    refine ⟨m.num_gaps, by simp [hcap], ?_⟩
    rw [gapAt_set_self hcap]
  have hsorted := memSortGapAux_contains
    ({ m with gap_ix := m.gap_ix.set m.num_gaps { size := s, node := some n } } : PoolMgr).node_heap
    n (m.num_gaps + 1 - 1) (m.gap_ix.set m.num_gaps { size := s, node := some n })
    (by simp [hcap]) hbase
  obtain ⟨k, hk, hkn⟩ := hsorted
  exact gapFindPos_isSome _ n k hk hkn

/-- Unpack the gap flag. -/
theorem isGap_elim {nd : Node} (h : nd.isGap = true) :
    nd.used = true ∧ nd.allocated = false := by
  unfold Node.isGap at h
  rw [Bool.and_eq_true] at h
  exact ⟨h.1, by simpa using h.2⟩

/-- Build the gap flag. -/
theorem isGap_of {nd : Node} (hu : nd.used = true) (ha : nd.allocated = false) :
    nd.isGap = true := by
  unfold Node.isGap
  rw [hu, ha]
  rfl

/-- Establish the no-adjacent-gap check at one slot from its content. -/
theorem gapNextOkB_of (hp : List Node) (x : Nat)
    (h : (nodeAt hp x).isGap = true → ∀ y, (nodeAt hp x).next = some y →
      (nodeAt hp y).allocated = true) :
    gapNextOkB hp x = true := by
  unfold gapNextOkB
  cases hg : (nodeAt hp x).isGap
  · rfl
  · simp only [Bool.not_true, Bool.false_or]
    cases hnx : (nodeAt hp x).next
    · rfl
    · simpa using h hg _ hnx

/-- The commit phase returns the null handle when a residual is needed
but the unused-record search fails. -/
theorem memNewAllocCommit_nofind (m1 : PoolMgr) (size a : Nat)
    (hbig : size < (nodeAt m1.node_heap a).size)
    (hfd : (m1.node_heap.set a { nodeAt m1.node_heap a with allocated := true, size := size }).findIdx? (fun nd => !nd.used) = none) :
    (memNewAllocCommit m1 size a).1 = none := by
  unfold memNewAllocCommit
  dsimp only
  rw [if_neg (Nat.sub_ne_zero_of_lt hbig)]
  simp only [heapSet_node_heap, memRemoveFromGapIx_node_heap]
  rw [hfd]

/-- Identical reads produce identical walks. -/
theorem segListWalk_congr_all (hp1 hp2 : List Node)
    (hagree : ∀ x, nodeAt hp1 x = nodeAt hp2 x) :
    ∀ (fuel : Nat) (cur : Option Nat), segListWalk hp1 cur fuel = segListWalk hp2 cur fuel := by
  intro fuel
  induction fuel with
  | zero => intro cur; cases cur <;> rfl
  | succ n ih =>
    intro cur
    cases cur with
    | none => rfl
    | some i =>
      simp only [segListWalk]
      rw [hagree i, ih]

/-- Walks agree when the heaps differ only at one record that the walk,
staying on used records, never visits. -/
theorem segListWalk_congr_except (hp1 hp2 : List Node) (r : Nat)
    (hagree : ∀ x, ¬ x = r → nodeAt hp1 x = nodeAt hp2 x)
    (hchain : ∀ x, (nodeAt hp2 x).used = true → ∀ y, (nodeAt hp2 x).next = some y →
      (nodeAt hp2 y).used = true ∧ ¬ y = r) :
    ∀ (fuel : Nat) (cur : Option Nat),
      (∀ c, cur = some c → (nodeAt hp2 c).used = true ∧ ¬ c = r) →
      segListWalk hp1 cur fuel = segListWalk hp2 cur fuel := by
  intro fuel
  induction fuel with
  | zero => intro cur hc; cases cur <;> rfl
  | succ n ih =>
    intro cur hc
    cases cur with
    | none => rfl
    | some i =>
      have hi := hc i rfl
      simp only [segListWalk]
      rw [hagree i hi.2, ih ((nodeAt hp2 i).next) (fun c hcc => hchain i hi.1 c hcc)]

/-- The backward-coalesce phase and final insertion of `mem_del_alloc`
preserve the no-adjacent-gap invariant, given a partially coalesced state
in which the released record is a gap whose successor (if any) is
allocated, every gap has an allocated successor unless it points at the
released record, and only the recorded predecessor points at the released
record. -/
theorem delBwd_noAdjGaps (m3 : PoolMgr) (i : Nat)
    (hi : i < m3.node_heap.length)
    (hiu : (nodeAt m3.node_heap i).used = true)
    (hia : (nodeAt m3.node_heap i).allocated = false)
    (hpfact : ∀ p, (nodeAt m3.node_heap i).prev = some p →
      p < m3.node_heap.length ∧ (nodeAt m3.node_heap p).used = true ∧
      (nodeAt m3.node_heap p).next = some i ∧ ¬ p = i)
    (hpfind : ∀ p, (nodeAt m3.node_heap i).prev = some p →
      (nodeAt m3.node_heap p).allocated = false →
      ∃ pos, gapFindPos m3.gap_ix p = some pos)
    (hnexti : ∀ t, (nodeAt m3.node_heap i).next = some t →
      t < m3.node_heap.length ∧ (nodeAt m3.node_heap t).allocated = true ∧ ¬ t = i ∧
      (∀ p, (nodeAt m3.node_heap i).prev = some p → ¬ t = p))
    (hAdj3 : ∀ x, x < m3.node_heap.length → (nodeAt m3.node_heap x).isGap = true →
      ∀ y, (nodeAt m3.node_heap x).next = some y →
        (nodeAt m3.node_heap y).allocated = true ∨ y = i)
    (hIntoI : ∀ x, x < m3.node_heap.length → (nodeAt m3.node_heap x).used = true →
      (nodeAt m3.node_heap x).next = some i → (nodeAt m3.node_heap i).prev = some x) :
    NoAdjGaps (delBwd m3 i).2.node_heap := by
  cases hpv : (nodeAt m3.node_heap i).prev with
  | none =>
    rw [delBwd_none m3 i hpv]
    simp only [memAddToGapIx_node_heap]
    unfold NoAdjGaps
    intro x hx
    apply gapNextOkB_of
    intro hxg y hxy
    rcases hAdj3 x hx hxg y hxy with hy | hy
    · exact hy
    · subst hy
      have hin := hIntoI x hx (isGap_elim hxg).1 hxy
      rw [hpv] at hin
      exact Option.noConfusion hin
  | some p =>
    obtain ⟨hplen, hpu, hpnext, hpi⟩ := hpfact p hpv
    cases hpa : (nodeAt m3.node_heap p).allocated with
    | true =>
      rw [delBwd_alloc m3 i p hpv hpa]
      simp only [memAddToGapIx_node_heap]
      unfold NoAdjGaps
      intro x hx
      apply gapNextOkB_of
      intro hxg y hxy
      rcases hAdj3 x hx hxg y hxy with hy | hy
      · exact hy
      · subst hy
        have hin := hIntoI x hx (isGap_elim hxg).1 hxy
        rw [hpv] at hin
        have hpx : p = x := Option.some_inj.mp hin
        subst hpx
        have h2 := (isGap_elim hxg).2
        rw [hpa] at h2
        exact Bool.noConfusion h2
    | false =>
      obtain ⟨pos, hpos⟩ := hpfind p hpv hpa
      rw [delBwd_gap m3 i p pos hpv hpa hpos]
      simp only [memAddToGapIx_node_heap]
      have hheq : (memRemoveFromGapIx m3 (nodeAt m3.node_heap p).size p).2.node_heap = m3.node_heap :=
        memRemoveFromGapIx_node_heap m3 (nodeAt m3.node_heap p).size p
      have hi2 : i < (memRemoveFromGapIx m3 (nodeAt m3.node_heap p).size p).2.node_heap.length := by
        rw [hheq]; exact hi
      have hplen2 : p < (memRemoveFromGapIx m3 (nodeAt m3.node_heap p).size p).2.node_heap.length := by
        rw [hheq]; exact hplen
      cases hnx : (nodeAt m3.node_heap i).next with
      | some t =>
        obtain ⟨htlen, hta, hti, htpfun⟩ := hnexti t hnx
        have htp := htpfun p hpv
        have hn2 : (nodeAt (memRemoveFromGapIx m3 (nodeAt m3.node_heap p).size p).2.node_heap i).next = some t := by
          rw [hheq]; exact hnx
        have htlen2 : t < (memRemoveFromGapIx m3 (nodeAt m3.node_heap p).size p).2.node_heap.length := by
          rw [hheq]; exact htlen
        obtain ⟨hRp, hRi, hRt, hRo⟩ :=
          backwardMerge_read_mid (memRemoveFromGapIx m3 (nodeAt m3.node_heap p).size p).2 i p t
            hi2 hplen2 hpi hn2 hti htp htlen2
        rw [hheq] at hRp hRi hRt
        unfold NoAdjGaps
        intro x hx
        rw [backwardMerge_node_heap_length, hheq] at hx
        apply gapNextOkB_of
        intro hxg y hxy
        by_cases hxi : x = i
        · subst hxi
          rw [hRi] at hxg
          simp [Node.isGap] at hxg
        · by_cases hxp2 : x = p
          · subst hxp2
            rw [hRp] at hxy
            have hyt : t = y := Option.some_inj.mp hxy
            subst hyt
            rw [hRt]
            exact hta
          · by_cases hxt : x = t
            · subst hxt
              rw [hRt] at hxg
              have h2 := (isGap_elim hxg).2
              rw [hta] at h2
              exact Bool.noConfusion h2
            · have hxr := hRo x hxi hxp2 hxt
              rw [hheq] at hxr
              rw [hxr] at hxg hxy
              rcases hAdj3 x hx hxg y hxy with hy | hy
              · by_cases hyi : y = i
                · subst hyi
                  rw [hia] at hy
                  exact Bool.noConfusion hy
                · by_cases hyp : y = p
                  · subst hyp
                    rw [hpa] at hy
                    exact Bool.noConfusion hy
                  · by_cases hyt : y = t
                    · subst hyt
                      rw [hRt]
                      exact hy
                    · have hyr := hRo y hyi hyp hyt
                      rw [hheq] at hyr
                      rw [hyr]
                      exact hy
              · subst hy
                have hin := hIntoI x hx (isGap_elim hxg).1 hxy
                rw [hpv] at hin
                exact absurd (Option.some_inj.mp hin).symm hxp2
      | none =>
        have hn2 : (nodeAt (memRemoveFromGapIx m3 (nodeAt m3.node_heap p).size p).2.node_heap i).next = none := by
          rw [hheq]; exact hnx
        obtain ⟨hRp, hRi, hRo⟩ :=
          backwardMerge_read_last (memRemoveFromGapIx m3 (nodeAt m3.node_heap p).size p).2 i p
            hi2 hplen2 hpi hn2
        rw [hheq] at hRp hRi
        unfold NoAdjGaps
        intro x hx
        rw [backwardMerge_node_heap_length, hheq] at hx
        apply gapNextOkB_of
        intro hxg y hxy
        by_cases hxi : x = i
        · subst hxi
          rw [hRi] at hxg
          simp [Node.isGap] at hxg
        · by_cases hxp2 : x = p
          · subst hxp2
            rw [hRp] at hxy
            exact Option.noConfusion hxy
          · have hxr := hRo x hxi hxp2
            rw [hheq] at hxr
            rw [hxr] at hxg hxy
            rcases hAdj3 x hx hxg y hxy with hy | hy
            · by_cases hyi : y = i
              · subst hyi
                rw [hia] at hy
                exact Bool.noConfusion hy
              · by_cases hyp : y = p
                · subst hyp
                  rw [hpa] at hy
                  exact Bool.noConfusion hy
                · have hyr := hRo y hyi hyp
                  rw [hheq] at hyr
                  rw [hyr]
                  exact hy
            · subst hy
              have hin := hIntoI x hx (isGap_elim hxg).1 hxy
              rw [hpv] at hin
              exact absurd (Option.some_inj.mp hin).symm hxp2

/-- Every gap record owns a live gap-index entry. -/
theorem gapIxComplete_entry (m : PoolMgr) (a : Nat) (hGC : GapIxComplete m)
    (ha : a < m.node_heap.length) (hgap : (nodeAt m.node_heap a).isGap = true) :
    ∃ k, k < m.num_gaps ∧ (gapAt m.gap_ix k).node = some a := by
  have h := hGC a ha hgap
  rw [List.any_eq_true] at h
  obtain ⟨k, hkmem, hk⟩ := h
  rw [List.mem_range] at hkmem
  exact ⟨k, hkmem, by simpa using hk⟩

/-- After the release marking alone (no forward merge), the backward
phase leaves no adjacent gaps, provided the successor of the released
record (if any) is allocated. -/
theorem delMark_bwd_noAdjGaps (m : PoolMgr) (i : Nat)
    (hL : LinksOk m.node_heap) (hT : TileOk m.node_heap) (hN : NoAdjGaps m.node_heap)
    (hGV : GapIxValid m) (hGC : GapIxComplete m)
    (hi : i < m.node_heap.length)
    (hused : (nodeAt m.node_heap i).used = true)
    (hsucc : ∀ t, (nodeAt m.node_heap i).next = some t → (nodeAt m.node_heap t).allocated = true) :
    NoAdjGaps (delBwd (delMark m i) i).2.node_heap := by
  have hM2self := delMark_read_self m hi
  apply delBwd_noAdjGaps (delMark m i) i
  · rw [delMark_node_heap_length]
    exact hi
  · rw [hM2self]
    exact hused
  · rw [hM2self]
  · intro p hpv
    have hpv0 : (nodeAt m.node_heap i).prev = some p := by rw [hM2self] at hpv; exact hpv
    obtain ⟨hplen, hpused, hpnext⟩ := linksOk_prev hL hi hused hpv0
    have hpi : ¬ p = i := fun hc => (next_ne_self hT hplen hpused hpnext) hc.symm
    refine ⟨by rw [delMark_node_heap_length]; exact hplen, ?_, ?_, hpi⟩
    · rw [delMark_read_other m (fun hc => hpi hc.symm)]
      exact hpused
    · rw [delMark_read_other m (fun hc => hpi hc.symm)]
      exact hpnext
  · intro p hpv hpa
    have hpv0 : (nodeAt m.node_heap i).prev = some p := by rw [hM2self] at hpv; exact hpv
    obtain ⟨hplen, hpused, hpnext⟩ := linksOk_prev hL hi hused hpv0
    have hpi : ¬ p = i := fun hc => (next_ne_self hT hplen hpused hpnext) hc.symm
    have hpa0 : (nodeAt m.node_heap p).allocated = false := by
      rw [delMark_read_other m (fun hc => hpi hc.symm)] at hpa
      exact hpa
    exact gapFindPos_of_complete m p hGC hGV hplen (isGap_of hpused hpa0)
  · intro t ht
    have ht0 : (nodeAt m.node_heap i).next = some t := by rw [hM2self] at ht; exact ht
    obtain ⟨htlen, htused, htprev⟩ := linksOk_next hL hi hused ht0
    have hti : ¬ t = i := next_ne_self hT hi hused ht0
    refine ⟨by rw [delMark_node_heap_length]; exact htlen, ?_, hti, ?_⟩
    · rw [delMark_read_other m (fun hc => hti hc.symm)]
      exact hsucc t ht0
    · intro p hpv hc
      have hpv0 : (nodeAt m.node_heap i).prev = some p := by rw [hM2self] at hpv; exact hpv
      obtain ⟨hplen, hpused, hpnext⟩ := linksOk_prev hL hi hused hpv0
      have h1 := next_mem_lt hT hplen hpused hpnext
      have h2 := next_mem_lt hT hi hused ht0
      rw [hc] at h2
      omega
  · intro x hx hxg y hxy
    have hx3 : x < m.node_heap.length := by rw [delMark_node_heap_length] at hx; exact hx
    by_cases hxi : i = x
    · subst hxi
      rw [hM2self] at hxy
      have hxy0 : (nodeAt m.node_heap i).next = some y := hxy
      left
      have hyalloc := hsucc y hxy0
      obtain ⟨hylen, hyused, hyprev⟩ := linksOk_next hL hi hused hxy0
      have hyi : ¬ i = y := fun hc => (next_ne_self hT hi hused hxy0) hc.symm
      rw [delMark_read_other m hyi]
      exact hyalloc
    · rw [delMark_read_other m hxi] at hxg hxy
      have hyalloc := noAdjGaps_elim hN hx3 hxg hxy
      by_cases hyi : i = y
      · exact Or.inr hyi.symm
      · left
        rw [delMark_read_other m hyi]
        exact hyalloc
  · intro x hx hxu hxnext
    have hx3 : x < m.node_heap.length := by rw [delMark_node_heap_length] at hx; exact hx
    by_cases hxi : i = x
    · subst hxi
      rw [hM2self] at hxnext
      have hxn0 : (nodeAt m.node_heap i).next = some i := hxnext
      exact absurd rfl (next_ne_self hT hi hused hxn0)
    · rw [delMark_read_other m hxi] at hxu hxnext
      have := (linksOk_next hL hx3 hxu hxnext).2.2
      rw [hM2self]
      exact this

/-- After the release marking and a forward merge with an unallocated
successor, the backward phase leaves no adjacent gaps. -/
theorem delFwdMerge_bwd_noAdjGaps (m : PoolMgr) (i j : Nat)
    (hL : LinksOk m.node_heap) (hT : TileOk m.node_heap) (hN : NoAdjGaps m.node_heap)
    (hGV : GapIxValid m) (hGC : GapIxComplete m)
    (hi : i < m.node_heap.length)
    (hused : (nodeAt m.node_heap i).used = true)
    (hnxO : (nodeAt m.node_heap i).next = some j)
    (hja : (nodeAt m.node_heap j).allocated = false) :
    NoAdjGaps (delBwd (forwardMerge (delMark m i) i j) i).2.node_heap := by
  obtain ⟨hjlen, hjused, hjprev⟩ := linksOk_next hL hi hused hnxO
  have hji : ¬ j = i := next_ne_self hT hi hused hnxO
  have hjgap : (nodeAt m.node_heap j).isGap = true := isGap_of hjused hja
  have hm_ij := next_mem_lt hT hi hused hnxO
  have hM2self := delMark_read_self m hi
  have hM2j : nodeAt (delMark m i).node_heap j = nodeAt m.node_heap j :=
    delMark_read_other m (fun hc => hji hc.symm)
  have hi2 : i < (delMark m i).node_heap.length := by
    rw [delMark_node_heap_length]; exact hi
  have hj2 : j < (delMark m i).node_heap.length := by
    rw [delMark_node_heap_length]; exact hjlen
  cases hk : (nodeAt m.node_heap j).next with
  | some k =>
    obtain ⟨hklen, hkused, hkprev⟩ := linksOk_next hL hjlen hjused hk
    have hm_jk := next_mem_lt hT hjlen hjused hk
    have hkalloc := noAdjGaps_elim hN hjlen hjgap hk
    have hkj : ¬ k = j := next_ne_self hT hjlen hjused hk
    have hki : ¬ k = i := by intro hc; rw [hc] at hm_jk; omega
    have hkM2 : (nodeAt (delMark m i).node_heap j).next = some k := by rw [hM2j]; exact hk
    have hklen2 : k < (delMark m i).node_heap.length := by
      rw [delMark_node_heap_length]; exact hklen
    obtain ⟨hFi, hFj, hFk, hFo⟩ :=
      forwardMerge_read_mid (delMark m i) i j k hi2 hj2 hji hkM2 hki hkj hklen2
    rw [hM2self, hM2j] at hFi
    rw [hM2j] at hFj
    rw [delMark_read_other m (fun hc => hki hc.symm)] at hFk
    apply delBwd_noAdjGaps (forwardMerge (delMark m i) i j) i
    · rw [forwardMerge_node_heap_length, delMark_node_heap_length]
      exact hi
    · rw [hFi]
      exact hused
    · rw [hFi]
    · intro p hpv
      rw [hFi] at hpv
      have hpv0 : (nodeAt m.node_heap i).prev = some p := hpv
      obtain ⟨hplen, hpused, hpnext⟩ := linksOk_prev hL hi hused hpv0
      have hpi : ¬ p = i := fun hc => (next_ne_self hT hplen hpused hpnext) hc.symm
      have hm_pi := next_mem_lt hT hplen hpused hpnext
      have hpj : ¬ p = j := by intro hc; rw [hc] at hm_pi; omega
      have hpk : ¬ p = k := by intro hc; rw [hc] at hm_pi; omega
      have hpr : nodeAt (forwardMerge (delMark m i) i j).node_heap p = nodeAt m.node_heap p := by
        rw [hFo p hpi hpj hpk, delMark_read_other m (fun hc => hpi hc.symm)]
      refine ⟨by rw [forwardMerge_node_heap_length, delMark_node_heap_length]; exact hplen, ?_, ?_, hpi⟩
      · rw [hpr]; exact hpused
      · rw [hpr]; exact hpnext
    · intro p hpv hpa
      rw [hFi] at hpv
      have hpv0 : (nodeAt m.node_heap i).prev = some p := hpv
      obtain ⟨hplen, hpused, hpnext⟩ := linksOk_prev hL hi hused hpv0
      have hpi : ¬ p = i := fun hc => (next_ne_self hT hplen hpused hpnext) hc.symm
      have hm_pi := next_mem_lt hT hplen hpused hpnext
      have hpj : ¬ p = j := by intro hc; rw [hc] at hm_pi; omega
      have hpk : ¬ p = k := by intro hc; rw [hc] at hm_pi; omega
      have hpr : nodeAt (forwardMerge (delMark m i) i j).node_heap p = nodeAt m.node_heap p := by
        rw [hFo p hpi hpj hpk, delMark_read_other m (fun hc => hpi hc.symm)]
      rw [hpr] at hpa
      obtain ⟨q, hq, hqn⟩ := gapIxComplete_entry m p hGC hplen (isGap_of hpused hpa)
      rw [forwardMerge_gap_ix_eq]
      exact gapFindPos_after_remove (delMark m i) (nodeAt (delMark m i).node_heap j).size j p q
        hGV.1 hGV.2.2 hpj hq hqn
    · intro t ht
      rw [hFi] at ht
      have hkt : k = t := Option.some_inj.mp ht
      subst hkt
      refine ⟨by rw [forwardMerge_node_heap_length, delMark_node_heap_length]; exact hklen,
        ?_, hki, ?_⟩
      · rw [hFk]; exact hkalloc
      · intro p hpv hc
        rw [hFi] at hpv
        have hpv0 : (nodeAt m.node_heap i).prev = some p := hpv
        obtain ⟨hplen, hpused, hpnext⟩ := linksOk_prev hL hi hused hpv0
        have hm_pi := next_mem_lt hT hplen hpused hpnext
        rw [hc] at hm_jk
        omega
    · intro x hx hxg y hxy
      have hx3 : x < m.node_heap.length := by
        rw [forwardMerge_node_heap_length, delMark_node_heap_length] at hx; exact hx
      by_cases hxi : x = i
      · subst hxi
        rw [hFi] at hxy
        have hky : k = y := Option.some_inj.mp hxy
        subst hky
        left
        rw [hFk]
        exact hkalloc
      · by_cases hxj : x = j
        · subst hxj
          rw [hFj] at hxg
          simp [Node.isGap] at hxg
        · by_cases hxk : x = k
          · subst hxk
            rw [hFk] at hxg
            have h2 := (isGap_elim hxg).2
            rw [hkalloc] at h2
            exact Bool.noConfusion h2
          · have hxr : nodeAt (forwardMerge (delMark m i) i j).node_heap x = nodeAt m.node_heap x := by
              rw [hFo x hxi hxj hxk, delMark_read_other m (fun hc => hxi hc.symm)]
            rw [hxr] at hxg hxy
            have hyalloc := noAdjGaps_elim hN hx3 hxg hxy
            by_cases hyi : y = i
            · exact Or.inr hyi
            · by_cases hyj : y = j
              · subst hyj
                have hjp := (linksOk_next hL hx3 (isGap_elim hxg).1 hxy).2.2
                rw [hjprev] at hjp
                exact absurd (Option.some_inj.mp hjp).symm hxi
              · by_cases hyk : y = k
                · subst hyk
                  left
                  rw [hFk]
                  exact hkalloc
                · left
                  rw [hFo y hyi hyj hyk, delMark_read_other m (fun hc => hyi hc.symm)]
                  exact hyalloc
    · intro x hx hxu hxnext
      have hx3 : x < m.node_heap.length := by
        rw [forwardMerge_node_heap_length, delMark_node_heap_length] at hx; exact hx
      by_cases hxi : x = i
      · subst hxi
        rw [hFi] at hxnext
        exact absurd (Option.some_inj.mp hxnext) hki
      · by_cases hxj : x = j
        · subst hxj
          rw [hFj] at hxnext
          have hxn0 : (nodeAt m.node_heap x).next = some i := hxnext
          rw [hk] at hxn0
          exact absurd (Option.some_inj.mp hxn0) hki
        · by_cases hxk : x = k
          · subst hxk
            rw [hFk] at hxu hxnext
            have hxu0 : (nodeAt m.node_heap x).used = true := hxu
            have hxn0 : (nodeAt m.node_heap x).next = some i := hxnext
            have := (linksOk_next hL hx3 hxu0 hxn0).2.2
            rw [hFi]
            exact this
          · have hxr : nodeAt (forwardMerge (delMark m i) i j).node_heap x = nodeAt m.node_heap x := by
              rw [hFo x hxi hxj hxk, delMark_read_other m (fun hc => hxi hc.symm)]
            rw [hxr] at hxu hxnext
            have := (linksOk_next hL hx3 hxu hxnext).2.2
            rw [hFi]
            exact this
  | none =>
    have hkM2 : (nodeAt (delMark m i).node_heap j).next = none := by rw [hM2j]; exact hk
    obtain ⟨hFi, hFj, hFo⟩ :=
      forwardMerge_read_last (delMark m i) i j hi2 hj2 hji hkM2
    rw [hM2self, hM2j] at hFi
    rw [hM2j] at hFj
    apply delBwd_noAdjGaps (forwardMerge (delMark m i) i j) i
    · rw [forwardMerge_node_heap_length, delMark_node_heap_length]
      exact hi
    · rw [hFi]
      exact hused
    · rw [hFi]
    · intro p hpv
      rw [hFi] at hpv
      have hpv0 : (nodeAt m.node_heap i).prev = some p := hpv
      obtain ⟨hplen, hpused, hpnext⟩ := linksOk_prev hL hi hused hpv0
      have hpi : ¬ p = i := fun hc => (next_ne_self hT hplen hpused hpnext) hc.symm
      have hm_pi := next_mem_lt hT hplen hpused hpnext
      have hpj : ¬ p = j := by intro hc; rw [hc] at hm_pi; omega
      have hpr : nodeAt (forwardMerge (delMark m i) i j).node_heap p = nodeAt m.node_heap p := by
        rw [hFo p hpi hpj, delMark_read_other m (fun hc => hpi hc.symm)]
      refine ⟨by rw [forwardMerge_node_heap_length, delMark_node_heap_length]; exact hplen, ?_, ?_, hpi⟩
      · rw [hpr]; exact hpused
      · rw [hpr]; exact hpnext
    · intro p hpv hpa
      rw [hFi] at hpv
      have hpv0 : (nodeAt m.node_heap i).prev = some p := hpv
      obtain ⟨hplen, hpused, hpnext⟩ := linksOk_prev hL hi hused hpv0
      have hpi : ¬ p = i := fun hc => (next_ne_self hT hplen hpused hpnext) hc.symm
      have hm_pi := next_mem_lt hT hplen hpused hpnext
      have hpj : ¬ p = j := by intro hc; rw [hc] at hm_pi; omega
      have hpr : nodeAt (forwardMerge (delMark m i) i j).node_heap p = nodeAt m.node_heap p := by
        rw [hFo p hpi hpj, delMark_read_other m (fun hc => hpi hc.symm)]
      rw [hpr] at hpa
      obtain ⟨q, hq, hqn⟩ := gapIxComplete_entry m p hGC hplen (isGap_of hpused hpa)
      rw [forwardMerge_gap_ix_eq]
      exact gapFindPos_after_remove (delMark m i) (nodeAt (delMark m i).node_heap j).size j p q
        hGV.1 hGV.2.2 hpj hq hqn
    · intro t ht
      rw [hFi] at ht
      exact absurd ht (by exact fun hc => Option.noConfusion hc)
    · intro x hx hxg y hxy
      have hx3 : x < m.node_heap.length := by
        rw [forwardMerge_node_heap_length, delMark_node_heap_length] at hx; exact hx
      by_cases hxi : x = i
      · subst hxi
        rw [hFi] at hxy
        exact absurd hxy (by exact fun hc => Option.noConfusion hc)
      · by_cases hxj : x = j
        · subst hxj
          rw [hFj] at hxg
          simp [Node.isGap] at hxg
        · have hxr : nodeAt (forwardMerge (delMark m i) i j).node_heap x = nodeAt m.node_heap x := by
            rw [hFo x hxi hxj, delMark_read_other m (fun hc => hxi hc.symm)]
          rw [hxr] at hxg hxy
          have hyalloc := noAdjGaps_elim hN hx3 hxg hxy
          by_cases hyi : y = i
          · exact Or.inr hyi
          · by_cases hyj : y = j
            · subst hyj
              have hjp := (linksOk_next hL hx3 (isGap_elim hxg).1 hxy).2.2
              rw [hjprev] at hjp
              exact absurd (Option.some_inj.mp hjp).symm hxi
            · left
              rw [hFo y hyi hyj, delMark_read_other m (fun hc => hyi hc.symm)]
              exact hyalloc
    · intro x hx hxu hxnext
      have hx3 : x < m.node_heap.length := by
        rw [forwardMerge_node_heap_length, delMark_node_heap_length] at hx; exact hx
      by_cases hxi : x = i
      · subst hxi
        rw [hFi] at hxnext
        exact absurd hxnext (by exact fun hc => Option.noConfusion hc)
      · by_cases hxj : x = j
        · subst hxj
          rw [hFj] at hxnext
          have hxn0 : (nodeAt m.node_heap x).next = some i := hxnext
          rw [hk] at hxn0
          exact Option.noConfusion hxn0
        · have hxr : nodeAt (forwardMerge (delMark m i) i j).node_heap x = nodeAt m.node_heap x := by
            rw [hFo x hxi hxj, delMark_read_other m (fun hc => hxi hc.symm)]
          rw [hxr] at hxu hxnext
          have := (linksOk_next hL hx3 hxu hxnext).2.2
          rw [hFi]
          exact this

/-- `mem_del_alloc` on a used record of an at-rest pool leaves no two
adjacent gaps in the segment list. -/
theorem memDelAlloc_noAdjGaps (m : PoolMgr) (i : Nat)
    (hAR : AtRest m) (hi : i < m.node_heap.length)
    (hused : (nodeAt m.node_heap i).used = true) :
    NoAdjGaps (memDelAlloc m i).2.node_heap := by
  obtain ⟨hL, hT, hN, hZ, hGV, hGC, hGN, hGS, hCK⟩ := hAR
  unfold memDelAlloc
  have hM2self := delMark_read_self m hi
  cases hnxO : (nodeAt m.node_heap i).next with
  | none =>
    rw [delFwd_none (delMark m i) i (by rw [hM2self]; exact hnxO)]
    exact delMark_bwd_noAdjGaps m i hL hT hN hGV hGC hi hused
      (fun t ht => absurd ht (by rw [hnxO]; exact fun hc => Option.noConfusion hc))
  | some j =>
    have hji : ¬ j = i := next_ne_self hT hi hused hnxO
    have hM2j : nodeAt (delMark m i).node_heap j = nodeAt m.node_heap j :=
      delMark_read_other m (fun hc => hji hc.symm)
    cases hja : (nodeAt m.node_heap j).allocated with
    | true =>
      rw [delFwd_alloc (delMark m i) i j (by rw [hM2self]; exact hnxO) (by rw [hM2j]; exact hja)]
      refine delMark_bwd_noAdjGaps m i hL hT hN hGV hGC hi hused (fun t ht => ?_)
      rw [hnxO] at ht
      rw [← Option.some_inj.mp ht]
      exact hja
    | false =>
      rw [delFwd_gap (delMark m i) i j (by rw [hM2self]; exact hnxO) (by rw [hM2j]; exact hja)]
      exact delFwdMerge_bwd_noAdjGaps m i j hL hT hN hGV hGC hi hused hnxO hja

/-- A successful `mem_new_alloc` that selects a genuine fitting gap
leaves no two adjacent gaps in the segment list. -/
theorem memNewAlloc_noAdjGaps (m : PoolMgr) (size a : Nat)
    (hAR : AtRest m) (hnogrow : m.used_nodes < m.node_heap.length)
    (hsel : (memNewAlloc m size).1 = some a)
    (ha : a < m.node_heap.length)
    (hgap : (nodeAt m.node_heap a).isGap = true)
    (hfit : size ≤ (nodeAt m.node_heap a).size) :
    NoAdjGaps (memNewAlloc m size).2.node_heap := by
  obtain ⟨hL, hT, hN, hZ, hGV, hGC, hGN, hGS, hCK⟩ := hAR
  obtain ⟨hused, hnotalloc⟩ := isGap_elim hgap
  have hng := memResizeNodeHeap_id m hnogrow
  obtain ⟨hg0, hps, hrun⟩ := memNewAlloc_success_elim m size a hng hsel
  rw [hrun]
  rcases Nat.lt_or_ge size (nodeAt m.node_heap a).size with hbig | hge
  · obtain ⟨pos, hpos⟩ := gapFindPos_of_complete m a hGC hGV ha hgap
    cases hfd : (m.node_heap.set a { nodeAt m.node_heap a with allocated := true, size := size }).findIdx? (fun nd => !nd.used) with
    | none =>
      have hnone := memNewAllocCommit_nofind m size a hbig hfd
      rw [hrun] at hsel
      rw [hnone] at hsel
      exact absurd hsel (by simp)
    | some r =>
      have hf := findIdx?_found Node.zero hfd
      have hrlen : r < m.node_heap.length := by
        have := hf.1
        rw [List.length_set] at this
        exact this
      have hrunused : (nodeAt (m.node_heap.set a { nodeAt m.node_heap a with allocated := true, size := size }) r).used = false := by
        have := hf.2.1
        simpa [nodeAt] using this
      have hra : ¬ r = a := by
        intro hc
        rw [hc, nodeAt_set, if_pos ⟨rfl, ha⟩] at hrunused
        have h2 : (nodeAt m.node_heap a).used = false := hrunused
        rw [hused] at h2
        exact Bool.noConfusion h2
      have hr_orig_unused : (nodeAt m.node_heap r).used = false := by
        rw [nodeAt_set, if_neg (fun hc => hra hc.1.symm)] at hrunused
        exact hrunused
      cases hnxc : (nodeAt m.node_heap a).next with
      | some nx =>
        obtain ⟨hnxlen, hnxused, hnxprev⟩ := linksOk_next hL ha hused hnxc
        have hnxa : ¬ nx = a := next_ne_self hT ha hused hnxc
        have hnxr : ¬ nx = r := by
          intro hc
          rw [hc, hr_orig_unused] at hnxused
          exact Bool.noConfusion hnxused
        obtain ⟨m7, hrun7, hRa, hRr, hRnx, hRo, hlen7, hna7, has7, hun7, hng7, hgx7, hpol7, hts7⟩ :=
          memNewAllocCommit_residual_mid m size a r nx pos ha hbig hfd hnxc hpos hra hrlen hnxa hnxr hnxlen
        rw [hrun7]
        dsimp only
        simp only [memAddToGapIx_node_heap]
        unfold NoAdjGaps
        intro x hx
        have hx3 : x < m.node_heap.length := by rw [hlen7] at hx; exact hx
        apply gapNextOkB_of
        intro hxg y hxy
        by_cases hxa : x = a
        · subst hxa
          rw [hRa] at hxg
          simp [Node.isGap] at hxg
        · by_cases hxr2 : x = r
          · subst hxr2
            rw [hRr] at hxy
            have hny : nx = y := Option.some_inj.mp hxy
            subst hny
            rw [hRnx]
            exact noAdjGaps_elim hN ha hgap hnxc
          · by_cases hxnx : x = nx
            · subst hxnx
              rw [hRnx] at hxg
              have h2 := (isGap_elim hxg).2
              rw [noAdjGaps_elim hN ha hgap hnxc] at h2
              exact Bool.noConfusion h2
            · have hxread := hRo x hxa hxr2 hxnx
              rw [hxread] at hxg hxy
              have hyalloc0 := noAdjGaps_elim hN hx3 hxg hxy
              by_cases hya : y = a
              · subst hya
                rw [hRa]
              · by_cases hyr : y = r
                · subst hyr
                  have h2 := (linksOk_next hL hx3 (isGap_elim hxg).1 hxy).2.1
                  rw [hr_orig_unused] at h2
                  exact Bool.noConfusion h2
                · by_cases hynx : y = nx
                  · subst hynx
                    rw [hRnx]
                    exact hyalloc0
                  · rw [hRo y hya hyr hynx]
                    exact hyalloc0
      | none =>
        obtain ⟨m7, hrun7, hRa, hRr, hRo, hlen7, hna7, has7, hun7, hng7, hgx7, hpol7, hts7⟩ :=
          memNewAllocCommit_residual_last m size a r pos ha hbig hfd hnxc hpos hra hrlen
        rw [hrun7]
        dsimp only
        simp only [memAddToGapIx_node_heap]
        unfold NoAdjGaps
        intro x hx
        have hx3 : x < m.node_heap.length := by rw [hlen7] at hx; exact hx
        apply gapNextOkB_of
        intro hxg y hxy
        by_cases hxa : x = a
        · subst hxa
          rw [hRa] at hxg
          simp [Node.isGap] at hxg
        · by_cases hxr2 : x = r
          · subst hxr2
            rw [hRr] at hxy
            exact Option.noConfusion hxy
          · have hxread := hRo x hxa hxr2
            rw [hxread] at hxg hxy
            have hyalloc0 := noAdjGaps_elim hN hx3 hxg hxy
            by_cases hya : y = a
            · subst hya
              rw [hRa]
            · by_cases hyr : y = r
              · subst hyr
                have h2 := (linksOk_next hL hx3 (isGap_elim hxg).1 hxy).2.1
                rw [hr_orig_unused] at h2
                exact Bool.noConfusion h2
              · rw [hRo y hya hyr]
                exact hyalloc0
  · have hsz : (nodeAt m.node_heap a).size = size := Nat.le_antisymm hge hfit
    rw [memNewAllocCommit_exact m size a hsz]
    dsimp only
    simp only [heapSet_node_heap, memRemoveFromGapIx_node_heap]
    unfold NoAdjGaps
    intro x hx
    have hx3 : x < m.node_heap.length := by
      rw [List.length_set] at hx
      exact hx
    apply gapNextOkB_of
    intro hxg y hxy
    by_cases hxa : a = x
    · rw [nodeAt_set, if_pos ⟨hxa, ha⟩] at hxg
      simp [Node.isGap] at hxg
    · rw [nodeAt_set, if_neg (fun hc => hxa hc.1)] at hxg hxy
      have hyalloc0 := noAdjGaps_elim hN hx3 hxg hxy
      by_cases hya : a = y
      · rw [nodeAt_set, if_pos ⟨hya, ha⟩]
      · rw [nodeAt_set, if_neg (fun hc => hya hc.1)]
        exact hyalloc0

/-- C3 counterexample: an at-rest pool on which a completed (successful)
`mem_new_alloc` leaves two adjacent gaps.  No gap fits the request of 4,
so the FIRST_FIT loop falls through to the brittle trailing check, which
returns the allocated record in the final heap slot; the residual path
then carves a gap out of that allocation, directly before the existing
gap that follows it in the list. -/
theorem alloc_creates_adjacent_gaps_on_anomalous_first_fit :
    AtRest anom3pool ∧
    (memNewAlloc anom3pool 4).1 = some 39 ∧
    ¬ NoAdjGaps (memNewAlloc anom3pool 4).2.node_heap := by
  refine ⟨by decide, by decide, by decide⟩

/-- C3 (corrected): on an at-rest pool, no two adjacent segments are both
gaps after a completed allocate, provided the record the policy selected
is a genuine fitting gap (the FIRST_FIT fallback can select an allocated
record, as the counterexample shows) and the arena is not full, and after
any release of a used record. -/
theorem no_adjacent_gaps_preserved (m : PoolMgr) (hAR : AtRest m) :
    (∀ size a, m.used_nodes < m.node_heap.length → (memNewAlloc m size).1 = some a →
      a < m.node_heap.length → (nodeAt m.node_heap a).isGap = true →
      size ≤ (nodeAt m.node_heap a).size →
      NoAdjGaps (memNewAlloc m size).2.node_heap) ∧
    (∀ i, i < m.node_heap.length → (nodeAt m.node_heap i).used = true →
      NoAdjGaps (memDelAlloc m i).2.node_heap) :=
  ⟨fun size a h1 h2 h3 h4 h5 => memNewAlloc_noAdjGaps m size a hAR h1 h2 h3 h4 h5,
   fun i h1 h2 => memDelAlloc_noAdjGaps m i hAR h1 h2⟩

/-- Witness for C3: a fresh 100-byte pool allocating 30 bytes, and a
two-segment pool releasing its allocation. -/
theorem no_adjacent_gaps_preserved_witness :
    AtRest freshPool ∧ AtRest c5pool ∧
    NoAdjGaps (memNewAlloc freshPool 30).2.node_heap ∧
    NoAdjGaps (memDelAlloc c5pool 0).2.node_heap := by
  refine ⟨by decide, by decide, ?_, ?_⟩
  · exact (no_adjacent_gaps_preserved freshPool (by decide)).1 30 0 (by decide) (by decide)
      (by decide) (by decide) (by decide)
  · exact (no_adjacent_gaps_preserved c5pool (by decide)).2 0 (by decide) (by decide)

/-- The forward-coalesce phase is a no-op whenever every successor of the
target is allocated. -/
theorem delFwd_id_of_alloc_next (m1 : PoolMgr) (i : Nat)
    (h : ∀ j, (nodeAt m1.node_heap i).next = some j → (nodeAt m1.node_heap j).allocated = true) :
    delFwd m1 i = m1 := by
  cases hnx : (nodeAt m1.node_heap i).next with
  | none => exact delFwd_none m1 i hnx
  | some j => exact delFwd_alloc m1 i j hnx (h j hnx)

/-- The backward-coalesce phase reduces to the plain gap-index insertion
whenever every predecessor of the target is allocated. -/
theorem delBwd_add_of_alloc_prev (m2 : PoolMgr) (i : Nat)
    (h : ∀ p, (nodeAt m2.node_heap i).prev = some p → (nodeAt m2.node_heap p).allocated = true) :
    delBwd m2 i = memAddToGapIx m2 (nodeAt m2.node_heap i).size i := by
  cases hpv : (nodeAt m2.node_heap i).prev with
  | none => exact delBwd_none m2 i hpv
  | some p => exact delBwd_alloc m2 i p hpv (h p hpv)

/-- The predecessor of a gap is a used, allocated record pointing back at
the gap. -/
theorem prev_of_gap_allocated (hp : List Node) (hL : LinksOk hp) (hN : NoAdjGaps hp)
    {a p : Nat} (ha : a < hp.length) (hgap : (nodeAt hp a).isGap = true)
    (hpv : (nodeAt hp a).prev = some p) :
    p < hp.length ∧ (nodeAt hp p).used = true ∧ (nodeAt hp p).next = some a ∧
    (nodeAt hp p).allocated = true := by
  obtain ⟨hplen, hpused, hpnext⟩ := linksOk_prev hL ha (isGap_elim hgap).1 hpv
  refine ⟨hplen, hpused, hpnext, ?_⟩
  cases hpa : (nodeAt hp p).allocated with
  | true => rfl
  | false =>
    have h2 := noAdjGaps_elim hN hplen (isGap_of hpused hpa) hpnext
    rw [(isGap_elim hgap).2] at h2
    exact Bool.noConfusion h2

/-- The observable segment structure is preserved by any final state that
reads like the original off one unused record and keeps the record
count. -/
theorem segList_eq_of_reads (m F : PoolMgr) (r : Nat)
    (hL : LinksOk m.node_heap)
    (hhead : (nodeAt m.node_heap 0).used = true)
    (hrun : (nodeAt m.node_heap r).used = false)
    (hagree : ∀ x, ¬ x = r → nodeAt F.node_heap x = nodeAt m.node_heap x)
    (hu : F.used_nodes = m.used_nodes) :
    segList F = segList m := by
  unfold segList
  rw [hu]
  apply segListWalk_congr_except F.node_heap m.node_heap r hagree
  · intro x hxu y hxy
    by_cases hxlen : x < m.node_heap.length
    · obtain ⟨hylen, hyused, hyprev⟩ := linksOk_next hL hxlen hxu hxy
      refine ⟨hyused, fun hc => ?_⟩
      rw [hc, hrun] at hyused
      exact Bool.noConfusion hyused
    · rw [nodeAt_of_le (Nat.le_of_not_lt hxlen)] at hxu
      exact Bool.noConfusion hxu
  · intro c hc
    rcases Option.some_inj.mp hc with rfl
    refine ⟨hhead, fun hc0 => ?_⟩
    rw [hc0, hrun] at hhead
    exact Bool.noConfusion hhead

/-- Two records with equal fields are equal. -/
theorem node_eq_of_fields (nd1 nd2 : Node)
    (h1 : nd1.size = nd2.size) (h2 : nd1.mem = nd2.mem) (h3 : nd1.used = nd2.used)
    (h4 : nd1.allocated = nd2.allocated) (h5 : nd1.next = nd2.next) (h6 : nd1.prev = nd2.prev) :
    nd1 = nd2 := by
  cases nd1
  cases nd2
  dsimp only at h1 h2 h3 h4 h5 h6
  subst h1 h2 h3 h4 h5 h6
  rfl

/-- C4 (corrected): allocate followed by an immediate release of the
returned handle restores the observable segment structure and the
`num_allocs`, `num_gaps` and `alloc_size` counters, for every at-rest
pool whose head record is in use and whose arena is not full, provided
the record the policy selected is a genuine fitting gap (the FIRST_FIT
fallback can select an already-allocated record, and then the round trip
does not restore the pool, as the counterexample shows). -/
theorem alloc_free_roundtrip (m : PoolMgr) (size a : Nat)
    (hAR : AtRest m)
    (hhead : (nodeAt m.node_heap 0).used = true)
    (hnogrow : m.used_nodes < m.node_heap.length)
    (hsel : (memNewAlloc m size).1 = some a)
    (ha : a < m.node_heap.length)
    (hgap : (nodeAt m.node_heap a).isGap = true)
    (hfit : size ≤ (nodeAt m.node_heap a).size) :
    segList (memDelAlloc (memNewAlloc m size).2 a).2 = segList m ∧
    (memDelAlloc (memNewAlloc m size).2 a).2.num_allocs = m.num_allocs ∧
    (memDelAlloc (memNewAlloc m size).2 a).2.num_gaps = m.num_gaps ∧
    (memDelAlloc (memNewAlloc m size).2 a).2.alloc_size = m.alloc_size := by
  obtain ⟨hL, hT, hN, hZ, hGV, hGC, hGN, hGS, hCK⟩ := hAR
  obtain ⟨hused, hnotalloc⟩ := isGap_elim hgap
  have hng := memResizeNodeHeap_id m hnogrow
  obtain ⟨hg0, hps, hrun⟩ := memNewAlloc_success_elim m size a hng hsel
  have hg1 : 1 ≤ m.num_gaps := Nat.one_le_iff_ne_zero.mpr hg0
  obtain ⟨pos, hpos⟩ := gapFindPos_of_complete m a hGC hGV ha hgap
  rw [hrun]
  rcases Nat.lt_or_ge size (nodeAt m.node_heap a).size with hbig | hge
  · cases hfd : (m.node_heap.set a { nodeAt m.node_heap a with allocated := true, size := size }).findIdx? (fun nd => !nd.used) with
    | none =>
      have hnone := memNewAllocCommit_nofind m size a hbig hfd
      rw [hrun] at hsel
      rw [hnone] at hsel
      exact absurd hsel (by simp)
    | some r =>
      have hf := findIdx?_found Node.zero hfd
      have hrlen : r < m.node_heap.length := by
        have := hf.1
        rw [List.length_set] at this
        exact this
      have hrunused : (nodeAt (m.node_heap.set a { nodeAt m.node_heap a with allocated := true, size := size }) r).used = false := by
        have := hf.2.1
        simpa [nodeAt] using this
      have hra : ¬ r = a := by
        intro hc
        rw [hc, nodeAt_set, if_pos ⟨rfl, ha⟩] at hrunused
        have h2 : (nodeAt m.node_heap a).used = false := hrunused
        rw [hused] at h2
        exact Bool.noConfusion h2
      have hr_orig_unused : (nodeAt m.node_heap r).used = false := by
        rw [nodeAt_set, if_neg (fun hc => hra hc.1.symm)] at hrunused
        exact hrunused
      cases hnxc : (nodeAt m.node_heap a).next with
      | some nx =>
        obtain ⟨hnxlen, hnxused, hnxprev⟩ := linksOk_next hL ha hused hnxc
        have hnxa : ¬ nx = a := next_ne_self hT ha hused hnxc
        have hnxr : ¬ nx = r := by
          intro hc
          rw [hc, hr_orig_unused] at hnxused
          exact Bool.noConfusion hnxused
        obtain ⟨m7, hrun7, hRa, hRr, hRnx, hRo, hlen7, hna7, has7, hun7, hng7, hgx7, hpol7, hts7⟩ :=
          memNewAllocCommit_residual_mid m size a r nx pos ha hbig hfd hnxc hpos hra hrlen hnxa hnxr hnxlen
        rw [hrun7]
        dsimp only
        have hMheap : (memAddToGapIx m7 ((nodeAt m.node_heap a).size - size) r).2.node_heap = m7.node_heap :=
          memAddToGapIx_node_heap m7 _ r
        have hgxlen : m7.gap_ix.length = m.gap_ix.length := by
          rw [hgx7]
          simp
        have hcap : m7.num_gaps < m7.gap_ix.length := by
          rw [hng7, hgxlen]
          have h2 : m.num_gaps ≤ m.gap_ix.length := hGV.1
          omega
        obtain ⟨pos2, hpos2r⟩ := memAddToGapIx_contains m7 ((nodeAt m.node_heap a).size - size) r hcap
        have haM : a < (memAddToGapIx m7 ((nodeAt m.node_heap a).size - size) r).2.node_heap.length := by
          rw [hMheap, hlen7]
          exact ha
        have hM2a : nodeAt (memAddToGapIx m7 ((nodeAt m.node_heap a).size - size) r).2.node_heap a = { nodeAt m.node_heap a with allocated := true, size := size, next := some r } := by
          rw [hMheap]
          exact hRa
        have hM2r : nodeAt (memAddToGapIx m7 ((nodeAt m.node_heap a).size - size) r).2.node_heap r = { size := (nodeAt m.node_heap a).size - size, mem := (nodeAt m.node_heap a).mem.map (fun x => x + size), used := true, allocated := false, next := some nx, prev := some a } := by
          rw [hMheap]
          exact hRr
        have hM2nx : nodeAt (memAddToGapIx m7 ((nodeAt m.node_heap a).size - size) r).2.node_heap nx = { nodeAt m.node_heap nx with prev := some r } := by
          rw [hMheap]
          exact hRnx
        have hM2o : ∀ x, ¬ x = a → ¬ x = r → ¬ x = nx →
            nodeAt (memAddToGapIx m7 ((nodeAt m.node_heap a).size - size) r).2.node_heap x = nodeAt m.node_heap x := by
          intro x h1 h2 h3
          rw [hMheap]
          exact hRo x h1 h2 h3
        unfold memDelAlloc
        have hDaX : nodeAt (delMark (memAddToGapIx m7 ((nodeAt m.node_heap a).size - size) r).2 a).node_heap a = { nodeAt m.node_heap a with allocated := false, size := size, next := some r } := by
          rw [delMark_read_self _ haM, hM2a]
        have hDr : nodeAt (delMark (memAddToGapIx m7 ((nodeAt m.node_heap a).size - size) r).2 a).node_heap r = { size := (nodeAt m.node_heap a).size - size, mem := (nodeAt m.node_heap a).mem.map (fun x => x + size), used := true, allocated := false, next := some nx, prev := some a } := by
          rw [delMark_read_other _ (fun hc => hra hc.symm), hM2r]
        have hDnx : nodeAt (delMark (memAddToGapIx m7 ((nodeAt m.node_heap a).size - size) r).2 a).node_heap nx = { nodeAt m.node_heap nx with prev := some r } := by
          rw [delMark_read_other _ (fun hc => hnxa hc.symm), hM2nx]
        have hDo : ∀ x, ¬ x = a → ¬ x = r → ¬ x = nx →
            nodeAt (delMark (memAddToGapIx m7 ((nodeAt m.node_heap a).size - size) r).2 a).node_heap x = nodeAt m.node_heap x := by
          intro x h1 h2 h3
          rw [delMark_read_other _ (fun hc => h1 hc.symm)]
          exact hM2o x h1 h2 h3
        have hDnext : (nodeAt (delMark (memAddToGapIx m7 ((nodeAt m.node_heap a).size - size) r).2 a).node_heap a).next = some r := by
          rw [hDaX]
        have hDrAlloc : (nodeAt (delMark (memAddToGapIx m7 ((nodeAt m.node_heap a).size - size) r).2 a).node_heap r).allocated = false := by
          rw [hDr]
        rw [delFwd_gap _ a r hDnext hDrAlloc]
        have haD : a < (delMark (memAddToGapIx m7 ((nodeAt m.node_heap a).size - size) r).2 a).node_heap.length := by
          rw [delMark_node_heap_length]
          exact haM
        have hrD : r < (delMark (memAddToGapIx m7 ((nodeAt m.node_heap a).size - size) r).2 a).node_heap.length := by
          rw [delMark_node_heap_length, hMheap, hlen7]
          exact hrlen
        have hDrN : (nodeAt (delMark (memAddToGapIx m7 ((nodeAt m.node_heap a).size - size) r).2 a).node_heap r).next = some nx := by
          rw [hDr]
        have hnxD : nx < (delMark (memAddToGapIx m7 ((nodeAt m.node_heap a).size - size) r).2 a).node_heap.length := by
          rw [delMark_node_heap_length, hMheap, hlen7]
          exact hnxlen
        obtain ⟨hFa, hFr, hFnx, hFo⟩ :=
          forwardMerge_read_mid (delMark (memAddToGapIx m7 ((nodeAt m.node_heap a).size - size) r).2 a) a r nx haD hrD hra hDrN hnxa hnxr hnxD
        have hFa2 : nodeAt (forwardMerge (delMark (memAddToGapIx m7 ((nodeAt m.node_heap a).size - size) r).2 a) a r).node_heap a = nodeAt m.node_heap a := by
          rw [hFa, hDaX, hDr]
          exact node_eq_of_fields _ _ (Nat.add_sub_cancel' hfit) rfl rfl hnotalloc.symm hnxc.symm rfl
        have hFnx2 : nodeAt (forwardMerge (delMark (memAddToGapIx m7 ((nodeAt m.node_heap a).size - size) r).2 a) a r).node_heap nx = nodeAt m.node_heap nx := by
          rw [hFnx, hDnx]
          exact node_eq_of_fields _ _ rfl rfl rfl rfl rfl hnxprev.symm
        have hFagree : ∀ x, ¬ x = r →
            nodeAt (forwardMerge (delMark (memAddToGapIx m7 ((nodeAt m.node_heap a).size - size) r).2 a) a r).node_heap x = nodeAt m.node_heap x := by
          intro x h2
          by_cases h1 : x = a
          · rw [h1]; exact hFa2
          · by_cases h3 : x = nx
            · rw [h3]; exact hFnx2
            · rw [hFo x h1 h2 h3]
              exact hDo x h1 h2 h3
        have hbwd := delBwd_add_of_alloc_prev (forwardMerge (delMark (memAddToGapIx m7 ((nodeAt m.node_heap a).size - size) r).2 a) a r) a (by
          intro p hp
          rw [hFa2] at hp
          obtain ⟨hplen, hpused, hpnext, hpalloc⟩ := prev_of_gap_allocated m.node_heap hL hN ha hgap hp
          have hpr2 : ¬ p = r := by
            intro hc
            rw [hc, hr_orig_unused] at hpused
            exact Bool.noConfusion hpused
          rw [hFagree p hpr2]
          exact hpalloc)
        rw [hbwd]
        refine ⟨?_, ?_, ?_, ?_⟩
        · apply segList_eq_of_reads m _ r hL hhead hr_orig_unused
          · intro x hx
            rw [memAddToGapIx_node_heap]
            exact hFagree x hx
          · simp only [memAddToGapIx_used_nodes, forwardMerge_used_nodes, delMark_used_nodes, hun7]
            omega
        · simp only [memAddToGapIx_num_allocs, forwardMerge_num_allocs, delMark_num_allocs, hna7]
          omega
        · rw [memAddToGapIx_num_gaps, forwardMerge_num_gaps (delMark (memAddToGapIx m7 ((nodeAt m.node_heap a).size - size) r).2 a) a r pos2 hpos2r, delMark_num_gaps,
            memAddToGapIx_num_gaps, hng7]
          omega
        · rw [memAddToGapIx_alloc_size, forwardMerge_alloc_size, delMark_alloc_size, hM2a,
            memAddToGapIx_alloc_size, has7]
          show m.alloc_size + size - size = m.alloc_size
          omega
      | none =>
        obtain ⟨m7, hrun7, hRa, hRr, hRo, hlen7, hna7, has7, hun7, hng7, hgx7, hpol7, hts7⟩ :=
          memNewAllocCommit_residual_last m size a r pos ha hbig hfd hnxc hpos hra hrlen
        rw [hrun7]
        dsimp only
        have hMheap : (memAddToGapIx m7 ((nodeAt m.node_heap a).size - size) r).2.node_heap = m7.node_heap :=
          memAddToGapIx_node_heap m7 _ r
        have hgxlen : m7.gap_ix.length = m.gap_ix.length := by
          rw [hgx7]
          simp
        have hcap : m7.num_gaps < m7.gap_ix.length := by
          rw [hng7, hgxlen]
          have h2 : m.num_gaps ≤ m.gap_ix.length := hGV.1
          omega
        obtain ⟨pos2, hpos2r⟩ := memAddToGapIx_contains m7 ((nodeAt m.node_heap a).size - size) r hcap
        have haM : a < (memAddToGapIx m7 ((nodeAt m.node_heap a).size - size) r).2.node_heap.length := by
          rw [hMheap, hlen7]
          exact ha
        have hM2a : nodeAt (memAddToGapIx m7 ((nodeAt m.node_heap a).size - size) r).2.node_heap a = { nodeAt m.node_heap a with allocated := true, size := size, next := some r } := by
          rw [hMheap]
          exact hRa
        have hM2r : nodeAt (memAddToGapIx m7 ((nodeAt m.node_heap a).size - size) r).2.node_heap r = { size := (nodeAt m.node_heap a).size - size, mem := (nodeAt m.node_heap a).mem.map (fun x => x + size), used := true, allocated := false, next := none, prev := some a } := by
          rw [hMheap]
          exact hRr
        have hM2o : ∀ x, ¬ x = a → ¬ x = r →
            nodeAt (memAddToGapIx m7 ((nodeAt m.node_heap a).size - size) r).2.node_heap x = nodeAt m.node_heap x := by
          intro x h1 h2
          rw [hMheap]
          exact hRo x h1 h2
        unfold memDelAlloc
        have hDaX : nodeAt (delMark (memAddToGapIx m7 ((nodeAt m.node_heap a).size - size) r).2 a).node_heap a = { nodeAt m.node_heap a with allocated := false, size := size, next := some r } := by
          rw [delMark_read_self _ haM, hM2a]
        have hDr : nodeAt (delMark (memAddToGapIx m7 ((nodeAt m.node_heap a).size - size) r).2 a).node_heap r = { size := (nodeAt m.node_heap a).size - size, mem := (nodeAt m.node_heap a).mem.map (fun x => x + size), used := true, allocated := false, next := none, prev := some a } := by
          rw [delMark_read_other _ (fun hc => hra hc.symm), hM2r]
        have hDo : ∀ x, ¬ x = a → ¬ x = r →
            nodeAt (delMark (memAddToGapIx m7 ((nodeAt m.node_heap a).size - size) r).2 a).node_heap x = nodeAt m.node_heap x := by
          intro x h1 h2
          rw [delMark_read_other _ (fun hc => h1 hc.symm)]
          exact hM2o x h1 h2
        have hDnext : (nodeAt (delMark (memAddToGapIx m7 ((nodeAt m.node_heap a).size - size) r).2 a).node_heap a).next = some r := by
          rw [hDaX]
        have hDrAlloc : (nodeAt (delMark (memAddToGapIx m7 ((nodeAt m.node_heap a).size - size) r).2 a).node_heap r).allocated = false := by
          rw [hDr]
        rw [delFwd_gap _ a r hDnext hDrAlloc]
        have haD : a < (delMark (memAddToGapIx m7 ((nodeAt m.node_heap a).size - size) r).2 a).node_heap.length := by
          rw [delMark_node_heap_length]
          exact haM
        have hrD : r < (delMark (memAddToGapIx m7 ((nodeAt m.node_heap a).size - size) r).2 a).node_heap.length := by
          rw [delMark_node_heap_length, hMheap, hlen7]
          exact hrlen
        have hDrN : (nodeAt (delMark (memAddToGapIx m7 ((nodeAt m.node_heap a).size - size) r).2 a).node_heap r).next = none := by
          rw [hDr]
        obtain ⟨hFa, hFr, hFo⟩ :=
          forwardMerge_read_last (delMark (memAddToGapIx m7 ((nodeAt m.node_heap a).size - size) r).2 a) a r haD hrD hra hDrN
        have hFa2 : nodeAt (forwardMerge (delMark (memAddToGapIx m7 ((nodeAt m.node_heap a).size - size) r).2 a) a r).node_heap a = nodeAt m.node_heap a := by
          rw [hFa, hDaX, hDr]
          exact node_eq_of_fields _ _ (Nat.add_sub_cancel' hfit) rfl rfl hnotalloc.symm hnxc.symm rfl
        have hFagree : ∀ x, ¬ x = r →
            nodeAt (forwardMerge (delMark (memAddToGapIx m7 ((nodeAt m.node_heap a).size - size) r).2 a) a r).node_heap x = nodeAt m.node_heap x := by
          intro x h2
          by_cases h1 : x = a
          · rw [h1]; exact hFa2
          · rw [hFo x h1 h2]
            exact hDo x h1 h2
        have hbwd := delBwd_add_of_alloc_prev (forwardMerge (delMark (memAddToGapIx m7 ((nodeAt m.node_heap a).size - size) r).2 a) a r) a (by
          intro p hp
          rw [hFa2] at hp
          obtain ⟨hplen, hpused, hpnext, hpalloc⟩ := prev_of_gap_allocated m.node_heap hL hN ha hgap hp
          have hpr2 : ¬ p = r := by
            intro hc
            rw [hc, hr_orig_unused] at hpused
            exact Bool.noConfusion hpused
          rw [hFagree p hpr2]
          exact hpalloc)
        rw [hbwd]
        refine ⟨?_, ?_, ?_, ?_⟩
        · apply segList_eq_of_reads m _ r hL hhead hr_orig_unused
          · intro x hx
            rw [memAddToGapIx_node_heap]
            exact hFagree x hx
          · simp only [memAddToGapIx_used_nodes, forwardMerge_used_nodes, delMark_used_nodes, hun7]
            omega
        · simp only [memAddToGapIx_num_allocs, forwardMerge_num_allocs, delMark_num_allocs, hna7]
          omega
        · rw [memAddToGapIx_num_gaps, forwardMerge_num_gaps (delMark (memAddToGapIx m7 ((nodeAt m.node_heap a).size - size) r).2 a) a r pos2 hpos2r, delMark_num_gaps,
            memAddToGapIx_num_gaps, hng7]
          omega
        · rw [memAddToGapIx_alloc_size, forwardMerge_alloc_size, delMark_alloc_size, hM2a,
            memAddToGapIx_alloc_size, has7]
          show m.alloc_size + size - size = m.alloc_size
          omega
  · have hsz : (nodeAt m.node_heap a).size = size := Nat.le_antisymm hge hfit
    rw [memNewAllocCommit_exact m size a hsz]
    dsimp only
    have hM2a : nodeAt (heapSet (memRemoveFromGapIx { m with num_allocs := m.num_allocs + 1, alloc_size := m.alloc_size + size } size a).2 a { nodeAt m.node_heap a with allocated := true, size := size }).node_heap a = { nodeAt m.node_heap a with allocated := true, size := size } := by
      simp only [heapSet_node_heap, memRemoveFromGapIx_node_heap, nodeAt_set, List.length_set]
      rw [if_pos ⟨trivial, ha⟩]
    have hM2o : ∀ x, ¬ x = a →
        nodeAt (heapSet (memRemoveFromGapIx { m with num_allocs := m.num_allocs + 1, alloc_size := m.alloc_size + size } size a).2 a { nodeAt m.node_heap a with allocated := true, size := size }).node_heap x = nodeAt m.node_heap x := by
      intro x hx
      simp only [heapSet_node_heap, memRemoveFromGapIx_node_heap, nodeAt_set, List.length_set]
      rw [if_neg (fun hc => hx hc.1.symm)]
    have haM : a < (heapSet (memRemoveFromGapIx { m with num_allocs := m.num_allocs + 1, alloc_size := m.alloc_size + size } size a).2 a { nodeAt m.node_heap a with allocated := true, size := size }).node_heap.length := by
      simp only [heapSet_node_heap, memRemoveFromGapIx_node_heap, List.length_set]
      exact ha
    unfold memDelAlloc
    have hDa : nodeAt (delMark (heapSet (memRemoveFromGapIx { m with num_allocs := m.num_allocs + 1, alloc_size := m.alloc_size + size } size a).2 a { nodeAt m.node_heap a with allocated := true, size := size }) a).node_heap a = nodeAt m.node_heap a := by
      rw [delMark_read_self _ haM, hM2a]
      exact node_eq_of_fields _ _ hsz.symm rfl rfl hnotalloc.symm rfl rfl
    have hDall : ∀ x, nodeAt (delMark (heapSet (memRemoveFromGapIx { m with num_allocs := m.num_allocs + 1, alloc_size := m.alloc_size + size } size a).2 a { nodeAt m.node_heap a with allocated := true, size := size }) a).node_heap x = nodeAt m.node_heap x := by
      intro x
      by_cases hx : x = a
      · rw [hx]; exact hDa
      · rw [delMark_read_other _ (fun hc => hx hc.symm)]
        exact hM2o x hx
    have hfwd : delFwd (delMark (heapSet (memRemoveFromGapIx { m with num_allocs := m.num_allocs + 1, alloc_size := m.alloc_size + size } size a).2 a { nodeAt m.node_heap a with allocated := true, size := size }) a) a = (delMark (heapSet (memRemoveFromGapIx { m with num_allocs := m.num_allocs + 1, alloc_size := m.alloc_size + size } size a).2 a { nodeAt m.node_heap a with allocated := true, size := size }) a) := by
      apply delFwd_id_of_alloc_next
      intro j hj
      rw [hDall a] at hj
      rw [hDall j]
      exact noAdjGaps_elim hN ha hgap hj
    rw [hfwd]
    have hbwd := delBwd_add_of_alloc_prev (delMark (heapSet (memRemoveFromGapIx { m with num_allocs := m.num_allocs + 1, alloc_size := m.alloc_size + size } size a).2 a { nodeAt m.node_heap a with allocated := true, size := size }) a) a (by
      intro p hp
      rw [hDall a] at hp
      obtain ⟨hplen, hpused, hpnext, hpalloc⟩ := prev_of_gap_allocated m.node_heap hL hN ha hgap hp
      rw [hDall p]
      exact hpalloc)
    rw [hbwd]
    have hpos2c : gapFindPos ({ m with num_allocs := m.num_allocs + 1, alloc_size := m.alloc_size + size } : PoolMgr).gap_ix a = some pos := hpos
    refine ⟨?_, ?_, ?_, ?_⟩
    · apply segList_eq_of_reads m _ m.node_heap.length hL hhead
      · rw [nodeAt_of_le (le_refl m.node_heap.length)]
        rfl
      · intro x hx
        rw [memAddToGapIx_node_heap]
        exact hDall x
      · simp only [memAddToGapIx_used_nodes, delMark_used_nodes, heapSet_used_nodes,
          memRemoveFromGapIx_used_nodes]
    · simp only [memAddToGapIx_num_allocs, delMark_num_allocs, heapSet_num_allocs,
        memRemoveFromGapIx_num_allocs]
      show m.num_allocs + 1 - 1 = m.num_allocs
      omega
    · rw [memAddToGapIx_num_gaps, delMark_num_gaps, heapSet_num_gaps,
        (memRemoveFromGapIx_found _ size a pos hpos2c).2]
      show m.num_gaps - 1 + 1 = m.num_gaps
      omega
    · rw [memAddToGapIx_alloc_size, delMark_alloc_size, hM2a, heapSet_alloc_size,
        memRemoveFromGapIx_alloc_size]
      show m.alloc_size + size - size = m.alloc_size
      omega

/-- C4 counterexample: an at-rest pool on which a successful
`mem_new_alloc` followed by an immediate release of the returned handle
does not restore the segment structure.  No gap fits the request of 4, so
the FIRST_FIT trailing check returns the allocated record in the final
heap slot; re-allocating and then releasing it coalesces it into its
neighboring gap, collapsing three segments into two. -/
theorem alloc_free_roundtrip_fails_on_anomalous_first_fit :
    AtRest anompool ∧
    (memNewAlloc anompool 4).1 = some 39 ∧
    ¬ segList (memDelAlloc (memNewAlloc anompool 4).2 39).2 = segList anompool := by
  refine ⟨by decide, by decide, by decide⟩

/-- Witness for C4: a fresh 100-byte first-fit pool allocating and
releasing 30 bytes through the residual path. -/
theorem alloc_free_roundtrip_witness :
    (AtRest freshPool ∧ (nodeAt freshPool.node_heap 0).used = true ∧
      freshPool.used_nodes < freshPool.node_heap.length ∧
      (memNewAlloc freshPool 30).1 = some 0 ∧ 0 < freshPool.node_heap.length ∧
      (nodeAt freshPool.node_heap 0).isGap = true ∧
      30 ≤ (nodeAt freshPool.node_heap 0).size) ∧
    segList (memDelAlloc (memNewAlloc freshPool 30).2 0).2 = segList freshPool ∧
    (memDelAlloc (memNewAlloc freshPool 30).2 0).2.num_allocs = freshPool.num_allocs ∧
    (memDelAlloc (memNewAlloc freshPool 30).2 0).2.num_gaps = freshPool.num_gaps ∧
    (memDelAlloc (memNewAlloc freshPool 30).2 0).2.alloc_size = freshPool.alloc_size := by
  have h := alloc_free_roundtrip freshPool 30 0 (by decide) (by decide) (by decide) (by decide)
    (by decide) (by decide) (by decide)
  exact ⟨⟨by decide, by decide, by decide, by decide, by decide, by decide, by decide⟩,
    h.1, h.2.1, h.2.2.1, h.2.2.2⟩
